import Mathlib

/-! # pipeline-backend: audio operator and form handler, verified properties

Shallow embedding of `pkg/component/operator/audio/v0`:

* `toMono`, `resample`, `detectVoiceActivity` (task_detect_voice_activity.go)
* `decodeAudio`, `extractSegment`, `encodeSegment`, `extractAudioSegments`
  (task_extract_audio_segments.go)

and, in namespace `Handler`, of `convertFormData` (pkg/handler/handle.go).

Conventions of the embedding

* A Go call either returns normally, returns a non-nil `error`, or stops with a
  run-time panic (index or slice bounds).  The three outcomes are the values of
  `Except Fault α`.
* Go `int` is the 64-bit two's complement integer: sums are wrapped by
  `wrapInt64`, `/` is truncating division (`Int.tdiv`).
* `float64` values are modelled by dyadic numbers (`F64`) with the IEEE-754
  round-to-nearest-even rule at 53 significant bits.  The exponent range is
  not bounded (no infinities, no subnormals).
* Code of other modules (the WAV codec, the FFT package, the speech detector,
  the struct converters) is not part of the repository; it enters as the
  fields of parameter records.
-/

namespace Audio

/-! ## Go run-time model -/

/-- The two ways a Go call can fail: a returned `error` value or a run-time panic. -/
inductive Fault where
  | error (msg : String)
  | panic (msg : String)
  deriving DecidableEq, Repr

deriving instance DecidableEq for Except

/-- Smallest Go `int` (64 bit). -/
def minInt64 : Int := -(2 ^ 63)

/-- Largest Go `int` (64 bit). -/
def maxInt64 : Int := 2 ^ 63 - 1

/-- Two's complement wrap-around of an exact integer into the range of Go `int`. -/
def wrapInt64 (x : Int) : Int := (x + 2 ^ 63) % 2 ^ 64 - 2 ^ 63

/-- Go `a + b` on `int`. -/
def goAdd (a b : Int) : Int := wrapInt64 (a + b)

/-- Go `a / b` on `int` for a non-zero constant divisor other than `-1`:
division truncating toward zero. -/
def goDiv (a b : Int) : Int := Int.tdiv a b

/-- Go `xs[i]` for a non-negative index: panics when `i` is not below `len(xs)`. -/
def goIndex {α : Type} (xs : List α) (i : Nat) : Except Fault α :=
  match xs[i]? with
  | some v => .ok v
  | none => .error (.panic "index out of range")

/-! ## go-audio buffers -/

/-- The `audio.Format` record of go-audio. -/
structure Format where
  NumChannels : Int
  SampleRate : Int
  deriving DecidableEq, Repr

/-- The `audio.IntBuffer` record of go-audio (`Data` is the sample slice). -/
structure IntBuffer where
  Format : Format
  Data : List Int
  SourceBitDepth : Int
  deriving DecidableEq, Repr

/-! ## toMono (task_detect_voice_activity.go, lines 105-113) -/

/-- Body of the loop of `toMono` for index `i`:
`(buffer.Data[2*i] + buffer.Data[2*i+1]) / 2`. -/
def monoSample (data : List Int) (i : Nat) : Except Fault Int := do
  let a ← goIndex data (2 * i)
  let b ← goIndex data (2 * i + 1)
  pure (goDiv (goAdd a b) 2)

/-- The loop `for i := range monoData` of `toMono`, run for the indices
`0, 1, ..., k-1` in this order; the result lists `monoData[0..k-1]`. -/
def toMonoLoop (data : List Int) : Nat → Except Fault (List Int)
  | 0 => pure []
  | k + 1 => do
    let filled ← toMonoLoop data k
    let v ← monoSample data k
    pure (filled ++ [v])

/-- Embedding of `toMono`: `monoData` has `len(buffer.Data)/2` entries, the
loop fills them, then `Data` and `NumChannels` of the buffer are replaced. -/
def toMono (buffer : IntBuffer) : Except Fault IntBuffer := do
  let monoData ← toMonoLoop buffer.Data (buffer.Data.length / 2)
  pure { buffer with Data := monoData, Format := { buffer.Format with NumChannels := 1 } }

/-! ## float64 model

A finite `float64` is `mant * 2 ^ exp` with `|mant| < 2 ^ 53`.  Products and
quotients are computed exactly on the integers and then rounded to 53
significant bits, ties to even, as IEEE-754 prescribes for `*` and `/`. -/

/-- A finite float64 value `mant * 2 ^ exp`. -/
structure F64 where
  mant : Int
  exp : Int
  deriving DecidableEq, Repr

/-- The rational number denoted by a float64 value. -/
def F64.toRat (x : F64) : ℚ := (x.mant : ℚ) * (2 : ℚ) ^ x.exp

/-- Number of binary digits of `n`, by repeated halving (`fuel` bounds the number of steps). -/
def bitLenAux : Nat → Nat → Nat
  | 0, _ => 0
  | fuel + 1, n => if n = 0 then 0 else bitLenAux fuel (n / 2) + 1

/-- Number of binary digits of `n` (`0` for `n = 0`). -/
def bitLen (n : Nat) : Nat := bitLenAux n n

/-- Round the exact magnitude `n + f` (`0 ≤ f < 1`, `sticky` tells whether `f ≠ 0`) to at most
53 significant bits, ties to even.  The result `(m, s)` denotes `m * 2 ^ s`. -/
def roundSig (n : Nat) (sticky : Bool) : Nat × Nat :=
  let s := bitLen n - 53
  let q := n / 2 ^ s
  let r := n % 2 ^ s
  let up := decide (2 ^ s < 2 * r) ||
    (decide (2 * r = 2 ^ s) && (sticky || decide (q % 2 = 1)))
  (if up then q + 1 else q, s)

/-- Go `float64(i)` for an `int` (or `uint32`) value `i`. -/
def f64OfInt (i : Int) : F64 :=
  let ms := roundSig i.natAbs false
  { mant := Int.sign i * ms.1, exp := ms.2 }

/-- Go `x * y` on float64. -/
def f64Mul (x y : F64) : F64 :=
  let p := x.mant * y.mant
  let ms := roundSig p.natAbs false
  { mant := Int.sign p * ms.1, exp := x.exp + y.exp + ms.2 }

/-- Go `x / y` on float64 for a non-zero divisor.  The numerator is scaled by `2 ^ k` so that
the integer quotient has more than 54 bits; the remainder only contributes the sticky bit. -/
def f64Div (x y : F64) : F64 :=
  let k := 55 + bitLen y.mant.natAbs - bitLen x.mant.natAbs
  let n := x.mant.natAbs * 2 ^ k
  let ms := roundSig (n / y.mant.natAbs) (decide (n % y.mant.natAbs ≠ 0))
  { mant := Int.sign x.mant * Int.sign y.mant * ms.1, exp := x.exp - y.exp - k + ms.2 }

/-- The integer part of a float64 value: the fraction is dropped (toward zero). -/
def f64Trunc (x : F64) : Int :=
  if 0 ≤ x.exp then x.mant * 2 ^ x.exp.toNat else Int.tdiv x.mant (2 ^ (-x.exp).toNat)

/-- Go `int(x)` for a float64 `x`: the fraction is discarded.  A value outside the range of
`int` has no portable result; the amd64 result (the smallest `int`) is used. -/
def f64ToInt (x : F64) : Int :=
  let v := f64Trunc x
  if minInt64 ≤ v ∧ v ≤ maxInt64 then v else minInt64

/-! ## extractSegment (task_extract_audio_segments.go, lines 86-98) -/

/-- The `segment` record of audio.go: a time interval in seconds. -/
structure segment where
  StartTime : F64
  EndTime : F64
  deriving DecidableEq, Repr

/-- Go `xs[lo:hi]`: panics unless `0 ≤ lo ≤ hi ≤ cap(xs)`.  The capacity is taken to be the
length; `extractSegment` never asks for an upper bound above `len(xs)`. -/
def goSlice {α : Type} (xs : List α) (lo hi : Int) : Except Fault (List α) :=
  if 0 ≤ lo ∧ lo ≤ hi ∧ hi ≤ xs.length then
    .ok ((xs.take hi.toNat).drop lo.toNat)
  else
    .error (.panic "slice bounds out of range")

/-- The float64 product `t * float64(format.SampleRate) * float64(format.NumChannels)`
(Go multiplies from left to right). -/
def indexProduct (t : F64) (format : Format) : F64 :=
  f64Mul (f64Mul t (f64OfInt format.SampleRate)) (f64OfInt format.NumChannels)

/-- The sample index `extractSegment` computes for a time `t`:
`int(t * float64(format.SampleRate) * float64(format.NumChannels))`. -/
def sampleIndex (t : F64) (format : Format) : Int :=
  f64ToInt (indexProduct t format)

/-- Embedding of `extractSegment`: the two indices, the two clamping `if`s, the reslice. -/
def extractSegment (audioBuf : IntBuffer) (seg : segment) : Except Fault (List Int) :=
  let startSample := sampleIndex seg.StartTime audioBuf.Format
  let endSample := sampleIndex seg.EndTime audioBuf.Format
  let startSample := if startSample < 0 then 0 else startSample
  let endSample :=
    if endSample > (audioBuf.Data.length : Int) then (audioBuf.Data.length : Int) else endSample
  goSlice audioBuf.Data startSample endSample

/-- The value `m * 2 ^ s` of the rounding of a non-negative integer to 53 bits. -/
def roundVal (n : Nat) : Nat := (roundSig n false).1 * 2 ^ (roundSig n false).2

/-- The rounding of an integer to 53 significant bits (rounding is symmetric in the sign). -/
def roundInt (i : Int) : Int := Int.sign i * (roundVal i.natAbs : Int)

/-! ## resample (task_detect_voice_activity.go, lines 115-130) -/

/-- A Go slice seen together with its underlying array: `backing` lists the array from the
first element of the slice up to its capacity, `len` is the length of the slice. -/
structure GoSlice (α : Type) where
  backing : List α
  len : Nat

/-- Go `cap(s)`. -/
def GoSlice.cap {α : Type} (s : GoSlice α) : Nat := s.backing.length

/-- The elements `s[0], ..., s[len(s)-1]`. -/
def GoSlice.elems {α : Type} (s : GoSlice α) : List α := s.backing.take s.len

/-- Go `s[:hi]`: panics unless `0 ≤ hi ≤ cap(s)`; the result shares the array. -/
def GoSlice.resliceTo {α : Type} (s : GoSlice α) (hi : Int) : Except Fault (GoSlice α) :=
  if 0 ≤ hi ∧ hi ≤ s.cap then
    .ok { backing := s.backing, len := hi.toNat }
  else
    .error (.panic "slice bounds out of range")

/-- The part of `github.com/mjibson/go-dsp/fft` that `resample` calls.  The package is not part
of the repository: its functions are parameters of the embedding. -/
structure FFTPackage where
  /-- Go `complex128`. -/
  Complex : Type
  /-- Go `real(v)`. -/
  real : Complex → F64
  /-- `fft.FFTReal`. -/
  FFTReal : List F64 → GoSlice Complex
  /-- `fft.IFFT`. -/
  IFFT : List Complex → Except Fault (List Complex)

/-- The length `resample` gives to `out`:
`int(float64(n) * (float64(outputRate) / float64(inputRate)))`, for `inputRate ≠ 0`. -/
def resampleLen (n inputRate outputRate : Nat) : Int :=
  f64ToInt (f64Mul (f64OfInt n) (f64Div (f64OfInt outputRate) (f64OfInt inputRate)))

/-- Embedding of `resample`.  With `inputRate = 0` the ratio is infinite or not a number, its
conversion gives the smallest `int` and `make` panics; `make` also panics on a negative
length.  Then the spectrum is resliced to `len(out)`, transformed back, and the real part of
every value is converted to `int`. -/
def resample (fft : FFTPackage) (input : List F64) (inputRate outputRate : Nat) :
    Except Fault (List Int) := do
  if inputRate = 0 then
    throw (.panic "makeslice: len out of range")
  let outLen := resampleLen input.length inputRate outputRate
  if outLen < 0 then
    throw (.panic "makeslice: len out of range")
  let fftData := fft.FFTReal input
  let fftData ← fftData.resliceTo outLen
  let ifftData ← fft.IFFT fftData.elems
  pure (ifftData.map fun v => f64ToInt (fft.real v))

/-- Smallest power of two that is at least `n` (`dsputils.NextPowerOf2`). -/
def nextPowerOf2 (n : Nat) : Nat := if n ≤ 1 then 1 else 2 ^ bitLen (n - 1)

/-- Capacity of the slice go-dsp returns for an input of `n` values: the radix-2 path (and
the path for `n ≤ 1`) allocates exactly `n` values, the Bluestein path returns the first `n`
values of an array of `NextPowerOf2(2n-1)` values. -/
def goDspCap (n : Nat) : Nat :=
  if n ≤ 1 ∨ nextPowerOf2 n = n then n else nextPowerOf2 (2 * n - 1)

/-- An instance of `FFTPackage` that has the slice lengths, capacities and the panic of go-dsp
but not its numbers: `FFTReal` copies the input into an array of capacity `goDspCap n`,
`IFFT` returns its argument and panics on the empty slice (`r[0] = x[0]`). -/
def shapeFFT : FFTPackage where
  Complex := F64
  real := fun v => v
  FFTReal := fun x =>
    { backing := x ++ List.replicate (goDspCap x.length - x.length) ⟨0, 0⟩, len := x.length }
  IFFT := fun xs =>
    if xs.isEmpty then .error (.panic "index out of range") else .ok xs

/-! ## Calls that leave the package

The codec, the file system and the speech detector are reached through an `Env` record.
Functions that only compute (base64, WAV parsing, struct conversion) are plain functions;
calls that touch the file system or the detector transform a world of type `σ`.  The
embedding records every such call in a trace, in program order. -/

/-- The outside functions whose calls are recorded. -/
inductive Fn where
  | createTemp
  | removeTemp
  | encoderWrite
  | encoderClose
  | seekStart
  | readAll
  | getwd
  | newDetector
  | detect
  | destroy
  deriving DecidableEq, Repr

/-- One recorded call: the function and whether it returned without error. -/
structure Event where
  fn : Fn
  succeeded : Bool
  deriving DecidableEq, Repr

/-- State threaded through a call: the outside world and the trace of calls made so far. -/
structure GoState (σ : Type) where
  world : σ
  trace : List Event
  deriving DecidableEq

/-- A Go computation: from a state to an outcome (value, `error` or panic) and the state
reached.  The state survives an error, so the trace of a failed call can be inspected. -/
def Go (σ α : Type) : Type := GoState σ → Except Fault α × GoState σ

/-- Sequencing of Go statements: a failure of the first skips the second. -/
def Go.bind {σ α β : Type} (m : Go σ α) (f : α → Go σ β) : Go σ β := fun s =>
  match m s with
  | (.ok a, s') => f a s'
  | (.error e, s') => (.error e, s')

instance (σ : Type) : Monad (Go σ) where
  pure a := fun s => (.ok a, s)
  bind := Go.bind

/-- A computation without outside calls (it may still return an error or panic). -/
def Go.lift {σ α : Type} (r : Except Fault α) : Go σ α := fun s => (r, s)

/-- A call of the outside function `fn` followed by `if err != nil { return ..., wrapped }`:
the call is recorded, and an error `e` ends the computation with the message `msg ++ e`
(`msg` is empty where the code returns `err` itself). -/
def Go.call {σ α : Type} (fn : Fn) (msg : String) (op : σ → Except String α × σ) : Go σ α :=
  fun s =>
    match op s.world with
    | (.ok a, w) => (.ok a, ⟨w, s.trace ++ [⟨fn, true⟩]⟩)
    | (.error e, w) => (.error (.error (msg ++ e)), ⟨w, s.trace ++ [⟨fn, false⟩]⟩)

/-- A computation without outside calls followed by `if err != nil { return ..., wrapped }`. -/
def Go.check {σ α : Type} (msg : String) (r : Except String α) : Go σ α := fun s =>
  match r with
  | .ok a => (.ok a, s)
  | .error e => (.error (.error (msg ++ e)), s)

/-- Go `defer cleanup` placed before `body`: `cleanup` runs when `body` has returned
(normally, with an error or by a panic); the outcome is the one of `body`. -/
def Go.deferred {σ α : Type} (cleanup : Go σ Unit) (body : Go σ α) : Go σ α := fun s =>
  match body s with
  | (r, s') => (r, (cleanup s').2)

/-- The fields of `wav.Decoder` read by the package. -/
structure Decoder where
  NumChans : Nat
  SampleRate : Nat
  BitDepth : Nat
  WavAudioFormat : Nat
  deriving DecidableEq, Repr

/-- Arguments of `wav.NewEncoder` after the file. -/
structure EncoderConfig where
  SampleRate : Int
  BitDepth : Int
  NumChans : Int
  AudioFormat : Int
  deriving DecidableEq, Repr

/-- The `speech.DetectorConfig` record of silero-vad-go. -/
structure DetectorConfig where
  ModelPath : String
  SampleRate : Int
  Threshold : F64
  MinSilenceDurationMs : Int
  SpeechPadMs : Int
  deriving DecidableEq, Repr

/-- The `speech.Segment` record of silero-vad-go. -/
structure SpeechSegment where
  SpeechStartAt : F64
  SpeechEndAt : F64
  deriving DecidableEq, Repr

/-- Input record of "detect voice activity". -/
structure detectVoiceActivityInput where
  Audio : String
  MinSilenceDurationMs : Int
  SpeechPadMs : Int
  deriving DecidableEq, Repr

/-- Output record of "detect voice activity". -/
structure detectVoiceActivityOutput where
  Segments : List segment
  deriving DecidableEq, Repr

/-- Input record of "extract audio segments". -/
structure extractAudioSegmentsInput where
  Audio : String
  Segments : List segment
  deriving DecidableEq, Repr

/-- Output record of "extract audio segments". -/
structure extractAudioSegmentsOutput where
  AudioSegments : List String
  deriving DecidableEq, Repr

/-- Everything the two tasks call outside the package. -/
structure Env (σ : Type) where
  /-- `structpb.Struct`. -/
  Struct : Type
  /-- A temporary file (`*os.File`). -/
  File : Type
  /-- A speech detector (`*speech.Detector`). -/
  Detector : Type
  /-- Go `float32`. -/
  Float32 : Type
  /-- `base.ConvertFromStructpb` into `detectVoiceActivityInput`. -/
  convertDetectInput : Struct → Except String detectVoiceActivityInput
  /-- `base.ConvertFromStructpb` into `extractAudioSegmentsInput`. -/
  convertExtractInput : Struct → Except String extractAudioSegmentsInput
  /-- `base.ConvertToStructpb` of a `detectVoiceActivityOutput`. -/
  convertDetectOutput : detectVoiceActivityOutput → Except String Struct
  /-- `base.ConvertToStructpb` of an `extractAudioSegmentsOutput`. -/
  convertExtractOutput : extractAudioSegmentsOutput → Except String Struct
  /-- `base.TrimBase64Mime`. -/
  trimBase64Mime : String → String
  /-- `base64.StdEncoding.DecodeString`. -/
  base64Decode : String → Except String (List UInt8)
  /-- `base64.StdEncoding.EncodeToString`. -/
  base64Encode : List UInt8 → String
  /-- `dec.IsValidFile()` on a decoder reading the given bytes. -/
  isValidFile : List UInt8 → Bool
  /-- The decoder fields after `IsValidFile`. -/
  decoder : List UInt8 → Decoder
  /-- `dec.PCMBuffer(audioBuf)`: the buffer after the call, or the error. -/
  pcmBuffer : List UInt8 → IntBuffer → Except String IntBuffer
  /-- `audioBuf.AsFloat32Buffer().Data`. -/
  asFloat32 : IntBuffer → List Float32
  /-- `filepath.Join`. -/
  joinPath : String → String → String
  /-- `os.CreateTemp("", "audio_segment_*.wav")`. -/
  createTemp : σ → Except String File × σ
  /-- `os.Remove(tempFile.Name())`. -/
  removeTemp : File → σ → Except String Unit × σ
  /-- `encoder.Write(segmentBuf)` for an encoder made by `wav.NewEncoder(file, cfg...)`. -/
  encoderWrite : File → EncoderConfig → IntBuffer → σ → Except String Unit × σ
  /-- `encoder.Close()`. -/
  encoderClose : File → EncoderConfig → σ → Except String Unit × σ
  /-- `tempFile.Seek(0, 0)`. -/
  seekStart : File → σ → Except String Unit × σ
  /-- `io.ReadAll(tempFile)`. -/
  readAll : File → σ → Except String (List UInt8) × σ
  /-- `os.Getwd()`. -/
  getwd : σ → Except String String × σ
  /-- `speech.NewDetector(cfg)`. -/
  newDetector : DetectorConfig → σ → Except String Detector × σ
  /-- `sd.Detect(pcm)`. -/
  detect : Detector → List Float32 → σ → Except String (List SpeechSegment) × σ
  /-- `sd.Destroy()`. -/
  destroy : Detector → σ → Except String Unit × σ

/-! ## decodeAudio, encodeSegment, extractAudioSegments (task_extract_audio_segments.go) -/

/-- Embedding of `decodeAudio` (lines 59-84): base64, header check, a buffer of `len(buf)`
zero samples, then `dec.PCMBuffer`. -/
def decodeAudio {σ : Type} (env : Env σ) (audioData : String) :
    Except Fault (IntBuffer × Decoder) :=
  match env.base64Decode (env.trimBase64Mime audioData) with
  | .error e => .error (.error ("decoding audio data: " ++ e))
  | .ok buf =>
    if !env.isValidFile buf then
      .error (.error "invalid WAV file")
    else
      let dec := env.decoder buf
      let audioBuf : IntBuffer :=
        { Format := { NumChannels := dec.NumChans, SampleRate := dec.SampleRate },
          Data := List.replicate buf.length 0,
          SourceBitDepth := dec.BitDepth }
      match env.pcmBuffer buf audioBuf with
      | .error e => .error (.error ("reading audio data: " ++ e))
      | .ok audioBuf => .ok (audioBuf, dec)

/-- The deferred `os.Remove(tempFile.Name())` of `encodeSegment`; its error is dropped. -/
def removeTempFile {σ : Type} (env : Env σ) (tempFile : env.File) : Go σ Unit := fun s =>
  match env.removeTemp tempFile s.world with
  | (.ok _, w) => (.ok (), ⟨w, s.trace ++ [⟨.removeTemp, true⟩]⟩)
  | (.error _, w) => (.ok (), ⟨w, s.trace ++ [⟨.removeTemp, false⟩]⟩)

/-- The encoder arguments `encodeSegment` passes to `wav.NewEncoder`:
`format.SampleRate, int(dec.BitDepth), format.NumChannels, int(dec.WavAudioFormat)`. -/
def encoderConfig (format : Format) (dec : Decoder) : EncoderConfig :=
  { SampleRate := format.SampleRate, BitDepth := dec.BitDepth,
    NumChans := format.NumChannels, AudioFormat := dec.WavAudioFormat }

/-- Embedding of `encodeSegment` (lines 100-136). -/
def encodeSegment {σ : Type} (env : Env σ) (segment : List Int) (format : Format)
    (dec : Decoder) : Go σ String := do
  let tempFile ← Go.call .createTemp "failed to create temp file: " env.createTemp
  Go.deferred (removeTempFile env tempFile) (do
    let cfg := encoderConfig format dec
    let segmentBuf : IntBuffer :=
      { Format := format, Data := segment, SourceBitDepth := dec.BitDepth }
    Go.call .encoderWrite "failed to write segment to buffer: "
      (env.encoderWrite tempFile cfg segmentBuf)
    Go.call .encoderClose "failed to close the encoder: " (env.encoderClose tempFile cfg)
    Go.call .seekStart "failed to seek to the beginning of temp file: " (env.seekStart tempFile)
    let fileContents ← Go.call .readAll "failed to read temp file: " (env.readAll tempFile)
    pure (env.base64Encode fileContents))

/-- Body of the loop of `extractAudioSegments` for one segment (lines 43-53): the slice,
its encoding, and the string stored in the output list. -/
def segmentEntry {σ : Type} (env : Env σ) (audioBuf : IntBuffer) (dec : Decoder)
    (seg : segment) : Go σ String := do
  let segment ← Go.lift (extractSegment audioBuf seg)
  let encodedSegment ← encodeSegment env segment audioBuf.Format dec
  pure ("data:audio/wav;base64," ++ encodedSegment)

/-- The loop `for i, seg := range inputStruct.Segments` of `extractAudioSegments`, from index
`i` on: `segs` are the segments still to do, `out` is `output.AudioSegments`. -/
def extractLoop {σ : Type} (env : Env σ) (audioBuf : IntBuffer) (dec : Decoder) :
    Nat → List segment → List String → Go σ (List String)
  | _, [], out => pure out
  | i, seg :: rest, out => do
    let entry ← segmentEntry env audioBuf dec seg
    extractLoop env audioBuf dec (i + 1) rest (out.set i entry)

/-- Embedding of `extractAudioSegments` (lines 27-57). -/
def extractAudioSegments {σ : Type} (env : Env σ) (input : env.Struct) : Go σ env.Struct := do
  let inputStruct ← Go.check "converting input to struct: " (env.convertExtractInput input)
  let (audioBuf, dec) ← Go.lift (decodeAudio env inputStruct.Audio)
  let segments ← extractLoop env audioBuf dec 0 inputStruct.Segments
    (List.replicate inputStruct.Segments.length "")
  Go.check "" (env.convertExtractOutput { AudioSegments := segments })

/-! ## detectVoiceActivity (task_detect_voice_activity.go, lines 30-103) -/

/-- Constant `sampleRate` of audio.go. -/
def sampleRate : Nat := 16000

/-- Constant `numChannel` of audio.go. -/
def numChannel : Int := 1

/-- Lines 36-68 of `detectVoiceActivity`: decoding, down-mixing and resampling of the audio.
No outside call is made.  `AsFloatBuffer` converts every sample with `float64(...)`. -/
def prepareAudio {σ : Type} (env : Env σ) (fft : FFTPackage) (audio : String) :
    Except Fault IntBuffer :=
  match env.base64Decode (env.trimBase64Mime audio) with
  | .error e => .error (.error e)
  | .ok buf =>
    if !env.isValidFile buf then
      .error (.error "invalid WAV file")
    else
      let dec := env.decoder buf
      let audioBuf : IntBuffer :=
        { Format := { NumChannels := dec.NumChans, SampleRate := dec.SampleRate },
          Data := List.replicate buf.length 0,
          SourceBitDepth := dec.BitDepth }
      match env.pcmBuffer buf audioBuf with
      | .error e => .error (.error ("error reading audio data: " ++ e))
      | .ok audioBuf => do
        let audioBuf ← if audioBuf.Format.NumChannels > numChannel then toMono audioBuf
          else pure audioBuf
        let resampledData ← resample fft (audioBuf.Data.map f64OfInt) dec.SampleRate sampleRate
        pure { audioBuf with
          Format := { audioBuf.Format with SampleRate := sampleRate }, Data := resampledData }

/-- The configuration `detectVoiceActivity` passes to `speech.NewDetector` (lines 75-81);
the threshold is 0.5. -/
def detectorConfig {σ : Type} (env : Env σ) (inputStruct : detectVoiceActivityInput)
    (cwd : String) : DetectorConfig :=
  { ModelPath := env.joinPath cwd "model/silero_vad.onnx",
    SampleRate := 16000,
    Threshold := ⟨1, -1⟩,
    MinSilenceDurationMs := inputStruct.MinSilenceDurationMs,
    SpeechPadMs := inputStruct.SpeechPadMs }

/-- The output record built from the detected segments (lines 95-100). -/
def detectOutput (segments : List SpeechSegment) : detectVoiceActivityOutput :=
  { Segments := segments.map fun s => { StartTime := s.SpeechStartAt, EndTime := s.SpeechEndAt } }

/-- Lines 70-102 of `detectVoiceActivity`: working directory, construction of the detector,
detection, release of the detector, output record. -/
def runDetector {σ : Type} (env : Env σ) (inputStruct : detectVoiceActivityInput)
    (audioBuf : IntBuffer) : Go σ env.Struct := do
  let cwd ← Go.call .getwd "get current working directory: " env.getwd
  let sd ← Go.call .newDetector "detect voice activity: "
    (env.newDetector (detectorConfig env inputStruct cwd))
  let segments ← Go.call .detect "detect voice activity: "
    (env.detect sd (env.asFloat32 audioBuf))
  Go.call .destroy "error destroying speech detector: " (env.destroy sd)
  Go.check "" (env.convertDetectOutput (detectOutput segments))

/-- Embedding of `detectVoiceActivity`. -/
def detectVoiceActivity {σ : Type} (env : Env σ) (fft : FFTPackage) (input : env.Struct) :
    Go σ env.Struct := do
  let inputStruct ← Go.check "converting input to struct: " (env.convertDetectInput input)
  let audioBuf ← Go.lift (prepareAudio env fft inputStruct.Audio)
  runDetector env inputStruct audioBuf

/-! ## A test double of the outside world

`fakeEnv rate` is a small, fully computable `Env`, of the kind a unit test would inject.  Its
"WAV files" are mono, 8 bit, at `rate` Hz: every byte of the payload is one sample.  The world
is the content of the temporary file.  Its detector refuses buffers of fewer than 512 samples,
as silero-vad-go does. -/

/-- The records that travel as `structpb.Struct` in the test double. -/
inductive FakeStruct where
  | detectIn (v : detectVoiceActivityInput)
  | extractIn (v : extractAudioSegmentsInput)
  | detectOut (v : detectVoiceActivityOutput)
  | extractOut (v : extractAudioSegmentsOutput)
  deriving DecidableEq, Repr

/-- The test double described above. -/
def fakeEnv (rate : Nat) : Env (List UInt8) where
  Struct := FakeStruct
  File := Unit
  Detector := Unit
  Float32 := Int
  convertDetectInput := fun
    | .detectIn v => .ok v
    | _ => .error "type mismatch"
  convertExtractInput := fun
    | .extractIn v => .ok v
    | _ => .error "type mismatch"
  convertDetectOutput := fun v => .ok (.detectOut v)
  convertExtractOutput := fun v => .ok (.extractOut v)
  trimBase64Mime := fun s => s
  base64Decode := fun s => .ok (s.toList.map fun c => UInt8.ofNat c.toNat)
  base64Encode := fun bytes => String.mk (bytes.map fun b => Char.ofNat b.toNat)
  isValidFile := fun buf => !buf.isEmpty
  decoder := fun _ => { NumChans := 1, SampleRate := rate, BitDepth := 8, WavAudioFormat := 1 }
  pcmBuffer := fun buf audioBuf =>
    .ok { audioBuf with Data := (buf.map fun b => (b.toNat : Int)).take audioBuf.Data.length }
  asFloat32 := fun audioBuf => audioBuf.Data
  joinPath := fun dir name => dir ++ "/" ++ name
  createTemp := fun w => (.ok (), w)
  removeTemp := fun _ _ => (.ok (), [])
  encoderWrite := fun _ _ segmentBuf w =>
    if segmentBuf.Data.isEmpty then (.error "empty buffer", w)
    else (.ok (), segmentBuf.Data.map fun v => UInt8.ofNat v.toNat)
  encoderClose := fun _ _ w => (.ok (), w)
  seekStart := fun _ w => (.ok (), w)
  readAll := fun _ w => (.ok w, w)
  getwd := fun w => (.ok "/srv", w)
  newDetector := fun _ w => (.ok (), w)
  detect := fun _ pcm w =>
    if pcm.length < 512 then (.error "not enough samples", w) else (.ok [], w)
  destroy := fun _ w => (.ok (), w)

/-- The state in which the examples start: no temporary file content, empty trace. -/
def startState : GoState (List UInt8) := { world := [], trace := [] }

/-! ## Intervals -/

/-- The ordering property of a list of intervals `(start, end)`: every interval ends no
earlier than it starts, and of two intervals the earlier one in the list starts no later
than the other one and ends no later than the other one starts (ascending, no overlap). -/
def WellOrdered (intervals : List (F64 × F64)) : Prop :=
  (∀ p ∈ intervals, p.1.toRat ≤ p.2.toRat) ∧
  intervals.Pairwise fun p q => p.1.toRat ≤ q.1.toRat ∧ p.2.toRat ≤ q.1.toRat

/-- The test double at 16 kHz with a detector that reports two speech runs,
0.5 s .. 1.25 s and 2 s .. 3 s, for every non-empty buffer. -/
def speechEnv : Env (List UInt8) :=
  { fakeEnv 16000 with
    detect := fun _ pcm w =>
      if pcm.isEmpty then (.error "not enough samples", w)
      else (.ok [⟨⟨1, -1⟩, ⟨5, -2⟩⟩, ⟨⟨2, 0⟩, ⟨3, 0⟩⟩], w) }

/-! ## A test double with 16-bit samples -/

/-- The 16-bit little-endian samples of a byte sequence (a trailing odd byte is dropped). -/
def pcm16Samples : List UInt8 → List Int
  | lo :: hi :: rest =>
    let v : Int := (lo.toNat : Int) + 256 * (hi.toNat : Int)
    (if v < 32768 then v else v - 65536) :: pcm16Samples rest
  | _ => []

/-- The test double with files made of a 44-byte header followed by 16-bit mono samples.
As `PCMBuffer` of go-audio does, its `pcmBuffer` stores the decoded samples in the first
entries of the buffer it is given, stores the last sample once more where it meets the end
of the data (the value of its read buffer, which the failed read left as it was; 0 when
there is no sample), and leaves the length of the buffer alone. -/
def pcm16Env (rate : Nat) : Env (List UInt8) :=
  { fakeEnv rate with
    isValidFile := fun buf => decide (44 ≤ buf.length)
    decoder := fun _ => { NumChans := 1, SampleRate := rate, BitDepth := 16, WavAudioFormat := 1 }
    pcmBuffer := fun buf audioBuf =>
      let samples := pcm16Samples (buf.drop 44)
      let stored := (samples ++ [samples.getLastD 0]).take audioBuf.Data.length
      .ok { audioBuf with Data := stored ++ audioBuf.Data.drop stored.length } }

/-- A file for `pcm16Env`: 44 header bytes (the letter `h`) and the two samples 3 and 5. -/
def pcm16Example : String :=
  String.mk (List.replicate 44 'h' ++ [Char.ofNat 3, Char.ofNat 0, Char.ofNat 5, Char.ofNat 0])

/-! ## A test double whose encoder records its configuration -/

/-- The test double with stereo 8-bit files at 3 Hz whose encoder starts the file with three
bytes for the sample rate, the channel count and the bit depth it was created with (as the
digits `0`..`9`), followed by the samples. -/
def taggedEnv : Env (List UInt8) :=
  { fakeEnv 3 with
    decoder := fun _ => { NumChans := 2, SampleRate := 3, BitDepth := 8, WavAudioFormat := 1 }
    encoderWrite := fun _ cfg segmentBuf w =>
      if segmentBuf.Data.isEmpty then (.error "empty buffer", w)
      else (.ok (),
        [UInt8.ofNat (48 + cfg.SampleRate.toNat), UInt8.ofNat (48 + cfg.NumChans.toNat),
          UInt8.ofNat (48 + cfg.BitDepth.toNat)] ++
          segmentBuf.Data.map fun v => UInt8.ofNat v.toNat) }

/-- An input for `taggedEnv`: twelve samples (six stereo frames) and the two adjacent
intervals 0 s .. 1 s and 1 s .. 2 s. -/
def taggedInput : FakeStruct :=
  .extractIn ⟨"abcdefghijkl", [⟨f64OfInt 0, f64OfInt 1⟩, ⟨f64OfInt 1, f64OfInt 2⟩]⟩

/-! ## resample over exact arithmetic

`resampleCore` is the body of `resample` with the number type of the transform and the final
conversion `int(real(v))` as parameters; `resample` is its instance for an `FFTPackage`
and the float64 conversion.  The exact transforms below are the discrete Fourier transform
over the complex numbers, unnormalised in the forward direction and divided by the length
in the inverse direction, as in go-dsp. -/

/-- The body of `resample` (lines 115-130) for an arbitrary number type `C` of the spectrum
and an arbitrary conversion `toInt` of a transformed value to `int`. -/
def resampleCore (C : Type) (FFTReal : List F64 → GoSlice C)
    (IFFT : List C → Except Fault (List C)) (toInt : C → Int)
    (input : List F64) (inputRate outputRate : Nat) : Except Fault (List Int) := do
  if inputRate = 0 then
    throw (.panic "makeslice: len out of range")
  let outLen := resampleLen input.length inputRate outputRate
  if outLen < 0 then
    throw (.panic "makeslice: len out of range")
  let fftData := FFTReal input
  let fftData ← fftData.resliceTo outLen
  let ifftData ← IFFT fftData.elems
  pure (ifftData.map toInt)

/-- Coefficient `k` of the unnormalised forward transform of `x`:
the sum of `x[j] * exp(-2πi jk/n)` over `j < n`. -/
noncomputable def exactDFT (x : List ℂ) (k : Nat) : ℂ :=
  ∑ j ∈ Finset.range x.length,
    x.getD j 0 * Complex.exp (-(2 * Real.pi * Complex.I) * j * k / x.length)

/-- Value `j` of the inverse transform of `X`, normalised by `1/m`:
the sum of `X[k] * exp(2πi jk/m)` over `k < m`, divided by `m`. -/
noncomputable def exactIDFT (X : List ℂ) (j : Nat) : ℂ :=
  (∑ k ∈ Finset.range X.length,
    X.getD k 0 * Complex.exp (2 * Real.pi * Complex.I * j * k / X.length)) / X.length

/-- `fft.FFTReal` over exact arithmetic: the `n` coefficients of the forward transform of the
values of the input; the slice has capacity `n`. -/
noncomputable def exactFFTReal (input : List F64) : GoSlice ℂ :=
  { backing := (List.range input.length).map
      (exactDFT (input.map fun v => ((v.toRat : ℚ) : ℂ))),
    len := input.length }

/-- `fft.IFFT` over exact arithmetic (with the panic of go-dsp on the empty slice). -/
noncomputable def exactIFFT (X : List ℂ) : Except Fault (List ℂ) :=
  if X.isEmpty then .error (.panic "index out of range")
  else .ok ((List.range X.length).map (exactIDFT X))

/-- Go `int(real(z))` over exact arithmetic: the real part with its fraction discarded. -/
noncomputable def truncRe (z : ℂ) : Int :=
  if 0 ≤ z.re then ⌊z.re⌋ else ⌈z.re⌉

/-- A rational number with its fraction discarded (truncation toward zero). -/
def truncRat (q : ℚ) : Int :=
  if 0 ≤ q then ⌊q⌋ else ⌈q⌉

end Audio

/-! # The multipart form converter of pkg/handler (handle.go, lines 27-187)

Go strings are sequences of bytes; field names are modelled as lists of characters, which
is the same thing for ASCII names.  The `range` loops over maps visit the entries in the
order of the lists that model the maps.  JSON decoding, file access and the structpb
constructors are parameters; running out of memory in `make` is not modelled. -/

namespace Handler

open Audio

/-- Go `strings.HasPrefix(s, p)`. -/
def startsWith : List Char → List Char → Bool
  | _, [] => true
  | [], _ :: _ => false
  | c :: s, d :: p => c == d && startsWith s p

/-- Go `strings.Index(s, string(ch))` for a one-byte string: the position of the first
occurrence of `ch`, or `-1`. -/
def indexOfChar : List Char → Char → Int
  | [], _ => -1
  | c :: s, ch =>
    if c = ch then 0
    else
      let i := indexOfChar s ch
      if i < 0 then -1 else i + 1

/-- Go `s[lo:hi]` on a string: panics unless `0 ≤ lo ≤ hi ≤ len(s)`. -/
def substr (s : List Char) (lo hi : Int) : Except Fault (List Char) :=
  if 0 ≤ lo ∧ lo ≤ hi ∧ hi ≤ s.length then
    .ok ((s.take hi.toNat).drop lo.toNat)
  else
    .error (.panic "slice bounds out of range")

/-- Value of a string of decimal digits, `none` when a character is not a digit. -/
def digitsValue : List Char → Nat → Option Nat
  | [], acc => some acc
  | c :: s, acc =>
    if '0' ≤ c ∧ c ≤ '9' then digitsValue s (10 * acc + (c.toNat - '0'.toNat)) else none

/-- Go `strconv.Atoi`: an optional sign followed by at least one decimal digit, within the
range of `int`; anything else is an error.  Of the error text
(`strconv.Atoi: parsing "...": invalid syntax`) only the last part is kept. -/
def atoi (s : List Char) : Except String Int :=
  let (neg, digits) :=
    match s with
    | '-' :: rest => (true, rest)
    | '+' :: rest => (false, rest)
    | _ => (false, s)
  if digits.isEmpty then .error "invalid syntax"
  else
    match digitsValue digits 0 with
    | none => .error "invalid syntax"
    | some v =>
      let i : Int := if neg then -(v : Int) else (v : Int)
      if minInt64 ≤ i ∧ i ≤ maxInt64 then .ok i else .error "value out of range"

/-- What lines 40-65 (and again lines 95-120) extract from a field name that starts with
`inputs[`: the input index, the key, whether the key is indexed, and the item index. -/
structure FieldName where
  inputIdx : Int
  key : List Char
  isArray : Bool
  keyIdx : Int
  deriving DecidableEq, Repr

/-- Lift of the `error` of `strconv.Atoi` into the outcome of the function. -/
def atoiStep (s : List Char) : Except Fault Int :=
  match atoi s with
  | .ok i => .ok i
  | .error e => .error (.error e)

/-- Embedding of lines 40-65: the statements that take a field name apart. -/
def parseFieldName (name : List Char) : Except Fault FieldName := do
  let k ← substr name 7 name.length
  let head ← substr k 0 (indexOfChar k ']')
  let inputIdx ← atoiStep head
  let k ← substr k (indexOfChar k ']' + 2) k.length
  if k.contains '[' then
    let key ← substr k 0 (indexOfChar k '[')
    let item ← substr k (key.length + 1) (indexOfChar k ']')
    let keyIdx ← atoiStep item
    pure { inputIdx := inputIdx, key := key, isArray := true, keyIdx := keyIdx }
  else
    pure { inputIdx := inputIdx, key := k, isArray := false, keyIdx := 0 }

/-- A Go `interface{}` value as it occurs in `inputsMap`: `nil`, a decoded JSON value, or a
string. -/
inductive Iface (J : Type) where
  | nil
  | json (v : J)
  | str (s : String)
  deriving DecidableEq, Repr

/-- An entry of `inputsMap[inputIdx]`: a plain value or a `map[int]interface{}`. -/
inductive Field (J : Type) where
  | scalar (v : Iface J)
  | array (items : List (Int × Iface J))
  deriving DecidableEq, Repr

/-- Go `m[k] = v` on a map modelled as an association list. -/
def mapSet {κ ν : Type} [DecidableEq κ] : List (κ × ν) → κ → ν → List (κ × ν)
  | [], k, v => [(k, v)]
  | (k', v') :: rest, k, v => if k' = k then (k, v) :: rest else (k', v') :: mapSet rest k v

/-- Go `m[k]` with the `ok` flag. -/
def mapGet {κ ν : Type} [DecidableEq κ] : List (κ × ν) → κ → Option ν
  | [], _ => none
  | (k', v') :: rest, k => if k' = k then some v' else mapGet rest k

/-- The functions of other packages used by `convertFormData`. -/
structure FormEnv where
  /-- A decoded JSON value. -/
  J : Type
  /-- A `*multipart.FileHeader`. -/
  FileHeader : Type
  /-- A `*structpb.Value`. -/
  PBValue : Type
  /-- A `*structpb.ListValue`. -/
  PBList : Type
  /-- `json.Unmarshal([]byte(s), &b)`. -/
  unmarshal : String → Except String J
  /-- `v[0].Open()` followed by `io.ReadAll(file)`. -/
  readFile : FileHeader → Except String (List UInt8)
  /-- `base64.StdEncoding.EncodeToString`. -/
  base64Encode : List UInt8 → String
  /-- `structpb.NewValue`. -/
  newValue : Iface J → Except String PBValue
  /-- `structpb.NewList`. -/
  newList : List (Iface J) → Except String PBList
  /-- `structpb.NewListValue`. -/
  newListValue : PBList → PBValue

/-- The parsed form: `req.MultipartForm.Value` and `req.MultipartForm.File`. -/
structure Form (env : FormEnv) where
  Value : List (String × List String)
  File : List (String × List env.FileHeader)

/-- The variables `inputsMap` and `maxInputIdx`. -/
structure Acc (env : FormEnv) where
  inputsMap : List (Int × List (String × Field env.J))
  maxInputIdx : Int

/-- Lines 47-49 and 102-104: `if inputIdx > maxInputIdx { maxInputIdx = inputIdx }`. -/
def noteIndex (env : FormEnv) (acc : Acc env) (inputIdx : Int) : Acc env :=
  { acc with maxInputIdx := if inputIdx > acc.maxInputIdx then inputIdx else acc.maxInputIdx }

/-- Lines 67-88 and 122-144: the value `b` is stored under `inputsMap[inputIdx][key]`, at
item `keyIdx` when the key is indexed.  The type assertion `.(map[int]interface{})` panics
when the key already holds a plain value. -/
def store (env : FormEnv) (acc : Acc env) (fn : FieldName) (b : Iface env.J) :
    Except Fault (Acc env) := do
  let fields := (mapGet acc.inputsMap fn.inputIdx).getD []
  let key := String.mk fn.key
  if fn.isArray then
    let items ←
      match mapGet fields key with
      | none => pure []
      | some (.array items) => pure items
      | some (.scalar _) => throw (.panic "interface conversion")
    let fields := mapSet fields key (.array (mapSet items fn.keyIdx b))
    pure { acc with inputsMap := mapSet acc.inputsMap fn.inputIdx fields }
  else
    let fields := mapSet fields key (.scalar b)
    pure { acc with inputsMap := mapSet acc.inputsMap fn.inputIdx fields }

/-- The loop over `req.MultipartForm.Value` (lines 38-91). -/
def valueLoop (env : FormEnv) : List (String × List String) → Acc env → Except Fault (Acc env)
  | [], acc => pure acc
  | (k, v) :: rest, acc =>
    if startsWith k.toList "inputs[".toList then do
      let fn ← parseFieldName k.toList
      let acc := noteIndex env acc fn.inputIdx
      let v0 ← goIndex v 0
      let b ←
        match env.unmarshal v0 with
        | .ok b => pure b
        | .error e => throw (.error e)
      let acc ← store env acc fn (.json b)
      valueLoop env rest acc
    else
      valueLoop env rest acc

/-- The loop over `req.MultipartForm.File` (lines 93-147). -/
def fileLoop (env : FormEnv) :
    List (String × List env.FileHeader) → Acc env → Except Fault (Acc env)
  | [], acc => pure acc
  | (k, v) :: rest, acc =>
    if startsWith k.toList "inputs[".toList then do
      let fn ← parseFieldName k.toList
      let acc := noteIndex env acc fn.inputIdx
      let v0 ← goIndex v 0
      let byteContainer ←
        match env.readFile v0 with
        | .ok bytes => pure bytes
        | .error e => throw (.error e)
      let acc ← store env acc fn (.str (env.base64Encode byteContainer))
      fileLoop env rest acc
    else
      fileLoop env rest acc

/-- Go `xs[i] = v` for an `int` index: panics unless `0 ≤ i < len(xs)`. -/
def setIndex {α : Type} (xs : List α) (i : Int) (v : α) : Except Fault (List α) :=
  if 0 ≤ i ∧ i < xs.length then .ok (xs.set i.toNat v)
  else .error (.panic "index out of range")

/-- Lines 158-163: the largest item index of a `map[int]interface{}`, at least 0. -/
def maxItemIdx {ν : Type} : List (Int × ν) → Int
  | [] => 0
  | (i, _) :: rest => if i > maxItemIdx rest then i else maxItemIdx rest

/-- Go `make([]T, n)` with every entry the zero value `zero`: panics for a negative `n`. -/
def makeSlice {α : Type} (n : Int) (zero : α) : Except Fault (List α) :=
  if n < 0 then .error (.panic "makeslice: len out of range")
  else .ok (List.replicate n.toNat zero)

/-- Lines 164-167: the loop `vals[itemIdx] = itemValue` over the items of a key. -/
def fillVals (env : FormEnv) :
    List (Int × Iface env.J) → List (Iface env.J) → Except Fault (List (Iface env.J))
  | [], vals => pure vals
  | (itemIdx, itemValue) :: rest, vals => do
    let vals ← setIndex vals itemIdx itemValue
    fillVals env rest vals

/-- Lines 154-184: the fields of one input are converted to structpb values. -/
def convertFields (env : FormEnv) :
    List (String × Field env.J) → List (String × env.PBValue) →
      Except Fault (List (String × env.PBValue))
  | [], fields => pure fields
  | (key, .array items) :: rest, fields => do
    let vals ← makeSlice (goAdd (maxItemIdx items) 1) .nil
    let vals ← fillVals env items vals
    let structVal ←
      match env.newList vals with
      | .ok l => pure l
      | .error e => throw (.error e)
    convertFields env rest (mapSet fields key (env.newListValue structVal))
  | (key, .scalar value) :: rest, fields => do
    let structVal ←
      match env.newValue value with
      | .ok v => pure v
      | .error e => throw (.error e)
    convertFields env rest (mapSet fields key structVal)

/-- Lines 150-185: every input of `inputsMap` is stored at its index of `inputs`. -/
def assemble (env : FormEnv) :
    List (Int × List (String × Field env.J)) → List (Option (List (String × env.PBValue))) →
      Except Fault (List (Option (List (String × env.PBValue))))
  | [], inputs => pure inputs
  | (inputIdx, inputValue) :: rest, inputs => do
    let inputs ← setIndex inputs inputIdx (some [])
    let fields ← convertFields env inputValue []
    let inputs ← setIndex inputs inputIdx (some fields)
    assemble env rest inputs

/-- Embedding of `convertFormData`.  `parsed` is the outcome of
`req.ParseMultipartForm(4 << 20)`: the form, or the error.  An entry `none` of the result is
a `nil` pointer left in `inputs`. -/
def convertFormData (env : FormEnv) (parsed : Except String (Form env)) :
    Except Fault (List (Option (List (String × env.PBValue)))) :=
  match parsed with
  | .error e => .error (.error e)
  | .ok form => do
    let acc ← valueLoop env form.Value { inputsMap := [], maxInputIdx := 0 }
    let acc ← fileLoop env form.File acc
    let inputs ← makeSlice (goAdd acc.maxInputIdx 1) none
    assemble env acc.inputsMap inputs

/-- A test double: JSON values are kept as their text, files are their bytes, structpb
values are the interface values themselves. -/
def fakeFormEnv : FormEnv where
  J := String
  FileHeader := List UInt8
  PBValue := Iface String ⊕ List (Iface String)
  PBList := List (Iface String)
  unmarshal := fun s => if s.isEmpty then .error "unexpected end of JSON input" else .ok s
  readFile := fun h => .ok h
  base64Encode := fun bytes => String.mk (bytes.map fun b => Char.ofNat b.toNat)
  newValue := fun v => .ok (.inl v)
  newList := fun vals => .ok vals
  newListValue := fun l => .inr l

end Handler

namespace Audio

/-! ## Properties of the run-time model -/

theorem wrapInt64_of_fits (x : Int) (h : minInt64 ≤ x ∧ x ≤ maxInt64) : wrapInt64 x = x := by
  unfold minInt64 maxInt64 at h
  unfold wrapInt64
  rw [Int.emod_eq_of_lt (by omega) (by omega)]
  omega

theorem goIndex_of_getElem? {α : Type} (xs : List α) (i : Nat) (v : α) (h : xs[i]? = some v) :
    goIndex xs i = .ok v := by
  simp [goIndex, h]

/-! ## toMono -/

theorem monoSample_ok (data : List Int) (i : Nat) (h : 2 * i + 1 < data.length) :
    ∃ a b, data[2 * i]? = some a ∧ data[2 * i + 1]? = some b ∧
      monoSample data i = .ok (goDiv (goAdd a b) 2) := by
  refine ⟨data[2 * i], data[2 * i + 1], List.getElem?_eq_getElem _, List.getElem?_eq_getElem _, ?_⟩
  have ha : goIndex data (2 * i) = .ok data[2 * i] :=
    goIndex_of_getElem? _ _ _ (List.getElem?_eq_getElem _)
  have hb : goIndex data (2 * i + 1) = .ok data[2 * i + 1] :=
    goIndex_of_getElem? _ _ _ (List.getElem?_eq_getElem _)
  simp only [monoSample, ha, hb]
  rfl

theorem toMonoLoop_ok (data : List Int) :
    ∀ k : Nat, 2 * k ≤ data.length →
      ∃ out, toMonoLoop data k = .ok out ∧ out.length = k ∧
        ∀ i, i < k → ∃ a b, data[2 * i]? = some a ∧ data[2 * i + 1]? = some b ∧
          out[i]? = some (goDiv (goAdd a b) 2) := by
  intro k
  induction k with
  | zero =>
    intro _
    exact ⟨[], rfl, rfl, fun i hi => absurd hi (Nat.not_lt_zero i)⟩
  | succ k ih =>
    intro hk
    obtain ⟨filled, hrun, hlen, hval⟩ := ih (by omega)
    obtain ⟨a, b, ha, hb, hs⟩ := monoSample_ok data k (by omega)
    refine ⟨filled ++ [goDiv (goAdd a b) 2], ?_, by simp [hlen], ?_⟩
    · simp only [toMonoLoop, hrun, hs]
      rfl
    · intro i hi
      rcases Nat.lt_succ_iff_lt_or_eq.mp hi with hlt | heq
      · obtain ⟨a', b', ha', hb', hv⟩ := hval i hlt
        refine ⟨a', b', ha', hb', ?_⟩
        rw [List.getElem?_append_left (by omega)]
        exact hv
      · subst heq
        refine ⟨a, b, ha, hb, ?_⟩
        rw [List.getElem?_append_right (by omega)]
        simp [hlen]

/-- C1: for a two-channel buffer of even length `2k`, `toMono` returns a buffer
with channel count 1 and exactly `k` samples, and output sample `i` is
`(data[2i] + data[2i+1]) / 2` in Go `int` arithmetic (division truncating toward
zero); whenever the exact sum of the pair fits the 64-bit `int` (always the case
for PCM samples) this is the exact sum divided by two, truncated toward zero. -/
theorem toMono_two_channel (buffer : IntBuffer) (k : Nat)
    (_hchan : buffer.Format.NumChannels = 2) (hlen : buffer.Data.length = 2 * k) :
    ∃ out, toMono buffer = .ok out ∧ out.Format.NumChannels = 1 ∧ out.Data.length = k ∧
      ∀ i, i < k → ∃ a b, buffer.Data[2 * i]? = some a ∧ buffer.Data[2 * i + 1]? = some b ∧
        out.Data[i]? = some (goDiv (goAdd a b) 2) ∧
        (minInt64 ≤ a + b ∧ a + b ≤ maxInt64 → out.Data[i]? = some (Int.tdiv (a + b) 2)) := by
  have hk : buffer.Data.length / 2 = k := by omega
  obtain ⟨md, hrun, hl, hval⟩ := toMonoLoop_ok buffer.Data k (by omega)
  refine ⟨{ buffer with Data := md, Format := { buffer.Format with NumChannels := 1 } },
    ?_, rfl, hl, ?_⟩
  · simp only [toMono, hk, hrun]
    rfl
  · intro i hi
    obtain ⟨a, b, ha, hb, hv⟩ := hval i hi
    refine ⟨a, b, ha, hb, hv, fun hfit => ?_⟩
    rw [hv, goAdd, wrapInt64_of_fits _ hfit, goDiv]

/-- Witness for C1: the stereo buffer `[1,2,3,4,5,6]` of the unit test. -/
theorem toMono_two_channel_witness :
    toMono ⟨⟨2, 44100⟩, [1, 2, 3, 4, 5, 6], 16⟩ = .ok ⟨⟨1, 44100⟩, [1, 3, 5], 16⟩ ∧
    ∃ out, toMono ⟨⟨2, 44100⟩, [1, 2, 3, 4, 5, 6], 16⟩ = .ok out ∧
      out.Format.NumChannels = 1 ∧ out.Data.length = 3 ∧
      ∀ i, i < 3 → ∃ a b, [1, 2, 3, 4, 5, (6 : Int)][2 * i]? = some a ∧
        [1, 2, 3, 4, 5, (6 : Int)][2 * i + 1]? = some b ∧
        out.Data[i]? = some (goDiv (goAdd a b) 2) ∧
        (minInt64 ≤ a + b ∧ a + b ≤ maxInt64 → out.Data[i]? = some (Int.tdiv (a + b) 2)) :=
  ⟨by decide, toMono_two_channel ⟨⟨2, 44100⟩, [1, 2, 3, 4, 5, 6], 16⟩ 3 rfl rfl⟩

/-! ## Signs in the float64 model -/

theorem f64Trunc_nonpos (x : F64) (h : x.mant ≤ 0) : f64Trunc x ≤ 0 := by
  unfold f64Trunc
  split
  · exact Int.mul_nonpos_of_nonpos_of_nonneg h (by positivity)
  · have hd : (0 : Int) ≤ 2 ^ (-x.exp).toNat := by positivity
    obtain ⟨m, hm⟩ := Int.eq_ofNat_of_zero_le (show 0 ≤ -x.mant by omega)
    have hx : x.mant = -(m : Int) := by omega
    rw [hx, Int.neg_tdiv]
    have : 0 ≤ Int.tdiv (m : Int) (2 ^ (-x.exp).toNat) := Int.tdiv_nonneg (Int.ofNat_nonneg m) hd
    omega

theorem f64ToInt_nonpos (x : F64) (h : x.mant ≤ 0) : f64ToInt x ≤ 0 := by
  unfold f64ToInt
  simp only []
  split
  · exact f64Trunc_nonpos x h
  · decide

theorem f64Mul_mant_nonpos (x y : F64) (hx : x.mant ≤ 0) (hy : 0 ≤ y.mant) :
    (f64Mul x y).mant ≤ 0 := by
  unfold f64Mul
  simp only []
  have hp : x.mant * y.mant ≤ 0 := Int.mul_nonpos_of_nonpos_of_nonneg hx hy
  have hs : Int.sign (x.mant * y.mant) ≤ 0 := by
    rcases lt_or_eq_of_le hp with h | h
    · rw [Int.sign_eq_neg_one_of_neg h]; decide
    · rw [h]; decide
  exact Int.mul_nonpos_of_nonpos_of_nonneg hs (Int.ofNat_nonneg _)

theorem f64OfInt_mant_nonneg (i : Int) (h : 0 ≤ i) : 0 ≤ (f64OfInt i).mant := by
  unfold f64OfInt
  simp only []
  have hs : 0 ≤ Int.sign i := by
    rcases lt_or_eq_of_le h with h1 | h1
    · rw [Int.sign_eq_one_of_pos h1]; decide
    · rw [← h1]; decide
  exact Int.mul_nonneg hs (Int.ofNat_nonneg _)

theorem sampleIndex_nonpos (t : F64) (format : Format) (ht : t.mant ≤ 0)
    (hr : 0 ≤ format.SampleRate) (hc : 0 ≤ format.NumChannels) :
    sampleIndex t format ≤ 0 := by
  unfold sampleIndex indexProduct
  apply f64ToInt_nonpos
  apply f64Mul_mant_nonpos _ _ _ (f64OfInt_mant_nonneg _ hc)
  exact f64Mul_mant_nonpos _ _ ht (f64OfInt_mant_nonneg _ hr)

theorem F64.mant_neg_of_toRat_neg (x : F64) (h : x.toRat < 0) : x.mant < 0 := by
  by_contra hc
  have h0 : (0 : ℚ) ≤ (x.mant : ℚ) := by exact_mod_cast (by omega : 0 ≤ x.mant)
  have h2 : (0 : ℚ) < (2 : ℚ) ^ x.exp := by positivity
  have : 0 ≤ x.toRat := by
    unfold F64.toRat
    exact mul_nonneg h0 (le_of_lt h2)
  linarith

/-! ## extractSegment -/

theorem goSlice_ok {α : Type} (xs : List α) (lo hi : Int)
    (h0 : 0 ≤ lo) (h1 : lo ≤ hi) (h2 : hi ≤ xs.length) :
    goSlice xs lo hi = .ok ((xs.take hi.toNat).drop lo.toNat) := by
  simp [goSlice, h0, h1, h2]

/-- C2: when the clamped start index does not exceed the clamped end index,
`extractSegment` returns, without error, exactly `Data[max(s,0) : min(e,len(Data))]`
for the indices `s`, `e` it computes from the interval; with `s ≤ 0` and `e ≥ len(Data)`
the result is the whole buffer, and a negative start time always has `s ≤ 0`. -/
theorem extractSegment_clamped_slice (audioBuf : IntBuffer) (seg : segment)
    (h : max (sampleIndex seg.StartTime audioBuf.Format) 0 ≤
      min (sampleIndex seg.EndTime audioBuf.Format) (audioBuf.Data.length : Int)) :
    extractSegment audioBuf seg =
        .ok ((audioBuf.Data.take
            (min (sampleIndex seg.EndTime audioBuf.Format) (audioBuf.Data.length : Int)).toNat).drop
          (max (sampleIndex seg.StartTime audioBuf.Format) 0).toNat) ∧
      (sampleIndex seg.StartTime audioBuf.Format ≤ 0 →
        (audioBuf.Data.length : Int) ≤ sampleIndex seg.EndTime audioBuf.Format →
        extractSegment audioBuf seg = .ok audioBuf.Data) ∧
      (seg.StartTime.toRat < 0 → 0 ≤ audioBuf.Format.SampleRate →
        0 ≤ audioBuf.Format.NumChannels → sampleIndex seg.StartTime audioBuf.Format ≤ 0) := by
  have hs : (if sampleIndex seg.StartTime audioBuf.Format < 0 then 0
      else sampleIndex seg.StartTime audioBuf.Format) =
      max (sampleIndex seg.StartTime audioBuf.Format) 0 := by
    split <;> omega
  have he : (if sampleIndex seg.EndTime audioBuf.Format > (audioBuf.Data.length : Int)
      then (audioBuf.Data.length : Int) else sampleIndex seg.EndTime audioBuf.Format) =
      min (sampleIndex seg.EndTime audioBuf.Format) (audioBuf.Data.length : Int) := by
    split <;> omega
  have hrun : extractSegment audioBuf seg =
      .ok ((audioBuf.Data.take
          (min (sampleIndex seg.EndTime audioBuf.Format) (audioBuf.Data.length : Int)).toNat).drop
        (max (sampleIndex seg.StartTime audioBuf.Format) 0).toNat) := by
    simp only [extractSegment, hs, he]
    exact goSlice_ok _ _ _ (le_max_right _ _) h (min_le_right _ _)
  refine ⟨hrun, fun hneg hbig => ?_, fun hneg hr hc =>
    sampleIndex_nonpos _ _ (le_of_lt (F64.mant_neg_of_toRat_neg _ hneg)) hr hc⟩
  rw [hrun, max_eq_right hneg, min_eq_right hbig]
  simp

/-- Witness for C2: one second of a four-sample buffer, asked from -5 s to 6 s. -/
theorem extractSegment_clamped_slice_witness :
    extractSegment ⟨⟨1, 1⟩, [10, 20, 30, 40], 16⟩ ⟨f64OfInt (-5), f64OfInt 6⟩ =
        .ok ((([10, 20, 30, 40] : List Int).take
            (min (sampleIndex (f64OfInt 6) ⟨1, 1⟩) (4 : Int)).toNat).drop
          (max (sampleIndex (f64OfInt (-5)) ⟨1, 1⟩) 0).toNat) ∧
      (sampleIndex (f64OfInt (-5)) ⟨1, 1⟩ ≤ 0 →
        (4 : Int) ≤ sampleIndex (f64OfInt 6) ⟨1, 1⟩ →
        extractSegment ⟨⟨1, 1⟩, [10, 20, 30, 40], 16⟩ ⟨f64OfInt (-5), f64OfInt 6⟩ =
          .ok [10, 20, 30, 40]) ∧
      ((f64OfInt (-5)).toRat < 0 → (0 : Int) ≤ 1 → (0 : Int) ≤ 1 →
        sampleIndex (f64OfInt (-5)) ⟨1, 1⟩ ≤ 0) :=
  extractSegment_clamped_slice ⟨⟨1, 1⟩, [10, 20, 30, 40], 16⟩ ⟨f64OfInt (-5), f64OfInt 6⟩
    (by decide)

/-- C3 (failing inputs): on a four-sample mono buffer at 1 Hz, the interval 5 s .. 6 s
(start beyond the end of the buffer), the zero-length interval 5 s .. 5 s and the interval
-2 s .. -1 s (end before time 0) each stop `extractSegment` with a slice-bounds panic. -/
theorem extractSegment_out_of_range_panics :
    extractSegment ⟨⟨1, 1⟩, [10, 20, 30, 40], 16⟩ ⟨f64OfInt 5, f64OfInt 6⟩ =
        .error (.panic "slice bounds out of range") ∧
      extractSegment ⟨⟨1, 1⟩, [10, 20, 30, 40], 16⟩ ⟨f64OfInt 5, f64OfInt 5⟩ =
        .error (.panic "slice bounds out of range") ∧
      extractSegment ⟨⟨1, 1⟩, [10, 20, 30, 40], 16⟩ ⟨f64OfInt (-2), f64OfInt (-1)⟩ =
        .error (.panic "slice bounds out of range") := by
  decide

/-! ## The float64 model and the sample index -/

theorem F64.toRat_of_exp_nonneg (x : F64) (h : 0 ≤ x.exp) :
    x.toRat = ((x.mant * 2 ^ x.exp.toNat : Int) : ℚ) := by
  unfold F64.toRat
  obtain ⟨n, hn⟩ := Int.eq_ofNat_of_zero_le h
  rw [hn]
  simp

theorem F64.toRat_of_exp_neg (x : F64) (h : x.exp < 0) :
    x.toRat = (x.mant : ℚ) / (((2 : Nat) ^ (-x.exp).toNat : Nat) : ℚ) := by
  unfold F64.toRat
  obtain ⟨n, hn⟩ := Int.eq_ofNat_of_zero_le (show 0 ≤ -x.exp by omega)
  have hx : x.exp = -(n : Int) := by omega
  rw [hx]
  simp [zpow_neg, div_eq_mul_inv]

theorem tdiv_eq_floor_of_nonneg (m : Int) (d : Nat) (hm : 0 ≤ m) :
    Int.tdiv m (d : Int) = ⌊(m : ℚ) / (d : ℚ)⌋ := by
  rw [Rat.floor_intCast_div_natCast, Int.tdiv_eq_ediv hm (Int.ofNat_nonneg d)]

theorem tdiv_eq_ceil_of_nonpos (m : Int) (d : Nat) (hm : m ≤ 0) :
    Int.tdiv m (d : Int) = ⌈(m : ℚ) / (d : ℚ)⌉ := by
  have h1 : Int.tdiv m (d : Int) = -Int.tdiv (-m) (d : Int) := by
    rw [Int.neg_tdiv, neg_neg]
  have h2 : ((m : ℚ) / (d : ℚ)) = -(((-m : Int) : ℚ) / (d : ℚ)) := by
    push_cast
    ring
  rw [h1, h2, Int.ceil_neg, tdiv_eq_floor_of_nonneg (-m) d (by omega)]

/-- The integer part computed on mantissa and exponent is the floor of a non-negative
value and the ceiling of a non-positive one. -/
theorem f64Trunc_eq (x : F64) :
    (0 ≤ x.toRat → f64Trunc x = ⌊x.toRat⌋) ∧ (x.toRat ≤ 0 → f64Trunc x = ⌈x.toRat⌉) := by
  by_cases h : 0 ≤ x.exp
  · have hr := F64.toRat_of_exp_nonneg x h
    have ht : f64Trunc x = x.mant * 2 ^ x.exp.toNat := by simp [f64Trunc, h]
    rw [hr, ht]
    exact ⟨fun _ => (Int.floor_intCast _).symm, fun _ => (Int.ceil_intCast _).symm⟩
  · have hneg : x.exp < 0 := by omega
    have hr := F64.toRat_of_exp_neg x hneg
    have ht : f64Trunc x = Int.tdiv x.mant (((2 : Nat) ^ (-x.exp).toNat : Nat) : Int) := by
      simp [f64Trunc, h]
    have hd : (0 : ℚ) < (((2 : Nat) ^ (-x.exp).toNat : Nat) : ℚ) := by positivity
    rw [hr, ht]
    constructor
    · intro h0
      have hm : 0 ≤ x.mant := by
        by_contra hc
        have : (x.mant : ℚ) < 0 := by exact_mod_cast (by omega : x.mant < 0)
        have := div_neg_of_neg_of_pos this hd
        linarith
      exact tdiv_eq_floor_of_nonneg _ _ hm
    · intro h0
      have hm : x.mant ≤ 0 := by
        by_contra hc
        have : (0 : ℚ) < (x.mant : ℚ) := by exact_mod_cast (by omega : 0 < x.mant)
        have := div_pos this hd
        linarith
      exact tdiv_eq_ceil_of_nonpos _ _ hm

theorem bitLenAux_le (fuel : Nat) : ∀ n k : Nat, n < 2 ^ k → bitLenAux fuel n ≤ k := by
  induction fuel with
  | zero => intro n k _; simp [bitLenAux]
  | succ f ih =>
    intro n k hn
    unfold bitLenAux
    split
    · exact Nat.zero_le k
    · rename_i hne
      cases k with
      | zero => simp at hn; exact absurd hn hne
      | succ k =>
        have : n / 2 < 2 ^ k := by
          rw [Nat.div_lt_iff_lt_mul (by decide)]
          rw [Nat.pow_succ] at hn
          exact hn
        exact Nat.succ_le_succ (ih _ _ this)

theorem roundSig_exact (n : Nat) (h : n < 2 ^ 53) : roundSig n false = (n, 0) := by
  have hb : bitLen n - 53 = 0 := by
    have := bitLenAux_le n n 53 h
    unfold bitLen
    omega
  simp [roundSig, hb, Nat.mod_one]

theorem sign_mul_natAbs_cast (i : Int) : Int.sign i * ((i.natAbs : Nat) : Int) = i := by
  rw [Int.natCast_natAbs]
  exact Int.sign_mul_abs i

/-- Conversion of an integer below `2 ^ 53` in magnitude keeps the integer. -/
theorem f64OfInt_eq (i : Int) (h : i.natAbs < 2 ^ 53) : f64OfInt i = ⟨i, 0⟩ := by
  unfold f64OfInt
  rw [roundSig_exact _ h]
  show F64.mk (Int.sign i * ((i.natAbs : Nat) : Int)) ((0 : Nat) : Int) = ⟨i, 0⟩
  rw [sign_mul_natAbs_cast]
  rfl

/-- A product whose mantissa needs at most 53 bits is not rounded. -/
theorem f64Mul_eq (x y : F64) (h : (x.mant * y.mant).natAbs < 2 ^ 53) :
    f64Mul x y = ⟨x.mant * y.mant, x.exp + y.exp⟩ := by
  unfold f64Mul
  simp only []
  rw [roundSig_exact _ h]
  show F64.mk (Int.sign (x.mant * y.mant) * (((x.mant * y.mant).natAbs : Nat) : Int))
    (x.exp + y.exp + ((0 : Nat) : Int)) = ⟨x.mant * y.mant, x.exp + y.exp⟩
  rw [sign_mul_natAbs_cast]
  simp

/-- Conversion of an integer below `2 ^ 53` in magnitude is exact. -/
theorem f64OfInt_exact (i : Int) (h : i.natAbs < 2 ^ 53) : (f64OfInt i).toRat = (i : ℚ) := by
  rw [f64OfInt_eq i h]
  simp [F64.toRat]

/-- A product whose mantissa needs at most 53 bits is exact. -/
theorem f64Mul_exact (x y : F64) (h : (x.mant * y.mant).natAbs < 2 ^ 53) :
    (f64Mul x y).toRat = x.toRat * y.toRat := by
  rw [f64Mul_eq x y h]
  simp only [F64.toRat]
  rw [zpow_add₀ (by norm_num : (2 : ℚ) ≠ 0)]
  push_cast
  ring

theorem f64ToInt_of_range (x : F64) (h : -(2 : ℚ) ^ 63 ≤ x.toRat ∧ x.toRat < (2 : ℚ) ^ 63) :
    f64ToInt x = f64Trunc x := by
  have hfit : minInt64 ≤ f64Trunc x ∧ f64Trunc x ≤ maxInt64 := by
    unfold minInt64 maxInt64
    rcases le_total 0 x.toRat with h0 | h0
    · rw [(f64Trunc_eq x).1 h0]
      have h1 : ⌊x.toRat⌋ < (2 : Int) ^ 63 := by
        rw [Int.floor_lt]
        push_cast
        exact h.2
      have h2 : (0 : Int) ≤ ⌊x.toRat⌋ := Int.floor_nonneg.mpr h0
      constructor <;> omega
    · rw [(f64Trunc_eq x).2 h0]
      have h1 : -(2 : Int) ^ 63 ≤ ⌈x.toRat⌉ := by
        rw [Int.le_ceil_iff]
        push_cast
        linarith [h.1]
      have h2 : ⌈x.toRat⌉ ≤ (0 : Int) := Int.ceil_le.mpr (by simpa using h0)
      constructor <;> omega
  simp [f64ToInt, hfit]

/-- C4 (counterexample): at 16 kHz mono the time 0.005859375 s (`3 * 2 ^ (-9)`) has the exact
product 93.75; `extractSegment` uses index 93 while rounding to nearest gives 94. -/
theorem sampleIndex_not_round :
    sampleIndex ⟨3, -9⟩ ⟨1, 16000⟩ = 93 ∧
      round (F64.toRat ⟨3, -9⟩ * ((16000 : Int) : ℚ) * ((1 : Int) : ℚ)) = 94 := by
  refine ⟨by decide, ?_⟩
  rw [round_eq, Int.floor_eq_iff]
  norm_num [F64.toRat]

/-- C4 (amended): the index is the float64 product `t * r * c` with its fraction discarded,
that is rounded toward zero: the floor of a non-negative product and the ceiling of a
non-positive one, for products within the range of `int`; the float64 product is the exact
product whenever `r`, `c` and the mantissas of both multiplications fit in 53 bits. -/
theorem sampleIndex_truncates (t : F64) (format : Format)
    (hrange : -(2 : ℚ) ^ 63 ≤ (indexProduct t format).toRat ∧
      (indexProduct t format).toRat < (2 : ℚ) ^ 63) :
    (0 ≤ (indexProduct t format).toRat →
        sampleIndex t format = ⌊(indexProduct t format).toRat⌋) ∧
      ((indexProduct t format).toRat ≤ 0 →
        sampleIndex t format = ⌈(indexProduct t format).toRat⌉) ∧
      (format.SampleRate.natAbs < 2 ^ 53 → format.NumChannels.natAbs < 2 ^ 53 →
        (t.mant * format.SampleRate).natAbs < 2 ^ 53 →
        (t.mant * format.SampleRate * format.NumChannels).natAbs < 2 ^ 53 →
        (indexProduct t format).toRat =
          t.toRat * (format.SampleRate : ℚ) * (format.NumChannels : ℚ)) := by
  have hI : sampleIndex t format = f64Trunc (indexProduct t format) :=
    f64ToInt_of_range _ hrange
  refine ⟨fun h0 => ?_, fun h0 => ?_, fun hr hc h1 h2 => ?_⟩
  · rw [hI]; exact (f64Trunc_eq _).1 h0
  · rw [hI]; exact (f64Trunc_eq _).2 h0
  · have e1 : f64Mul t ⟨format.SampleRate, 0⟩ = ⟨t.mant * format.SampleRate, t.exp + 0⟩ :=
      f64Mul_eq t ⟨format.SampleRate, 0⟩ h1
    unfold indexProduct
    rw [f64OfInt_eq _ hr, f64OfInt_eq _ hc, e1, f64Mul_exact _ _ h2]
    simp only [F64.toRat, add_zero]
    push_cast
    ring

/-- Witness for C4 (amended): 0.005859375 s at 16 kHz mono. -/
theorem sampleIndex_truncates_witness :
    (0 ≤ (indexProduct ⟨3, -9⟩ ⟨1, 16000⟩).toRat →
        sampleIndex ⟨3, -9⟩ ⟨1, 16000⟩ = ⌊(indexProduct ⟨3, -9⟩ ⟨1, 16000⟩).toRat⌋) ∧
      ((indexProduct ⟨3, -9⟩ ⟨1, 16000⟩).toRat ≤ 0 →
        sampleIndex ⟨3, -9⟩ ⟨1, 16000⟩ = ⌈(indexProduct ⟨3, -9⟩ ⟨1, 16000⟩).toRat⌉) ∧
      ((16000 : Int).natAbs < 2 ^ 53 → (1 : Int).natAbs < 2 ^ 53 →
        ((3 : Int) * 16000).natAbs < 2 ^ 53 →
        ((3 : Int) * 16000 * 1).natAbs < 2 ^ 53 →
        (indexProduct ⟨3, -9⟩ ⟨1, 16000⟩).toRat =
          F64.toRat ⟨3, -9⟩ * ((16000 : Int) : ℚ) * ((1 : Int) : ℚ)) :=
  sampleIndex_truncates ⟨3, -9⟩ ⟨1, 16000⟩ (by
    have e : indexProduct ⟨3, -9⟩ ⟨1, 16000⟩ = ⟨48000, -9⟩ := by decide
    rw [e]
    norm_num [F64.toRat])

/-! ## Rounding never passes a representable bound -/

theorem bitLenAux_bounds (fuel : Nat) :
    ∀ n : Nat, n ≤ fuel →
      n < 2 ^ bitLenAux fuel n ∧ (n ≠ 0 → 2 ^ (bitLenAux fuel n - 1) ≤ n) := by
  induction fuel with
  | zero =>
    intro n hn
    have : n = 0 := by omega
    subst this
    simp [bitLenAux]
  | succ f ih =>
    intro n hn
    unfold bitLenAux
    split
    · rename_i h0
      subst h0
      simp
    · rename_i hne
      obtain ⟨hlt, hge⟩ := ih (n / 2) (by omega)
      constructor
      · rw [Nat.pow_succ]
        omega
      · intro _
        simp only [Nat.add_sub_cancel]
        by_cases h2 : n / 2 = 0
        · have hb : bitLenAux f (n / 2) = 0 := by
            rw [h2]
            cases f <;> simp [bitLenAux]
          rw [hb]
          simp
          omega
        · have h3 := hge h2
          have hb : 1 ≤ bitLenAux f (n / 2) := by
            by_contra hc
            have : bitLenAux f (n / 2) = 0 := by omega
            rw [this] at hlt
            simp at hlt
            exact h2 hlt
          have : 2 ^ bitLenAux f (n / 2) = 2 * 2 ^ (bitLenAux f (n / 2) - 1) := by
            rw [← Nat.pow_succ']
            congr 1
            omega
          omega

theorem bitLen_lower (n : Nat) (h : n ≠ 0) : 2 ^ (bitLen n - 1) ≤ n :=
  (bitLenAux_bounds n n (Nat.le_refl n)).2 h

/-- Rounding to 53 bits never passes a bound `a * 2 ^ b` that is itself representable. -/
theorem roundSig_le (n : Nat) (sticky : Bool) (a b : Nat) (ha : a < 2 ^ 53)
    (h : n ≤ a * 2 ^ b) :
    (roundSig n sticky).1 * 2 ^ (roundSig n sticky).2 ≤ a * 2 ^ b := by
  have hdm : 2 ^ (bitLen n - 53) * (n / 2 ^ (bitLen n - 53)) + n % 2 ^ (bitLen n - 53) = n :=
    Nat.div_add_mod n _
  have hrlt : n % 2 ^ (bitLen n - 53) < 2 ^ (bitLen n - 53) :=
    Nat.mod_lt _ (Nat.pos_pow_of_pos _ (by decide))
  unfold roundSig
  simp only []
  split
  · rename_i hup
    -- rounding up happens only off the grid
    have hr : n % 2 ^ (bitLen n - 53) ≠ 0 := by
      intro h0
      rw [h0] at hup
      have hpos : 0 < 2 ^ (bitLen n - 53) := Nat.pos_pow_of_pos _ (by decide)
      simp at hup
      omega
    have hs : 1 ≤ bitLen n - 53 := by
      by_contra hc
      have h0 : bitLen n - 53 = 0 := by omega
      rw [h0] at hrlt
      simp at hrlt
      exact hr (by rw [h0]; simpa using hrlt)
    have hn0 : n ≠ 0 := by
      intro h0
      rw [h0] at hr
      simp at hr
    have hlow := bitLen_lower n hn0
    have hexp : bitLen n - 1 = (bitLen n - 53) + 52 := by omega
    rw [hexp] at hlow
    -- the bound lies on the grid of spacing 2 ^ s
    have hbs : bitLen n - 53 ≤ b := by
      by_contra hc
      have hb : b + 1 ≤ bitLen n - 53 := by omega
      have h1 : a * 2 ^ b < 2 ^ 53 * 2 ^ b :=
        Nat.mul_lt_mul_of_pos_right ha (Nat.pos_pow_of_pos _ (by decide))
      have h2 : 2 ^ 53 * 2 ^ b ≤ 2 ^ ((bitLen n - 53) + 52) := by
        rw [← Nat.pow_add]
        exact Nat.pow_le_pow_right (by decide) (by omega)
      omega
    obtain ⟨d, hd⟩ := Nat.exists_eq_add_of_le hbs
    have hY : a * 2 ^ b = (a * 2 ^ d) * 2 ^ (bitLen n - 53) := by
      rw [hd, Nat.pow_add]
      ring
    rw [hY] at h ⊢
    apply Nat.mul_le_mul_right
    by_contra hc
    have hq : a * 2 ^ d ≤ n / 2 ^ (bitLen n - 53) := by omega
    have := Nat.mul_le_mul_right (2 ^ (bitLen n - 53)) hq
    have hcomm : n / 2 ^ (bitLen n - 53) * 2 ^ (bitLen n - 53) =
        2 ^ (bitLen n - 53) * (n / 2 ^ (bitLen n - 53)) := Nat.mul_comm _ _
    have hrpos : 0 < n % 2 ^ (bitLen n - 53) := Nat.pos_of_ne_zero hr
    omega
  · have : n / 2 ^ (bitLen n - 53) * 2 ^ (bitLen n - 53) ≤ n := Nat.div_mul_le_self _ _
    omega

/-! ## The length computed by resample -/

theorem f64Trunc_bounds (m t k n : Nat) (h : m * 2 ^ t ≤ n * 2 ^ k) :
    0 ≤ f64Trunc ⟨(m : Int), (t : Int) - (k : Int)⟩ ∧
      f64Trunc ⟨(m : Int), (t : Int) - (k : Int)⟩ ≤ (n : Int) := by
  unfold f64Trunc
  simp only []
  split
  · rename_i hge
    have hkt : k ≤ t := by omega
    have he : ((t : Int) - (k : Int)).toNat = t - k := by omega
    rw [he]
    have h2 : m * 2 ^ (t - k) ≤ n := by
      have ht : 2 ^ t = 2 ^ (t - k) * 2 ^ k := by
        rw [← Nat.pow_add]
        congr 1
        omega
      rw [ht, ← Nat.mul_assoc] at h
      exact Nat.le_of_mul_le_mul_right h (Nat.pos_pow_of_pos _ (by decide))
    constructor
    · positivity
    · exact_mod_cast h2
  · rename_i hlt
    have hkt : t < k := by omega
    have he : (-((t : Int) - (k : Int))).toNat = k - t := by omega
    rw [he, Int.tdiv_eq_ediv (Int.ofNat_nonneg m) (by positivity)]
    have h2 : m / 2 ^ (k - t) ≤ n := by
      have hk : 2 ^ k = 2 ^ (k - t) * 2 ^ t := by
        rw [← Nat.pow_add]
        congr 1
        omega
      rw [hk, ← Nat.mul_assoc] at h
      have h3 := Nat.le_of_mul_le_mul_right h (Nat.pos_pow_of_pos _ (by decide))
      exact Nat.div_le_of_le_mul (by rw [Nat.mul_comm]; exact h3)
    constructor
    · positivity
    · exact_mod_cast h2

theorem sign_mul_roundSig (p : Nat) :
    Int.sign (p : Int) * (((roundSig p false).1 : Nat) : Int) = (((roundSig p false).1 : Nat) : Int) := by
  rcases Nat.eq_zero_or_pos p with h | h
  · subst h
    rw [roundSig_exact 0 (by decide)]
    simp
  · rw [Int.sign_eq_one_of_pos (by exact_mod_cast h)]
    simp

/-- The computation of `resampleLen` for `0 < outputRate ≤ inputRate`, step by step: the
scaling `k` of the quotient, the rounded quotient `m1 * 2 ^ (s1 - k)`, the rounded product
`m2 * 2 ^ (s2 + s1 - k)`, which does not exceed `n`, and its integer part. -/
theorem resampleLen_steps (n inputRate outputRate : Nat) (h0 : 0 < outputRate)
    (hle : outputRate ≤ inputRate) (hin : inputRate < 2 ^ 53) (hn : n < 2 ^ 53) :
    ∃ k m1 s1 m2 s2 : Nat,
      k = 55 + bitLen inputRate - bitLen outputRate ∧
      roundSig (outputRate * 2 ^ k / inputRate)
        (decide (outputRate * 2 ^ k % inputRate ≠ 0)) = (m1, s1) ∧
      roundSig (n * m1) false = (m2, s2) ∧
      m2 * 2 ^ (s2 + s1) ≤ n * 2 ^ k ∧
      resampleLen n inputRate outputRate =
        f64Trunc ⟨(m2 : Int), ((s2 + s1 : Nat) : Int) - (k : Int)⟩ := by
  have eo : f64OfInt (outputRate : Int) = ⟨(outputRate : Int), 0⟩ :=
    f64OfInt_eq _ (by simpa using lt_of_le_of_lt hle hin)
  have ei : f64OfInt (inputRate : Int) = ⟨(inputRate : Int), 0⟩ := f64OfInt_eq _ (by simpa using hin)
  have en : f64OfInt (n : Int) = ⟨(n : Int), 0⟩ := f64OfInt_eq _ (by simpa using hn)
  -- the ratio
  obtain ⟨k, hk⟩ : ∃ k, k = 55 + bitLen inputRate - bitLen outputRate := ⟨_, rfl⟩
  obtain ⟨m1, s1, h1⟩ : ∃ m1 s1, roundSig (outputRate * 2 ^ k / inputRate)
      (decide (outputRate * 2 ^ k % inputRate ≠ 0)) = (m1, s1) := ⟨_, _, rfl⟩
  have hratio : f64Div ⟨(outputRate : Int), 0⟩ ⟨(inputRate : Int), 0⟩ =
      ⟨(m1 : Int), (s1 : Int) - (k : Int)⟩ := by
    unfold f64Div
    simp only [Int.natAbs_ofNat, ← hk, h1]
    rw [Int.sign_eq_one_of_pos (by exact_mod_cast h0),
      Int.sign_eq_one_of_pos (by exact_mod_cast lt_of_lt_of_le h0 hle)]
    simp only [F64.mk.injEq]
    constructor <;> omega
  have hq : outputRate * 2 ^ k / inputRate ≤ 1 * 2 ^ k := by
    apply Nat.div_le_of_le_mul
    rw [Nat.one_mul]
    exact Nat.mul_le_mul_right _ hle
  have hA := roundSig_le _ (decide (outputRate * 2 ^ k % inputRate ≠ 0)) 1 k (by decide) hq
  rw [h1, Nat.one_mul] at hA
  dsimp only at hA
  -- the product
  obtain ⟨m2, s2, h2⟩ : ∃ m2 s2, roundSig (n * m1) false = (m2, s2) := ⟨_, _, rfl⟩
  have hsgn := sign_mul_roundSig (n * m1)
  rw [h2] at hsgn
  dsimp only at hsgn
  have hprod : f64Mul ⟨(n : Int), 0⟩ ⟨(m1 : Int), (s1 : Int) - (k : Int)⟩ =
      ⟨(m2 : Int), ((s2 + s1 : Nat) : Int) - (k : Int)⟩ := by
    unfold f64Mul
    simp only []
    have hp : ((n : Int) * (m1 : Int)).natAbs = n * m1 := by
      rw [← Int.natCast_mul, Int.natAbs_ofNat]
    rw [hp, h2]
    simp only [F64.mk.injEq]
    constructor
    · rw [← Int.natCast_mul]
      exact hsgn
    · push_cast
      omega
  -- the product stays below n * 2 ^ k
  have hB : m2 * 2 ^ (s2 + s1) ≤ n * 2 ^ k := by
    rcases Nat.eq_zero_or_pos m1 with hz | hpos
    · subst hz
      rw [Nat.mul_zero, roundSig_exact 0 (by decide)] at h2
      have : m2 = 0 := by
        have := congrArg Prod.fst h2
        simpa using this.symm
      subst this
      simp
    · have hs1 : s1 ≤ k := by
        by_contra hc
        have : 2 ^ k < 2 ^ s1 := Nat.pow_lt_pow_right (by decide) (by omega)
        have : 1 * 2 ^ s1 ≤ m1 * 2 ^ s1 := Nat.mul_le_mul_right _ hpos
        omega
      have hm1 : m1 ≤ 2 ^ (k - s1) := by
        have hk2 : 2 ^ k = 2 ^ (k - s1) * 2 ^ s1 := by
          rw [← Nat.pow_add]
          congr 1
          omega
        rw [hk2] at hA
        exact Nat.le_of_mul_le_mul_right hA (Nat.pos_pow_of_pos _ (by decide))
      have hC := roundSig_le (n * m1) false n (k - s1) hn (Nat.mul_le_mul_left _ hm1)
      rw [h2] at hC
      dsimp only at hC
      have hC2 := Nat.mul_le_mul_right (2 ^ s1) hC
      have e1 : m2 * 2 ^ s2 * 2 ^ s1 = m2 * 2 ^ (s2 + s1) := by
        rw [Nat.mul_assoc, ← Nat.pow_add]
      have e2 : n * 2 ^ (k - s1) * 2 ^ s1 = n * 2 ^ k := by
        rw [Nat.mul_assoc, ← Nat.pow_add]
        congr 2
        omega
      rw [e1, e2] at hC2
      exact hC2
  have hT := f64Trunc_bounds m2 (s2 + s1) k n hB
  have hlen : resampleLen n inputRate outputRate =
      f64Trunc ⟨(m2 : Int), ((s2 + s1 : Nat) : Int) - (k : Int)⟩ := by
    unfold resampleLen
    rw [eo, ei, en, hratio, hprod]
    unfold f64ToInt
    simp only []
    rw [if_pos]
    unfold minInt64 maxInt64
    have : (n : Int) < 2 ^ 53 := by exact_mod_cast hn
    constructor <;> omega
  exact ⟨k, m1, s1, m2, s2, hk, h1, h2, hB, hlen⟩

/-- For rates with `0 < outputRate ≤ inputRate` the length computed by `resample` lies
between `0` and the input length (all quantities below `2 ^ 53`). -/
theorem resampleLen_bounds (n inputRate outputRate : Nat) (h0 : 0 < outputRate)
    (hle : outputRate ≤ inputRate) (hin : inputRate < 2 ^ 53) (hn : n < 2 ^ 53) :
    0 ≤ resampleLen n inputRate outputRate ∧ resampleLen n inputRate outputRate ≤ (n : Int) := by
  obtain ⟨k, m1, s1, m2, s2, _, _, _, hB, hlen⟩ :=
    resampleLen_steps n inputRate outputRate h0 hle hin hn
  rw [hlen]
  exact f64Trunc_bounds m2 (s2 + s1) k n hB

/-! ## Rates in a power-of-two ratio: no rounding -/

theorem bitLen_le (n k : Nat) (h : n < 2 ^ k) : bitLen n ≤ k :=
  bitLenAux_le n n k h

theorem lt_two_pow_bitLen (n : Nat) : n < 2 ^ bitLen n :=
  (bitLenAux_bounds n n (Nat.le_refl n)).1

theorem bitLen_mul_pow_ge (o j : Nat) (ho : 0 < o) : bitLen o + j ≤ bitLen (o * 2 ^ j) := by
  have h1 := bitLen_lower o (by omega)
  have h2 := lt_two_pow_bitLen (o * 2 ^ j)
  have h3 := lt_two_pow_bitLen o
  have hb : 1 ≤ bitLen o := by
    by_contra hc
    have : bitLen o = 0 := by omega
    rw [this] at h3
    simp at h3
    omega
  have h4 : 2 ^ (bitLen o - 1 + j) ≤ o * 2 ^ j := by
    rw [Nat.pow_add]
    exact Nat.mul_le_mul_right _ h1
  have h5 : 2 ^ (bitLen o - 1 + j) < 2 ^ bitLen (o * 2 ^ j) := lt_of_le_of_lt h4 h2
  have h6 := (Nat.pow_lt_pow_iff_right (by decide : 1 < 2)).1 h5
  omega

/-- A magnitude whose bits below the 53rd are all zero is not changed by rounding. -/
theorem roundSig_of_dvd (n : Nat) (sticky : Bool) (h : 2 ^ (bitLen n - 53) ∣ n) :
    (roundSig n sticky).1 * 2 ^ (roundSig n sticky).2 = n := by
  have hr : n % 2 ^ (bitLen n - 53) = 0 := Nat.mod_eq_zero_of_dvd h
  have hpos : 0 < 2 ^ (bitLen n - 53) := Nat.pos_pow_of_pos _ (by decide)
  unfold roundSig
  simp only [hr]
  have hup : (decide (2 ^ (bitLen n - 53) < 2 * 0) ||
      (decide (2 * 0 = 2 ^ (bitLen n - 53)) &&
        (sticky || decide (n / 2 ^ (bitLen n - 53) % 2 = 1)))) = false := by
    have h1 : ¬ (2 ^ (bitLen n - 53) < 2 * 0) := by omega
    have h2 : ¬ (2 * 0 = 2 ^ (bitLen n - 53)) := by omega
    rw [decide_eq_false h1, decide_eq_false h2]
    rfl
  rw [hup]
  simp only [Bool.false_eq_true, if_false]
  exact Nat.div_mul_cancel h

theorem f64Trunc_value (m t k : Nat) :
    f64Trunc ⟨(m : Int), (t : Int) - (k : Int)⟩ = ((m * 2 ^ t / 2 ^ k : Nat) : Int) := by
  unfold f64Trunc
  simp only []
  split
  · have hkt : k ≤ t := by omega
    have he : ((t : Int) - (k : Int)).toNat = t - k := by omega
    rw [he]
    have ht : 2 ^ t = 2 ^ (t - k) * 2 ^ k := by
      rw [← Nat.pow_add]
      congr 1
      omega
    rw [ht, ← Nat.mul_assoc, Nat.mul_div_cancel _ (Nat.pos_pow_of_pos _ (by decide))]
    push_cast
    rfl
  · have hkt : t < k := by omega
    have he : (-((t : Int) - (k : Int))).toNat = k - t := by omega
    rw [he, Int.tdiv_eq_ediv (Int.ofNat_nonneg m) (by positivity)]
    have hk : 2 ^ k = 2 ^ (k - t) * 2 ^ t := by
      rw [← Nat.pow_add]
      congr 1
      omega
    rw [hk, Nat.mul_div_mul_right _ _ (Nat.pos_pow_of_pos _ (by decide))]
    push_cast
    rfl

/-- When the input rate is the output rate times a power of two (as for 44100 Hz to 22050 Hz)
nothing is rounded and the computed length is the exact `floor(n * outputRate / inputRate)`. -/
theorem resampleLen_pow2 (n o j : Nat) (ho : 0 < o) (hin : o * 2 ^ j < 2 ^ 53)
    (hn : n < 2 ^ 53) :
    resampleLen n (o * 2 ^ j) o = ((n * o / (o * 2 ^ j) : Nat) : Int) := by
  have hpj : 0 < 2 ^ j := Nat.pos_pow_of_pos _ (by decide)
  have hle : o ≤ o * 2 ^ j := Nat.le_mul_of_pos_right o hpj
  obtain ⟨k, m1, s1, m2, s2, hk, h1, h2, _, hlen⟩ :=
    resampleLen_steps n (o * 2 ^ j) o ho hle hin hn
  have hbl := bitLen_mul_pow_ge o j ho
  have hjk : j ≤ k := by omega
  have hsplit : o * 2 ^ k = o * 2 ^ j * 2 ^ (k - j) := by
    rw [Nat.mul_assoc, ← Nat.pow_add]
    congr 2
    omega
  have hQ : o * 2 ^ k / (o * 2 ^ j) = 2 ^ (k - j) := by
    rw [hsplit]
    exact Nat.mul_div_cancel_left _ (Nat.mul_pos ho hpj)
  -- the quotient is the exact power of two
  have hd1 : 2 ^ (bitLen (2 ^ (k - j)) - 53) ∣ 2 ^ (k - j) := by
    apply Nat.pow_dvd_pow
    have := bitLen_le (2 ^ (k - j)) (k - j + 1) (Nat.pow_lt_pow_right (by decide) (by omega))
    omega
  have hv1 := roundSig_of_dvd (2 ^ (k - j)) (decide (o * 2 ^ k % (o * 2 ^ j) ≠ 0)) hd1
  rw [← hQ, h1] at hv1
  dsimp only at hv1
  rw [hQ] at hv1
  obtain ⟨a, _, ha⟩ := (Nat.dvd_prime_pow Nat.prime_two).1 (Dvd.intro _ hv1)
  -- the product is exact as well
  have hd2 : 2 ^ (bitLen (n * m1) - 53) ∣ n * m1 := by
    rw [ha]
    have hlt : n * 2 ^ a < 2 ^ (53 + a) := by
      rw [Nat.pow_add]
      exact Nat.mul_lt_mul_of_pos_right hn (Nat.pos_pow_of_pos _ (by decide))
    have := bitLen_le (n * 2 ^ a) (53 + a) hlt
    exact Dvd.dvd.mul_left (Nat.pow_dvd_pow 2 (by omega)) n
  have hv2 := roundSig_of_dvd (n * m1) false hd2
  rw [h2] at hv2
  dsimp only at hv2
  have hval : m2 * 2 ^ (s2 + s1) = n * 2 ^ (k - j) := by
    rw [Nat.pow_add, ← Nat.mul_assoc, hv2, Nat.mul_assoc, hv1]
  have hk2 : 2 ^ k = 2 ^ j * 2 ^ (k - j) := by
    rw [← Nat.pow_add]
    congr 1
    omega
  rw [hlen, f64Trunc_value, hval, hk2,
    Nat.mul_div_mul_right _ _ (Nat.pos_pow_of_pos _ (by decide)),
    Nat.mul_comm o (2 ^ j), Nat.mul_div_mul_right _ _ ho]

/-! ## resample -/

set_option maxRecDepth 8000 in
/-- C5 (counterexample): 49 samples resampled from 49000 Hz to 16000 Hz.  The quotient
`float64(16000)/float64(49000)` is rounded down, its product with 49 is below 16, so
`resample` returns 15 samples although `floor(49 * 16000 / 49000) = 16`. -/
theorem resample_length_not_floor :
    resampleLen 49 49000 16000 = 15 ∧
      (resample shapeFFT (List.replicate 49 (f64OfInt 0)) 49000 16000).map List.length = .ok 15 ∧
      49 * 16000 / 49000 = 16 := by
  refine ⟨by decide, ?_, by decide⟩
  decide

/-- C5 (amended): for `0 < outputRate ≤ inputRate` (rates are `uint32`) `resample` returns
exactly `int(float64(n) * (float64(outputRate) / float64(inputRate)))` samples, the quotient and
the product being rounded as float64 values, whenever that number is at least 1; it never
exceeds `n`, and it is `floor(n * outputRate / inputRate)` when the input rate is the output
rate times a power of two.  The transform package has to return at least `n` values of
capacity from `FFTReal` and as many values as it is given from `IFFT` on a non-empty slice. -/
theorem resample_length (fft : FFTPackage) (input : List F64) (inputRate outputRate : Nat)
    (hcap : input.length ≤ (fft.FFTReal input).cap)
    (hifft : ∀ xs, xs ≠ [] → ∃ ys, fft.IFFT xs = .ok ys ∧ ys.length = xs.length)
    (h0 : 0 < outputRate) (hle : outputRate ≤ inputRate) (hin : inputRate < 2 ^ 32)
    (hn : input.length < 2 ^ 53)
    (hpos : 1 ≤ resampleLen input.length inputRate outputRate) :
    ∃ ys, resample fft input inputRate outputRate = .ok ys ∧
      (ys.length : Int) = resampleLen input.length inputRate outputRate ∧
      ys.length ≤ input.length ∧
      (∀ j, inputRate = outputRate * 2 ^ j →
        ys.length = input.length * outputRate / inputRate) := by
  have hb := resampleLen_bounds input.length inputRate outputRate h0 hle
    (lt_trans hin (by decide)) hn
  obtain ⟨m, hm⟩ := Int.eq_ofNat_of_zero_le hb.1
  have hmn : m ≤ input.length := by
    have := hb.2
    rw [hm] at this
    exact_mod_cast this
  have hm1 : 1 ≤ m := by
    rw [hm] at hpos
    exact_mod_cast hpos
  have hre : (fft.FFTReal input).resliceTo (m : Int) =
      .ok { backing := (fft.FFTReal input).backing, len := m } := by
    unfold GoSlice.resliceTo
    rw [if_pos ⟨Int.ofNat_nonneg m, by exact_mod_cast le_trans hmn hcap⟩]
    simp
  have hel : (GoSlice.elems { backing := (fft.FFTReal input).backing, len := m }).length = m := by
    unfold GoSlice.elems
    rw [List.length_take]
    exact Nat.min_eq_left (le_trans hmn hcap)
  have hne : GoSlice.elems { backing := (fft.FFTReal input).backing, len := m } ≠ [] := by
    intro hnil
    rw [hnil] at hel
    simp at hel
    omega
  obtain ⟨ys, hys, hlen⟩ := hifft _ hne
  refine ⟨ys.map fun v => f64ToInt (fft.real v), ?_, ?_, ?_, ?_⟩
  · unfold resample
    have hi : ¬ inputRate = 0 := by omega
    have hneg : ¬ resampleLen input.length inputRate outputRate < 0 := by omega
    simp only [hi, hneg, if_false]
    rw [hm, hre]
    simp only [pure_bind, Except.bind, bind, hys]
    rfl
  · rw [List.length_map, hlen, hel, hm]
  · rw [List.length_map, hlen, hel]
    exact hmn
  · intro j hj
    have hex := resampleLen_pow2 input.length outputRate j h0
      (by rw [← hj]; exact lt_trans hin (by decide)) hn
    rw [← hj, hm] at hex
    rw [List.length_map, hlen, hel]
    exact_mod_cast hex

/-- Witness for C5 (amended): the 8 samples of the unit test, 44100 Hz to 22050 Hz, give 4. -/
theorem resample_length_witness :
    ∃ ys, resample shapeFFT (List.replicate 8 (f64OfInt 1)) 44100 22050 = .ok ys ∧
      (ys.length : Int) = resampleLen (List.replicate 8 (f64OfInt 1)).length 44100 22050 ∧
      ys.length ≤ (List.replicate 8 (f64OfInt 1)).length ∧
      (∀ j, 44100 = 22050 * 2 ^ j →
        ys.length = (List.replicate 8 (f64OfInt 1)).length * 22050 / 44100) :=
  resample_length shapeFFT (List.replicate 8 (f64OfInt 1)) 44100 22050 (by decide)
    (fun xs hne => ⟨xs, by
      cases xs with
      | nil => exact absurd rfl hne
      | cons x t => rfl, rfl⟩)
    (by decide) (by decide) (by decide) (by decide) (by decide)

/-- C6 (failing inputs): whenever the computed length exceeds the capacity of the slice
returned by `FFTReal`, the reslice `fftData[:len(out)]` stops `resample` with a slice-bounds
panic; nothing pads the spectrum. -/
theorem resample_upsample_panics (fft : FFTPackage) (input : List F64)
    (inputRate outputRate : Nat) (hin : inputRate ≠ 0)
    (hcap : ((fft.FFTReal input).cap : Int) < resampleLen input.length inputRate outputRate) :
    resample fft input inputRate outputRate = .error (.panic "slice bounds out of range") := by
  unfold resample
  have hneg : ¬ resampleLen input.length inputRate outputRate < 0 := by omega
  have hre : (fft.FFTReal input).resliceTo (resampleLen input.length inputRate outputRate) =
      .error (.panic "slice bounds out of range") := by
    unfold GoSlice.resliceTo
    rw [if_neg]
    omega
  simp only [hin, hneg, if_false, hre]
  rfl

/-- Witness for C6: one sample, and eight samples, at 8000 Hz resampled to 16000 Hz with the
capacities of go-dsp (capacity 1 and 8, computed lengths 2 and 16). -/
theorem resample_upsample_panics_witness :
    resample shapeFFT [f64OfInt 1] 8000 16000 = .error (.panic "slice bounds out of range") ∧
      resample shapeFFT (List.replicate 8 (f64OfInt 1)) 8000 16000 =
        .error (.panic "slice bounds out of range") :=
  ⟨resample_upsample_panics shapeFFT [f64OfInt 1] 8000 16000 (by decide) (by decide),
    resample_upsample_panics shapeFFT (List.replicate 8 (f64OfInt 1)) 8000 16000
      (by decide) (by decide)⟩

/-! ## extractAudioSegments -/

theorem extractLoop_cons {σ : Type} (env : Env σ) (audioBuf : IntBuffer) (dec : Decoder)
    (i : Nat) (seg : segment) (rest : List segment) (out : List String) (s : GoState σ) :
    extractLoop env audioBuf dec i (seg :: rest) out s =
      match segmentEntry env audioBuf dec seg s with
      | (.ok entry, s1) => extractLoop env audioBuf dec (i + 1) rest (out.set i entry) s1
      | (.error e, s1) => (.error e, s1) := by
  rw [extractLoop]
  simp only [bind, Go.bind]
  rcases segmentEntry env audioBuf dec seg s with ⟨r, s1⟩
  cases r <;> rfl

theorem segmentEntry_ok {σ : Type} (env : Env σ) (audioBuf : IntBuffer) (dec : Decoder)
    (seg : segment) (s s1 : GoState σ) (entry : String)
    (h : segmentEntry env audioBuf dec seg s = (.ok entry, s1)) :
    ∃ slice enc, extractSegment audioBuf seg = .ok slice ∧
      encodeSegment env slice audioBuf.Format dec s = (.ok enc, s1) ∧
      entry = "data:audio/wav;base64," ++ enc := by
  unfold segmentEntry at h
  simp only [bind, Go.bind, Go.lift, pure] at h
  cases hx : extractSegment audioBuf seg with
  | error e =>
    rw [hx] at h
    simp at h
  | ok slice =>
    rw [hx] at h
    simp only [] at h
    rcases he : encodeSegment env slice audioBuf.Format dec s with ⟨r, s2⟩
    rw [he] at h
    cases r with
    | error e => simp at h
    | ok enc =>
      simp only [Prod.mk.injEq, Except.ok.injEq] at h
      exact ⟨slice, enc, rfl, by rw [← h.2]; exact he, h.1.symm⟩

/-- What a completed run of the loop has stored: the length of the list is unchanged, every
index of the run holds the entry of its segment, the other indices are untouched. -/
theorem extractLoop_ok {σ : Type} (env : Env σ) (audioBuf : IntBuffer) (dec : Decoder) :
    ∀ (segs : List segment) (i : Nat) (out out' : List String) (s s' : GoState σ),
      extractLoop env audioBuf dec i segs out s = (.ok out', s') →
      i + segs.length ≤ out.length →
      out'.length = out.length ∧
      (∀ j, j < i → out'[j]? = out[j]?) ∧
      (∀ (j : Nat) (seg : segment), segs[j]? = some seg → ∃ slice enc sj sj',
        extractSegment audioBuf seg = .ok slice ∧
        encodeSegment env slice audioBuf.Format dec sj = (.ok enc, sj') ∧
        out'[i + j]? = some ("data:audio/wav;base64," ++ enc)) := by
  intro segs
  induction segs with
  | nil =>
    intro i out out' s s' h _
    have : out' = out := by
      simp only [extractLoop, pure, Prod.mk.injEq, Except.ok.injEq] at h
      exact h.1.symm
    subst this
    exact ⟨rfl, fun _ _ => rfl, fun j seg hj => by simp at hj⟩
  | cons seg rest ih =>
    intro i out out' s s' h hlen
    rw [extractLoop_cons] at h
    rcases hse : segmentEntry env audioBuf dec seg s with ⟨r, s1⟩
    rw [hse] at h
    cases r with
    | error e => simp at h
    | ok entry =>
      simp only [] at h
      simp only [List.length_cons] at hlen
      obtain ⟨hl, hbefore, hrest⟩ := ih (i + 1) (out.set i entry) out' s1 s' h
        (by rw [List.length_set]; omega)
      obtain ⟨slice, enc, hx, he, hentry⟩ := segmentEntry_ok env audioBuf dec seg s s1 entry hse
      refine ⟨by rw [hl, List.length_set], ?_, ?_⟩
      · intro j hj
        rw [hbefore j (by omega), List.getElem?_set_ne (by omega)]
      · intro j sg hj
        cases j with
        | zero =>
          simp only [List.getElem?_cons_zero, Option.some.injEq] at hj
          subst hj
          refine ⟨slice, enc, s, s1, hx, he, ?_⟩
          rw [Nat.add_zero, hbefore i (by omega), List.getElem?_set_self (by omega), hentry]
        | succ j =>
          simp only [List.getElem?_cons_succ] at hj
          obtain ⟨sl, en, sj, sj', h1, h2, h3⟩ := hrest j sg hj
          refine ⟨sl, en, sj, sj', h1, h2, ?_⟩
          rw [← h3]
          congr 1
          omega

/-- C7: when `extractAudioSegments` succeeds on an input with N segments, the returned
record is the conversion of an output whose list `audio-segments` has exactly N entries,
and entry `i` is `"data:audio/wav;base64,"` followed by the text `encodeSegment` (base64 of
the WAV file written for the slice) returns for the slice `extractSegment` cuts for input
segment `i`. -/
theorem extractAudioSegments_entries {σ : Type} (env : Env σ) (input : env.Struct)
    (s s' : GoState σ) (result : env.Struct)
    (h : extractAudioSegments env input s = (.ok result, s')) :
    ∃ (inputStruct : extractAudioSegmentsInput) (audioBuf : IntBuffer) (dec : Decoder)
      (out : List String),
      env.convertExtractInput input = .ok inputStruct ∧
      decodeAudio env inputStruct.Audio = .ok (audioBuf, dec) ∧
      env.convertExtractOutput { AudioSegments := out } = .ok result ∧
      out.length = inputStruct.Segments.length ∧
      ∀ (i : Nat) (seg : segment), inputStruct.Segments[i]? = some seg → ∃ slice enc si si',
        extractSegment audioBuf seg = .ok slice ∧
        encodeSegment env slice audioBuf.Format dec si = (.ok enc, si') ∧
        out[i]? = some ("data:audio/wav;base64," ++ enc) := by
  unfold extractAudioSegments at h
  simp only [bind, Go.bind, Go.check, Go.lift] at h
  cases hc : env.convertExtractInput input with
  | error e =>
    rw [hc] at h
    simp at h
  | ok inputStruct =>
    rw [hc] at h
    simp only [] at h
    cases hd : decodeAudio env inputStruct.Audio with
    | error e =>
      rw [hd] at h
      simp at h
    | ok pair =>
      obtain ⟨audioBuf, dec⟩ := pair
      rw [hd] at h
      simp only [] at h
      rcases hl : extractLoop env audioBuf dec 0 inputStruct.Segments
        (List.replicate inputStruct.Segments.length "") s with ⟨r, s1⟩
      rw [hl] at h
      cases r with
      | error e => simp at h
      | ok out =>
        simp only [] at h
        cases ho : env.convertExtractOutput { AudioSegments := out } with
        | error e =>
          rw [ho] at h
          simp at h
        | ok res =>
          rw [ho] at h
          simp only [Prod.mk.injEq, Except.ok.injEq] at h
          obtain ⟨hlen, _, hent⟩ := extractLoop_ok env audioBuf dec inputStruct.Segments 0
            (List.replicate inputStruct.Segments.length "") out s s1 hl (by simp)
          refine ⟨inputStruct, audioBuf, dec, out, rfl, hd, by rw [ho, h.1], ?_, ?_⟩
          · rw [hlen, List.length_replicate]
          · intro i seg hi
            obtain ⟨sl, en, si, si', h1, h2, h3⟩ := hent i seg hi
            rw [Nat.zero_add] at h3
            exact ⟨sl, en, si, si', h1, h2, h3⟩

set_option maxRecDepth 8000 in
/-- Witness for C7: the test double, the payload `abcdef` at 1 Hz, the segments 0 s .. 2 s
and 1 s .. 4 s; the call returns the two entries `ab` and `bcd` behind the MIME header. -/
theorem extractAudioSegments_entries_witness :
    ∃ (inputStruct : extractAudioSegmentsInput) (audioBuf : IntBuffer) (dec : Decoder)
      (out : List String),
      (fakeEnv 1).convertExtractInput (FakeStruct.extractIn
        ⟨"abcdef", [⟨f64OfInt 0, f64OfInt 2⟩, ⟨f64OfInt 1, f64OfInt 4⟩]⟩) = .ok inputStruct ∧
      decodeAudio (fakeEnv 1) inputStruct.Audio = .ok (audioBuf, dec) ∧
      (fakeEnv 1).convertExtractOutput { AudioSegments := out } = .ok (FakeStruct.extractOut
        ⟨["data:audio/wav;base64,ab", "data:audio/wav;base64,bcd"]⟩) ∧
      out.length = inputStruct.Segments.length ∧
      ∀ (i : Nat) (seg : segment), inputStruct.Segments[i]? = some seg → ∃ slice enc si si',
        extractSegment audioBuf seg = .ok slice ∧
        encodeSegment (fakeEnv 1) slice audioBuf.Format dec si = (.ok enc, si') ∧
        out[i]? = some ("data:audio/wav;base64," ++ enc) :=
  extractAudioSegments_entries (fakeEnv 1)
    (FakeStruct.extractIn ⟨"abcdef", [⟨f64OfInt 0, f64OfInt 2⟩, ⟨f64OfInt 1, f64OfInt 4⟩]⟩)
    startState
    (extractAudioSegments (fakeEnv 1) (FakeStruct.extractIn
      ⟨"abcdef", [⟨f64OfInt 0, f64OfInt 2⟩, ⟨f64OfInt 1, f64OfInt 4⟩]⟩) startState).2
    (FakeStruct.extractOut ⟨["data:audio/wav;base64,ab", "data:audio/wav;base64,bcd"]⟩)
    (by rfl)

theorem extractLoop_nil {σ : Type} (env : Env σ) (audioBuf : IntBuffer) (dec : Decoder)
    (i : Nat) (out : List String) (s : GoState σ) :
    extractLoop env audioBuf dec i [] out s = (.ok out, s) := by
  simp [extractLoop, pure]

/-- A run of the loop that completes a first group of segments and then meets a segment whose
entry fails ends with that failure. -/
theorem extractLoop_first_failure {σ : Type} (env : Env σ) (audioBuf : IntBuffer)
    (dec : Decoder) (seg : segment) (post : List segment) (e : Fault) :
    ∀ (pre : List segment) (i : Nat) (out outI : List String) (s sI sE : GoState σ),
      extractLoop env audioBuf dec i pre out s = (.ok outI, sI) →
      segmentEntry env audioBuf dec seg sI = (.error e, sE) →
      extractLoop env audioBuf dec i (pre ++ seg :: post) out s = (.error e, sE) := by
  intro pre
  induction pre with
  | nil =>
    intro i out outI s sI sE hpre hfail
    rw [extractLoop_nil] at hpre
    simp only [Prod.mk.injEq, Except.ok.injEq] at hpre
    rw [List.nil_append, extractLoop_cons, hpre.2, hfail]
  | cons p pre ih =>
    intro i out outI s sI sE hpre hfail
    rw [extractLoop_cons] at hpre
    rw [List.cons_append, extractLoop_cons]
    rcases hp : segmentEntry env audioBuf dec p s with ⟨r, s1⟩
    rw [hp] at hpre
    cases r with
    | error e1 => simp at hpre
    | ok entry =>
      simp only [] at hpre ⊢
      exact ih (i + 1) (out.set i entry) outI s1 sI sE hpre hfail

theorem segmentEntry_of_failure {σ : Type} (env : Env σ) (audioBuf : IntBuffer) (dec : Decoder)
    (seg : segment) (sI sE : GoState σ) (e : Fault)
    (hfail : (extractSegment audioBuf seg = .error e ∧ sE = sI) ∨
      ∃ slice, extractSegment audioBuf seg = .ok slice ∧
        encodeSegment env slice audioBuf.Format dec sI = (.error e, sE)) :
    segmentEntry env audioBuf dec seg sI = (.error e, sE) := by
  unfold segmentEntry
  simp only [bind, Go.bind, Go.lift]
  rcases hfail with ⟨hx, hs⟩ | ⟨slice, hx, he⟩
  · rw [hx, hs]
  · rw [hx]
    simp only []
    rw [he]

/-- C8: if the segments before some input segment are extracted and encoded and, for that
segment, `extractSegment` fails or `encodeSegment` fails, then the whole call ends with this
very failure: no output record is returned, in particular no partly filled list.
(`encodeSegment` fails with a returned error; `extractSegment` itself never returns an error,
the only way it fails is its slice-bounds panic.) -/
theorem extractAudioSegments_fails_as_a_whole {σ : Type} (env : Env σ) (input : env.Struct)
    (s sI sE : GoState σ) (inputStruct : extractAudioSegmentsInput) (audioBuf : IntBuffer)
    (dec : Decoder) (pre post : List segment) (seg : segment) (outI : List String) (e : Fault)
    (hconv : env.convertExtractInput input = .ok inputStruct)
    (hdec : decodeAudio env inputStruct.Audio = .ok (audioBuf, dec))
    (hsplit : inputStruct.Segments = pre ++ seg :: post)
    (hpre : extractLoop env audioBuf dec 0 pre
      (List.replicate inputStruct.Segments.length "") s = (.ok outI, sI))
    (hfail : (extractSegment audioBuf seg = .error e ∧ sE = sI) ∨
      ∃ slice, extractSegment audioBuf seg = .ok slice ∧
        encodeSegment env slice audioBuf.Format dec sI = (.error e, sE)) :
    extractAudioSegments env input s = (.error e, sE) ∧
      ∀ result s', extractAudioSegments env input s ≠ (.ok result, s') := by
  have hloop := extractLoop_first_failure env audioBuf dec seg post e pre 0
    (List.replicate inputStruct.Segments.length "") outI s sI sE hpre
    (segmentEntry_of_failure env audioBuf dec seg sI sE e hfail)
  rw [← hsplit] at hloop
  have hrun : extractAudioSegments env input s = (.error e, sE) := by
    unfold extractAudioSegments
    simp only [bind, Go.bind, Go.check, Go.lift, hconv, hdec, hloop]
  refine ⟨hrun, fun result s' h => ?_⟩
  rw [hrun] at h
  simp at h

set_option maxRecDepth 8000 in
/-- Witness for C8: on the test double the second of three segments is empty and its
encoding fails; the call returns that error and nothing else. -/
theorem extractAudioSegments_fails_as_a_whole_witness :
    extractAudioSegments (fakeEnv 1) (FakeStruct.extractIn ⟨"abcdef",
        [⟨f64OfInt 0, f64OfInt 2⟩, ⟨f64OfInt 1, f64OfInt 1⟩, ⟨f64OfInt 1, f64OfInt 4⟩]⟩)
        startState =
        (.error (.error "failed to write segment to buffer: empty buffer"),
          (encodeSegment (fakeEnv 1) [] ⟨1, 1⟩ ⟨1, 1, 8, 1⟩
            (extractLoop (fakeEnv 1) ⟨⟨1, 1⟩, [97, 98, 99, 100, 101, 102], 8⟩ ⟨1, 1, 8, 1⟩ 0
              [⟨f64OfInt 0, f64OfInt 2⟩] ["", "", ""] startState).2).2) ∧
      ∀ result s', extractAudioSegments (fakeEnv 1) (FakeStruct.extractIn ⟨"abcdef",
        [⟨f64OfInt 0, f64OfInt 2⟩, ⟨f64OfInt 1, f64OfInt 1⟩, ⟨f64OfInt 1, f64OfInt 4⟩]⟩)
        startState ≠ (.ok result, s') :=
  extractAudioSegments_fails_as_a_whole (fakeEnv 1) (FakeStruct.extractIn ⟨"abcdef",
      [⟨f64OfInt 0, f64OfInt 2⟩, ⟨f64OfInt 1, f64OfInt 1⟩, ⟨f64OfInt 1, f64OfInt 4⟩]⟩)
    startState
    (extractLoop (fakeEnv 1) ⟨⟨1, 1⟩, [97, 98, 99, 100, 101, 102], 8⟩ ⟨1, 1, 8, 1⟩ 0
      [⟨f64OfInt 0, f64OfInt 2⟩] ["", "", ""] startState).2
    (encodeSegment (fakeEnv 1) [] ⟨1, 1⟩ ⟨1, 1, 8, 1⟩
      (extractLoop (fakeEnv 1) ⟨⟨1, 1⟩, [97, 98, 99, 100, 101, 102], 8⟩ ⟨1, 1, 8, 1⟩ 0
        [⟨f64OfInt 0, f64OfInt 2⟩] ["", "", ""] startState).2).2
    ⟨"abcdef", [⟨f64OfInt 0, f64OfInt 2⟩, ⟨f64OfInt 1, f64OfInt 1⟩, ⟨f64OfInt 1, f64OfInt 4⟩]⟩
    ⟨⟨1, 1⟩, [97, 98, 99, 100, 101, 102], 8⟩ ⟨1, 1, 8, 1⟩
    [⟨f64OfInt 0, f64OfInt 2⟩] [⟨f64OfInt 1, f64OfInt 4⟩] ⟨f64OfInt 1, f64OfInt 1⟩
    ["data:audio/wav;base64,ab", "", ""]
    (.error "failed to write segment to buffer: empty buffer")
    (by rfl) (by rfl) (by rfl) (by rfl) (Or.inr ⟨[], by rfl, by rfl⟩)

/-! ## toMono on more than two channels -/

/-- C9 (failing input): two frames of a three-channel buffer, `[3,6,9]` and `[30,60,90]`.
The means per frame are 6 and 60; `toMono` returns three samples, `[4,19,75]`, the halved
sums of neighbouring samples (the second one mixes the two frames), and labels them mono. -/
theorem toMono_three_channels :
    toMono ⟨⟨3, 16000⟩, [3, 6, 9, 30, 60, 90], 16⟩ = .ok ⟨⟨1, 16000⟩, [4, 19, 75], 16⟩ := by
  decide

/-! ## detectVoiceActivity -/

/-- The calls made by lines 70-102, and the outcome when detection fails. -/
theorem runDetector_trace {σ : Type} (env : Env σ) (inputStruct : detectVoiceActivityInput)
    (audioBuf : IntBuffer) (s : GoState σ) :
    ∃ t, (runDetector env inputStruct audioBuf s).2.trace = s.trace ++ t ∧
      (⟨.detect, false⟩ ∈ t →
        t = [⟨.getwd, true⟩, ⟨.newDetector, true⟩, ⟨.detect, false⟩] ∧
        ∃ msg, (runDetector env inputStruct audioBuf s).1 = .error (.error msg)) := by
  unfold runDetector
  simp only [bind, Go.bind, Go.call, Go.check]
  rcases h1 : env.getwd s.world with ⟨r1, w1⟩
  cases r1 with
  | error e => exact ⟨[⟨.getwd, false⟩], by simp, by simp⟩
  | ok cwd =>
    simp only []
    rcases h2 : env.newDetector (detectorConfig env inputStruct cwd) w1 with ⟨r2, w2⟩
    cases r2 with
    | error e => exact ⟨[⟨.getwd, true⟩, ⟨.newDetector, false⟩], by simp, by simp⟩
    | ok sd =>
      simp only []
      rcases h3 : env.detect sd (env.asFloat32 audioBuf) w2 with ⟨r3, w3⟩
      cases r3 with
      | error e =>
        exact ⟨[⟨.getwd, true⟩, ⟨.newDetector, true⟩, ⟨.detect, false⟩], by simp, by simp⟩
      | ok segments =>
        simp only []
        rcases h4 : env.destroy sd w3 with ⟨r4, w4⟩
        cases r4 with
        | error e =>
          exact ⟨[⟨.getwd, true⟩, ⟨.newDetector, true⟩, ⟨.detect, true⟩, ⟨.destroy, false⟩],
            by simp, by simp⟩
        | ok u =>
          simp only []
          cases h5 : env.convertDetectOutput (detectOutput segments) with
          | error e =>
            exact ⟨[⟨.getwd, true⟩, ⟨.newDetector, true⟩, ⟨.detect, true⟩, ⟨.destroy, true⟩],
              by simp, by simp⟩
          | ok out =>
            exact ⟨[⟨.getwd, true⟩, ⟨.newDetector, true⟩, ⟨.detect, true⟩, ⟨.destroy, true⟩],
              by simp, by simp⟩

/-- C10 (failing inputs): whenever a call of `detectVoiceActivity` (started with an empty
trace) contains a failed `Detect`, its outside calls are exactly `Getwd`, a successful
`NewDetector` and the failed `Detect`: the call returns an error and `Destroy` was never
called on the detector it had constructed. -/
theorem detectVoiceActivity_detect_error_skips_destroy {σ : Type} (env : Env σ)
    (fft : FFTPackage) (input : env.Struct) (s : GoState σ) (hs : s.trace = [])
    (hdet : ⟨.detect, false⟩ ∈ (detectVoiceActivity env fft input s).2.trace) :
    (detectVoiceActivity env fft input s).2.trace =
        [⟨.getwd, true⟩, ⟨.newDetector, true⟩, ⟨.detect, false⟩] ∧
      (∀ b, ⟨.destroy, b⟩ ∉ (detectVoiceActivity env fft input s).2.trace) ∧
      ∃ msg, (detectVoiceActivity env fft input s).1 = .error (.error msg) := by
  have key : (detectVoiceActivity env fft input s).2.trace =
        [⟨.getwd, true⟩, ⟨.newDetector, true⟩, ⟨.detect, false⟩] ∧
      ∃ msg, (detectVoiceActivity env fft input s).1 = .error (.error msg) := by
    unfold detectVoiceActivity at hdet ⊢
    simp only [bind, Go.bind, Go.check, Go.lift] at hdet ⊢
    cases hc : env.convertDetectInput input with
    | error e =>
      rw [hc] at hdet
      simp [hs] at hdet
    | ok inputStruct =>
      rw [hc] at hdet
      simp only [] at hdet ⊢
      cases hp : prepareAudio env fft inputStruct.Audio with
      | error e =>
        rw [hp] at hdet
        simp [hs] at hdet
      | ok audioBuf =>
        rw [hp] at hdet
        simp only [] at hdet ⊢
        obtain ⟨t, ht, hcase⟩ := runDetector_trace env inputStruct audioBuf s
        rw [ht, hs, List.nil_append] at hdet
        obtain ⟨htr, hmsg⟩ := hcase hdet
        rw [ht, hs, List.nil_append]
        exact ⟨htr, hmsg⟩
  refine ⟨key.1, fun b => ?_, key.2⟩
  rw [key.1]
  cases b <;> decide

set_option maxRecDepth 8000 in
/-- Witness for C10: on the test double a six-sample recording is too short for the
detector; `Detect` fails and the detector is not destroyed. -/
theorem detectVoiceActivity_detect_error_skips_destroy_witness :
    (detectVoiceActivity (fakeEnv 16000) shapeFFT
        (FakeStruct.detectIn ⟨"abcdef", 100, 30⟩) startState).2.trace =
        [⟨.getwd, true⟩, ⟨.newDetector, true⟩, ⟨.detect, false⟩] ∧
      (∀ b, ⟨.destroy, b⟩ ∉ (detectVoiceActivity (fakeEnv 16000) shapeFFT
        (FakeStruct.detectIn ⟨"abcdef", 100, 30⟩) startState).2.trace) ∧
      ∃ msg, (detectVoiceActivity (fakeEnv 16000) shapeFFT
        (FakeStruct.detectIn ⟨"abcdef", 100, 30⟩) startState).1 = .error (.error msg) :=
  detectVoiceActivity_detect_error_skips_destroy (fakeEnv 16000) shapeFFT
    (FakeStruct.detectIn ⟨"abcdef", 100, 30⟩) startState rfl (by decide)

/-! ## toMono on buffers of any length -/

theorem goIndex_congr {α : Type} (xs ys : List α) (i : Nat) (h : xs[i]? = ys[i]?) :
    goIndex xs i = goIndex ys i := by
  unfold goIndex
  rw [h]

theorem toMonoLoop_congr (data data' : List Int) :
    ∀ k : Nat, (∀ i, i < 2 * k → data[i]? = data'[i]?) →
      toMonoLoop data k = toMonoLoop data' k := by
  intro k
  induction k with
  | zero => intro _; rfl
  | succ k ih =>
    intro h
    have h1 := ih (fun i hi => h i (by omega))
    have ha := goIndex_congr data data' (2 * k) (h _ (by omega))
    have hb := goIndex_congr data data' (2 * k + 1) (h _ (by omega))
    simp only [toMonoLoop, monoSample, h1, ha, hb]

/-- C17: for a buffer of any length `n` (odd or zero included) `toMono` makes no
out-of-range access: it returns a buffer of exactly `floor(n / 2)` samples with channel
count 1.  For an odd length the last sample has no influence: appending one sample to a
buffer of even length does not change the result. -/
theorem toMono_any_length (buffer : IntBuffer) :
    (∃ out, toMono buffer = .ok out ∧ out.Data.length = buffer.Data.length / 2 ∧
      out.Format.NumChannels = 1) ∧
    (∀ x : Int, buffer.Data.length % 2 = 0 →
      toMono { buffer with Data := buffer.Data ++ [x] } = toMono buffer) := by
  constructor
  · obtain ⟨md, hrun, hl, _⟩ := toMonoLoop_ok buffer.Data (buffer.Data.length / 2) (by omega)
    refine ⟨{ buffer with Data := md, Format := { buffer.Format with NumChannels := 1 } },
      ?_, hl, rfl⟩
    simp only [toMono, hrun]
    rfl
  · intro x heven
    have hlen : (buffer.Data ++ [x]).length / 2 = buffer.Data.length / 2 := by
      rw [List.length_append, List.length_singleton]
      omega
    have hc := toMonoLoop_congr (buffer.Data ++ [x]) buffer.Data (buffer.Data.length / 2)
      (fun i hi => List.getElem?_append_left (by omega))
    simp only [toMono, hlen, hc]

/-- Witness for C17: the empty buffer, and five samples whose last one is dropped. -/
theorem toMono_any_length_witness :
    toMono ⟨⟨2, 44100⟩, [], 16⟩ = .ok ⟨⟨1, 44100⟩, [], 16⟩ ∧
    toMono ⟨⟨2, 44100⟩, [1, 2, 3, 4, 5], 16⟩ = .ok ⟨⟨1, 44100⟩, [1, 3], 16⟩ ∧
    ((∃ out, toMono ⟨⟨2, 44100⟩, [1, 2, 3, 4], 16⟩ = .ok out ∧
      out.Data.length = ([1, 2, 3, 4] : List Int).length / 2 ∧ out.Format.NumChannels = 1) ∧
    (∀ x : Int, ([1, 2, 3, 4] : List Int).length % 2 = 0 →
      toMono { (⟨⟨2, 44100⟩, [1, 2, 3, 4], 16⟩ : IntBuffer) with Data := [1, 2, 3, 4] ++ [x] } =
        toMono ⟨⟨2, 44100⟩, [1, 2, 3, 4], 16⟩)) :=
  ⟨by decide, by decide, toMono_any_length ⟨⟨2, 44100⟩, [1, 2, 3, 4], 16⟩⟩

/-! ## Rejection of undecodable audio -/

theorem decodeAudio_of_invalid {σ : Type} (env : Env σ) (audio : String)
    (hbad : (∃ e, env.base64Decode (env.trimBase64Mime audio) = .error e) ∨
      ∃ buf, env.base64Decode (env.trimBase64Mime audio) = .ok buf ∧
        (env.isValidFile buf = false ∨
          ∃ e, env.pcmBuffer buf
            { Format := { NumChannels := (env.decoder buf).NumChans,
                          SampleRate := (env.decoder buf).SampleRate },
              Data := List.replicate buf.length 0,
              SourceBitDepth := (env.decoder buf).BitDepth } = .error e)) :
    ∃ msg, decodeAudio env audio = .error (.error msg) := by
  unfold decodeAudio
  rcases hbad with ⟨e, h⟩ | ⟨buf, h, hv | ⟨e, hp⟩⟩
  · rw [h]
    exact ⟨_, rfl⟩
  · rw [h]
    simp only [hv]
    exact ⟨_, rfl⟩
  · rw [h]
    simp only []
    cases hvalid : env.isValidFile buf with
    | false => exact ⟨_, rfl⟩
    | true =>
      simp only [Bool.not_true, Bool.false_eq_true, if_false]
      rw [hp]
      exact ⟨_, rfl⟩

theorem prepareAudio_of_invalid {σ : Type} (env : Env σ) (audio : String)
    (hbad : (∃ e, env.base64Decode (env.trimBase64Mime audio) = .error e) ∨
      ∃ buf, env.base64Decode (env.trimBase64Mime audio) = .ok buf ∧
        (env.isValidFile buf = false ∨
          ∃ e, env.pcmBuffer buf
            { Format := { NumChannels := (env.decoder buf).NumChans,
                          SampleRate := (env.decoder buf).SampleRate },
              Data := List.replicate buf.length 0,
              SourceBitDepth := (env.decoder buf).BitDepth } = .error e)) :
    ∃ msg, ∀ fft : FFTPackage, prepareAudio env fft audio = .error (.error msg) := by
  rcases hbad with ⟨e, h⟩ | ⟨buf, h, hv | ⟨e, hp⟩⟩
  · refine ⟨e, fun fft => ?_⟩
    unfold prepareAudio
    rw [h]
  · refine ⟨"invalid WAV file", fun fft => ?_⟩
    unfold prepareAudio
    rw [h]
    simp only [hv]
    rfl
  · cases hvalid : env.isValidFile buf with
    | false =>
      refine ⟨"invalid WAV file", fun fft => ?_⟩
      unfold prepareAudio
      rw [h]
      simp only [hvalid]
      rfl
    | true =>
      refine ⟨"error reading audio data: " ++ e, fun fft => ?_⟩
      unfold prepareAudio
      rw [h]
      simp only [hvalid, Bool.not_true, Bool.false_eq_true, if_false]
      rw [hp]

/-- C16: when the audio payload is not valid base64, or its bytes are not a valid WAV file
(`IsValidFile` is false), or reading the PCM data fails, then `detectVoiceActivity` and
`extractAudioSegments` both return an error and no output record, and they do so in the
state they started from: no call to the detector or the file system has been made, and the
outcome does not depend on the transform package, so nothing was mixed down, resampled,
detected or sliced. -/
theorem invalid_audio_is_rejected {σ : Type} (env : Env σ) (audio : String)
    (hbad : (∃ e, env.base64Decode (env.trimBase64Mime audio) = .error e) ∨
      ∃ buf, env.base64Decode (env.trimBase64Mime audio) = .ok buf ∧
        (env.isValidFile buf = false ∨
          ∃ e, env.pcmBuffer buf
            { Format := { NumChannels := (env.decoder buf).NumChans,
                          SampleRate := (env.decoder buf).SampleRate },
              Data := List.replicate buf.length 0,
              SourceBitDepth := (env.decoder buf).BitDepth } = .error e)) :
    (∀ (input : env.Struct) (inputStruct : detectVoiceActivityInput),
      env.convertDetectInput input = .ok inputStruct → inputStruct.Audio = audio →
      ∃ msg, ∀ (fft : FFTPackage) (s : GoState σ),
        detectVoiceActivity env fft input s = (.error (.error msg), s)) ∧
    (∀ (input : env.Struct) (inputStruct : extractAudioSegmentsInput),
      env.convertExtractInput input = .ok inputStruct → inputStruct.Audio = audio →
      ∃ msg, ∀ s : GoState σ, extractAudioSegments env input s = (.error (.error msg), s)) := by
  constructor
  · intro input inputStruct hconv haudio
    obtain ⟨msg, hmsg⟩ := prepareAudio_of_invalid env audio hbad
    refine ⟨msg, fun fft s => ?_⟩
    unfold detectVoiceActivity
    simp only [bind, Go.bind, Go.check, Go.lift, hconv, haudio, hmsg fft]
  · intro input inputStruct hconv haudio
    obtain ⟨msg, hmsg⟩ := decodeAudio_of_invalid env audio hbad
    refine ⟨msg, fun s => ?_⟩
    unfold extractAudioSegments
    simp only [bind, Go.bind, Go.check, Go.lift, hconv, haudio, hmsg]

/-- Witness for C16: on the test double the empty payload is not a valid file. -/
theorem invalid_audio_is_rejected_witness :
    (∀ (input : FakeStruct) (inputStruct : detectVoiceActivityInput),
      (fakeEnv 16000).convertDetectInput input = .ok inputStruct → inputStruct.Audio = "" →
      ∃ msg, ∀ (fft : FFTPackage) (s : GoState (List UInt8)),
        detectVoiceActivity (fakeEnv 16000) fft input s = (.error (.error msg), s)) ∧
    (∀ (input : FakeStruct) (inputStruct : extractAudioSegmentsInput),
      (fakeEnv 16000).convertExtractInput input = .ok inputStruct → inputStruct.Audio = "" →
      ∃ msg, ∀ s : GoState (List UInt8),
        extractAudioSegments (fakeEnv 16000) input s = (.error (.error msg), s)) :=
  invalid_audio_is_rejected (fakeEnv 16000) "" (Or.inr ⟨[], rfl, Or.inl rfl⟩)

/-! ## The format of the encoded clips -/

/-- A successful `encodeSegment` has written the segment buffer (the given samples with the
given format and the bit depth of the decoder) through an encoder configured with
`encoderConfig format dec`, and returns the base64 text of the bytes read back. -/
theorem encodeSegment_ok {σ : Type} (env : Env σ) (segment : List Int) (format : Format)
    (dec : Decoder) (s s' : GoState σ) (enc : String)
    (h : encodeSegment env segment format dec s = (.ok enc, s')) :
    ∃ (tempFile : env.File) (w1 w2 w5 w6 : σ) (bytes : List UInt8),
      env.createTemp s.world = (.ok tempFile, w1) ∧
      env.encoderWrite tempFile (encoderConfig format dec)
        { Format := format, Data := segment, SourceBitDepth := dec.BitDepth } w1 = (.ok (), w2) ∧
      env.readAll tempFile w5 = (.ok bytes, w6) ∧
      enc = env.base64Encode bytes := by
  unfold encodeSegment at h
  simp only [bind, Go.bind, Go.call, Go.deferred, pure] at h
  rcases h1 : env.createTemp s.world with ⟨r1, w1⟩
  rw [h1] at h
  cases r1 with
  | error e => simp at h
  | ok tempFile =>
    simp only [] at h
    rcases h2 : env.encoderWrite tempFile (encoderConfig format dec)
      { Format := format, Data := segment, SourceBitDepth := dec.BitDepth } w1 with ⟨r2, w2⟩
    rw [h2] at h
    cases r2 with
    | error e => simp at h
    | ok u2 =>
      simp only [] at h
      rcases h3 : env.encoderClose tempFile (encoderConfig format dec) w2 with ⟨r3, w3⟩
      rw [h3] at h
      cases r3 with
      | error e => simp at h
      | ok u3 =>
        simp only [] at h
        rcases h4 : env.seekStart tempFile w3 with ⟨r4, w4⟩
        rw [h4] at h
        cases r4 with
        | error e => simp at h
        | ok u4 =>
          simp only [] at h
          rcases h5 : env.readAll tempFile w4 with ⟨r5, w5⟩
          rw [h5] at h
          cases r5 with
          | error e => simp at h
          | ok bytes =>
            simp only [Prod.mk.injEq, Except.ok.injEq] at h
            exact ⟨tempFile, w1, w2, w4, w5, bytes, rfl, h2, h5, h.1.symm⟩

theorem extractSegment_ok_eq (audioBuf : IntBuffer) (seg : segment) (slice : List Int)
    (h : extractSegment audioBuf seg = .ok slice) :
    ∃ lo hi : Nat, lo ≤ hi ∧ hi ≤ audioBuf.Data.length ∧
      slice = (audioBuf.Data.take hi).drop lo := by
  unfold extractSegment at h
  simp only [] at h
  generalize (if sampleIndex seg.StartTime audioBuf.Format < 0 then (0 : Int)
    else sampleIndex seg.StartTime audioBuf.Format) = lo at h
  generalize (if sampleIndex seg.EndTime audioBuf.Format > (audioBuf.Data.length : Int)
    then (audioBuf.Data.length : Int) else sampleIndex seg.EndTime audioBuf.Format) = hi at h
  unfold goSlice at h
  split at h
  · rename_i hb
    simp only [Except.ok.injEq] at h
    refine ⟨lo.toNat, hi.toNat, ?_, ?_, h.symm⟩ <;> omega
  · simp at h

/-- The parts of a successful run of `extractAudioSegments`. -/
theorem extractAudioSegments_ok_parts {σ : Type} (env : Env σ) (input : env.Struct)
    (s s' : GoState σ) (result : env.Struct)
    (h : extractAudioSegments env input s = (.ok result, s')) :
    ∃ (inputStruct : extractAudioSegmentsInput) (audioBuf : IntBuffer) (dec : Decoder)
      (out : List String) (s1 : GoState σ),
      env.convertExtractInput input = .ok inputStruct ∧
      decodeAudio env inputStruct.Audio = .ok (audioBuf, dec) ∧
      extractLoop env audioBuf dec 0 inputStruct.Segments
        (List.replicate inputStruct.Segments.length "") s = (.ok out, s1) ∧
      env.convertExtractOutput { AudioSegments := out } = .ok result := by
  unfold extractAudioSegments at h
  simp only [bind, Go.bind, Go.check, Go.lift] at h
  cases hc : env.convertExtractInput input with
  | error e =>
    rw [hc] at h
    simp at h
  | ok inputStruct =>
    rw [hc] at h
    simp only [] at h
    cases hd : decodeAudio env inputStruct.Audio with
    | error e =>
      rw [hd] at h
      simp at h
    | ok pair =>
      obtain ⟨audioBuf, dec⟩ := pair
      rw [hd] at h
      simp only [] at h
      rcases hl : extractLoop env audioBuf dec 0 inputStruct.Segments
        (List.replicate inputStruct.Segments.length "") s with ⟨r, s1⟩
      rw [hl] at h
      cases r with
      | error e => simp at h
      | ok out =>
        simp only [] at h
        cases ho : env.convertExtractOutput { AudioSegments := out } with
        | error e =>
          rw [ho] at h
          simp at h
        | ok res =>
          rw [ho] at h
          simp only [Prod.mk.injEq, Except.ok.injEq] at h
          exact ⟨inputStruct, audioBuf, dec, out, s1, rfl, hd, hl, by rw [ho, h.1]⟩

/-- What `decodeAudio` returns: the decoder of the decoded bytes and the buffer left by
`PCMBuffer`, which was handed a buffer with the header's format and one zero sample per
byte of the file. -/
theorem decodeAudio_ok {σ : Type} (env : Env σ) (audio : String) (audioBuf : IntBuffer)
    (dec : Decoder) (h : decodeAudio env audio = .ok (audioBuf, dec)) :
    ∃ buf, env.base64Decode (env.trimBase64Mime audio) = .ok buf ∧
      env.isValidFile buf = true ∧ dec = env.decoder buf ∧
      env.pcmBuffer buf
        { Format := { NumChannels := dec.NumChans, SampleRate := dec.SampleRate },
          Data := List.replicate buf.length 0,
          SourceBitDepth := dec.BitDepth } = .ok audioBuf := by
  unfold decodeAudio at h
  cases hb : env.base64Decode (env.trimBase64Mime audio) with
  | error e =>
    rw [hb] at h
    simp at h
  | ok buf =>
    rw [hb] at h
    simp only [] at h
    cases hv : env.isValidFile buf with
    | false =>
      rw [hv] at h
      simp at h
    | true =>
      rw [hv] at h
      simp only [Bool.not_true, Bool.false_eq_true, if_false] at h
      cases hp : env.pcmBuffer buf
          { Format := { NumChannels := (env.decoder buf).NumChans,
                        SampleRate := (env.decoder buf).SampleRate },
            Data := List.replicate buf.length 0,
            SourceBitDepth := (env.decoder buf).BitDepth } with
      | error e =>
        rw [hp] at h
        simp at h
      | ok b =>
        rw [hp] at h
        simp only [Except.ok.injEq, Prod.mk.injEq] at h
        refine ⟨buf, rfl, hv, h.2.symm, ?_⟩
        rw [← h.2, hp, h.1]

/-- A successful `encodeSegment`, call by call: the temporary file is created in the state
the function starts in, the segment buffer is written through an encoder with
`encoderConfig format dec`, the encoder is closed, the file is rewound and read, and the
deferred removal leaves the state the function ends in; the result is the base64 text of the
bytes read.  Each call starts in the state the call before it left. -/
theorem encodeSegment_run {σ : Type} (env : Env σ) (segment : List Int) (format : Format)
    (dec : Decoder) (s s' : GoState σ) (enc : String)
    (h : encodeSegment env segment format dec s = (.ok enc, s')) :
    ∃ (tempFile : env.File) (w1 w2 w3 w4 w5 : σ) (bytes : List UInt8)
      (r : Except String Unit),
      env.createTemp s.world = (.ok tempFile, w1) ∧
      env.encoderWrite tempFile (encoderConfig format dec)
        { Format := format, Data := segment, SourceBitDepth := dec.BitDepth } w1 = (.ok (), w2) ∧
      env.encoderClose tempFile (encoderConfig format dec) w2 = (.ok (), w3) ∧
      env.seekStart tempFile w3 = (.ok (), w4) ∧
      env.readAll tempFile w4 = (.ok bytes, w5) ∧
      env.removeTemp tempFile w5 = (r, s'.world) ∧
      enc = env.base64Encode bytes := by
  unfold encodeSegment at h
  simp only [bind, Go.bind, Go.call, Go.deferred, pure] at h
  rcases h1 : env.createTemp s.world with ⟨r1, w1⟩
  rw [h1] at h
  cases r1 with
  | error e => simp at h
  | ok tempFile =>
    simp only [] at h
    rcases h2 : env.encoderWrite tempFile (encoderConfig format dec)
      { Format := format, Data := segment, SourceBitDepth := dec.BitDepth } w1 with ⟨r2, w2⟩
    rw [h2] at h
    cases r2 with
    | error e => simp at h
    | ok u2 =>
      simp only [] at h
      rcases h3 : env.encoderClose tempFile (encoderConfig format dec) w2 with ⟨r3, w3⟩
      rw [h3] at h
      cases r3 with
      | error e => simp at h
      | ok u3 =>
        simp only [] at h
        rcases h4 : env.seekStart tempFile w3 with ⟨r4, w4⟩
        rw [h4] at h
        cases r4 with
        | error e => simp at h
        | ok u4 =>
          simp only [] at h
          rcases h5 : env.readAll tempFile w4 with ⟨r5, w5⟩
          rw [h5] at h
          cases r5 with
          | error e => simp at h
          | ok bytes =>
            simp only [Prod.mk.injEq, Except.ok.injEq] at h
            refine ⟨tempFile, w1, w2, w3, w4, w5, bytes, (env.removeTemp tempFile w5).1,
              rfl, h2, h3, h4, h5, ?_, h.1.symm⟩
            rw [← h.2]
            unfold removeTempFile
            rcases h6 : env.removeTemp tempFile w5 with ⟨r6, w6⟩
            cases r6 <;> rfl

/-- A completed run of the loop, segment by segment: segment `j` is cut from the buffer and
encoded in the state `ws j`, which leaves the state `ws (j + 1)`, and its entry is stored at
index `i + j`. -/
theorem extractLoop_run {σ : Type} (env : Env σ) (audioBuf : IntBuffer) (dec : Decoder) :
    ∀ (segs : List segment) (i : Nat) (out out' : List String) (s s' : GoState σ),
      extractLoop env audioBuf dec i segs out s = (.ok out', s') →
      i + segs.length ≤ out.length →
      ∃ ws : Nat → GoState σ, ws 0 = s ∧ ws segs.length = s' ∧
        ∀ (j : Nat) (seg : segment), segs[j]? = some seg → ∃ slice enc,
          extractSegment audioBuf seg = .ok slice ∧
          encodeSegment env slice audioBuf.Format dec (ws j) = (.ok enc, ws (j + 1)) ∧
          out'[i + j]? = some ("data:audio/wav;base64," ++ enc) := by
  intro segs
  induction segs with
  | nil =>
    intro i out out' s s' h _
    have hs : s' = s := by
      simp only [extractLoop, pure, Prod.mk.injEq, Except.ok.injEq] at h
      exact h.2.symm
    subst hs
    exact ⟨fun _ => s', rfl, rfl, fun j seg hj => by simp at hj⟩
  | cons seg rest ih =>
    intro i out out' s s' h hlen
    have hall := extractLoop_ok env audioBuf dec (seg :: rest) i out out' s s' h hlen
    rw [extractLoop_cons] at h
    rcases hse : segmentEntry env audioBuf dec seg s with ⟨r, s1⟩
    rw [hse] at h
    cases r with
    | error e => simp at h
    | ok entry =>
      simp only [] at h
      simp only [List.length_cons] at hlen
      obtain ⟨ws, hw0, hwn, hrest⟩ := ih (i + 1) (out.set i entry) out' s1 s' h
        (by rw [List.length_set]; omega)
      obtain ⟨_, hbefore, _⟩ := extractLoop_ok env audioBuf dec rest (i + 1)
        (out.set i entry) out' s1 s' h (by rw [List.length_set]; omega)
      obtain ⟨slice, enc, hx, he, hentry⟩ := segmentEntry_ok env audioBuf dec seg s s1 entry hse
      refine ⟨fun j => match j with
        | 0 => s
        | j + 1 => ws j, rfl, hwn, ?_⟩
      intro j sg hj
      cases j with
      | zero =>
        simp only [List.getElem?_cons_zero, Option.some.injEq] at hj
        subst hj
        refine ⟨slice, enc, hx, ?_, ?_⟩
        · show encodeSegment env slice audioBuf.Format dec s = (.ok enc, ws 0)
          rw [hw0]
          exact he
        · rw [Nat.add_zero, hbefore i (by omega), List.getElem?_set_self (by omega), hentry]
      | succ j =>
        simp only [List.getElem?_cons_succ] at hj
        obtain ⟨sl, en, h1, h2, h3⟩ := hrest j sg hj
        refine ⟨sl, en, h1, h2, ?_⟩
        rw [← h3]
        congr 1
        omega

/-- C11: in a successful `extractAudioSegments` call the returned record is the conversion of
a list with one clip per segment, and clip `i` is the text `data:audio/wav;base64,` followed
by the base64 text of the bytes read back from a temporary file after exactly these calls,
each in the state the call before it left (`ws i` is the state before clip `i`, `ws 0` the
state of the call and `ws N` the state it ends in): the file is created, the slice
`extractSegment` cuts for segment `i` (a contiguous range of the sample data of the buffer
`PCMBuffer` returned, with no down-mix and no resampling in between) is written through
an encoder whose sample rate and channel count are those of that buffer and whose bit
depth is the one of the WAV header, in a buffer carrying the same format, the encoder is
closed, the file is rewound, read and removed.  When `PCMBuffer` leaves the format of the
buffer as it was, sample rate and channel count are the ones of the header as well. -/
theorem clips_keep_source_format {σ : Type} (env : Env σ) (input : env.Struct)
    (s s' : GoState σ) (result : env.Struct)
    (h : extractAudioSegments env input s = (.ok result, s')) :
    ∃ (inputStruct : extractAudioSegmentsInput) (audioBuf : IntBuffer) (dec : Decoder)
      (buf : List UInt8) (out : List String) (ws : Nat → σ),
      env.convertExtractInput input = .ok inputStruct ∧
      env.base64Decode (env.trimBase64Mime inputStruct.Audio) = .ok buf ∧
      dec = env.decoder buf ∧
      env.pcmBuffer buf
        { Format := { NumChannels := dec.NumChans, SampleRate := dec.SampleRate },
          Data := List.replicate buf.length 0,
          SourceBitDepth := dec.BitDepth } = .ok audioBuf ∧
      decodeAudio env inputStruct.Audio = .ok (audioBuf, dec) ∧
      env.convertExtractOutput { AudioSegments := out } = .ok result ∧
      out.length = inputStruct.Segments.length ∧
      ws 0 = s.world ∧ ws inputStruct.Segments.length = s'.world ∧
      (∀ (i : Nat) (seg : segment), inputStruct.Segments[i]? = some seg →
        ∃ (slice : List Int) (lo hi : Nat) (tempFile : env.File) (w1 w2 w3 w4 w5 : σ)
          (bytes : List UInt8) (r : Except String Unit),
          extractSegment audioBuf seg = .ok slice ∧
          lo ≤ hi ∧ hi ≤ audioBuf.Data.length ∧
          slice = (audioBuf.Data.take hi).drop lo ∧
          env.createTemp (ws i) = (.ok tempFile, w1) ∧
          env.encoderWrite tempFile
            { SampleRate := audioBuf.Format.SampleRate, BitDepth := dec.BitDepth,
              NumChans := audioBuf.Format.NumChannels, AudioFormat := dec.WavAudioFormat }
            { Format := audioBuf.Format, Data := slice, SourceBitDepth := dec.BitDepth } w1 =
            (.ok (), w2) ∧
          env.encoderClose tempFile
            { SampleRate := audioBuf.Format.SampleRate, BitDepth := dec.BitDepth,
              NumChans := audioBuf.Format.NumChannels, AudioFormat := dec.WavAudioFormat } w2 =
            (.ok (), w3) ∧
          env.seekStart tempFile w3 = (.ok (), w4) ∧
          env.readAll tempFile w4 = (.ok bytes, w5) ∧
          env.removeTemp tempFile w5 = (r, ws (i + 1)) ∧
          out[i]? = some ("data:audio/wav;base64," ++ env.base64Encode bytes)) ∧
      ((∀ b b', env.pcmBuffer buf b = .ok b' → b'.Format = b.Format) →
        audioBuf.Format = { NumChannels := dec.NumChans, SampleRate := dec.SampleRate }) := by
  obtain ⟨inputStruct, audioBuf, dec, out, s1, hc, hd, hl, hout⟩ :=
    extractAudioSegments_ok_parts env input s s' result h
  have hs1 : s1 = s' := by
    unfold extractAudioSegments at h
    simp only [bind, Go.bind, Go.check, Go.lift] at h
    rw [hc] at h
    simp only [] at h
    rw [hd] at h
    simp only [] at h
    rw [hl] at h
    simp only [] at h
    rw [hout] at h
    simp only [Prod.mk.injEq] at h
    exact h.2
  subst hs1
  obtain ⟨buf, hb, _, hdec, hp⟩ := decodeAudio_ok env inputStruct.Audio audioBuf dec hd
  obtain ⟨hlen, _, _⟩ := extractLoop_ok env audioBuf dec inputStruct.Segments 0
    (List.replicate inputStruct.Segments.length "") out s s1 hl (by simp)
  obtain ⟨ws, hw0, hwn, hent⟩ := extractLoop_run env audioBuf dec inputStruct.Segments 0
    (List.replicate inputStruct.Segments.length "") out s s1 hl (by simp)
  refine ⟨inputStruct, audioBuf, dec, buf, out, fun i => (ws i).world, hc, hb, hdec, hp, hd,
    hout, ?_, congrArg GoState.world hw0, congrArg GoState.world hwn, ?_, ?_⟩
  · rw [hlen, List.length_replicate]
  · intro i seg hi
    obtain ⟨slice, enc, hx, he, hentry⟩ := hent i seg hi
    obtain ⟨lo, hi', hlo, hhi, hs⟩ := extractSegment_ok_eq audioBuf seg slice hx
    obtain ⟨tempFile, w1, w2, w3, w4, w5, bytes, r, hcr, hw, hcl, hsk, hrd, hrm, henc⟩ :=
      encodeSegment_run env slice audioBuf.Format dec (ws i) (ws (i + 1)) enc he
    refine ⟨slice, lo, hi', tempFile, w1, w2, w3, w4, w5, bytes, r, hx, hlo, hhi, hs, hcr, hw,
      hcl, hsk, hrd, hrm, ?_⟩
    rw [← henc, ← hentry, Nat.zero_add]
  · intro hfmt
    exact hfmt _ _ hp

/-- The run of `taggedEnv` on `taggedInput`: both clips start with the bytes `328` of the
source format (3 Hz, 2 channels, 8 bit) and hold six samples each. -/
theorem taggedEnv_clips :
    extractAudioSegments taggedEnv taggedInput startState =
      (.ok (FakeStruct.extractOut
        ⟨["data:audio/wav;base64,328abcdef", "data:audio/wav;base64,328ghijkl"]⟩),
        { world := [],
          trace := [⟨.createTemp, true⟩, ⟨.encoderWrite, true⟩, ⟨.encoderClose, true⟩,
            ⟨.seekStart, true⟩, ⟨.readAll, true⟩, ⟨.removeTemp, true⟩,
            ⟨.createTemp, true⟩, ⟨.encoderWrite, true⟩, ⟨.encoderClose, true⟩,
            ⟨.seekStart, true⟩, ⟨.readAll, true⟩, ⟨.removeTemp, true⟩] }) := by
  rfl

set_option maxRecDepth 8000 in
/-- Witness for C11: the run of `taggedEnv` on `taggedInput`, a stereo source at 3 Hz. -/
theorem clips_keep_source_format_witness :
    ∃ (inputStruct : extractAudioSegmentsInput) (audioBuf : IntBuffer) (dec : Decoder)
      (buf : List UInt8) (out : List String) (ws : Nat → List UInt8),
      taggedEnv.convertExtractInput taggedInput = .ok inputStruct ∧
      taggedEnv.base64Decode (taggedEnv.trimBase64Mime inputStruct.Audio) = .ok buf ∧
      dec = taggedEnv.decoder buf ∧
      taggedEnv.pcmBuffer buf
        { Format := { NumChannels := dec.NumChans, SampleRate := dec.SampleRate },
          Data := List.replicate buf.length 0,
          SourceBitDepth := dec.BitDepth } = .ok audioBuf ∧
      decodeAudio taggedEnv inputStruct.Audio = .ok (audioBuf, dec) ∧
      taggedEnv.convertExtractOutput { AudioSegments := out } =
        .ok (FakeStruct.extractOut
          ⟨["data:audio/wav;base64,328abcdef", "data:audio/wav;base64,328ghijkl"]⟩) ∧
      out.length = inputStruct.Segments.length ∧
      ws 0 = startState.world ∧
      ws inputStruct.Segments.length =
        (extractAudioSegments taggedEnv taggedInput startState).2.world ∧
      (∀ (i : Nat) (seg : segment), inputStruct.Segments[i]? = some seg →
        ∃ (slice : List Int) (lo hi : Nat) (tempFile : taggedEnv.File)
          (w1 w2 w3 w4 w5 : List UInt8) (bytes : List UInt8) (r : Except String Unit),
          extractSegment audioBuf seg = .ok slice ∧
          lo ≤ hi ∧ hi ≤ audioBuf.Data.length ∧
          slice = (audioBuf.Data.take hi).drop lo ∧
          taggedEnv.createTemp (ws i) = (.ok tempFile, w1) ∧
          taggedEnv.encoderWrite tempFile
            { SampleRate := audioBuf.Format.SampleRate, BitDepth := dec.BitDepth,
              NumChans := audioBuf.Format.NumChannels, AudioFormat := dec.WavAudioFormat }
            { Format := audioBuf.Format, Data := slice, SourceBitDepth := dec.BitDepth } w1 =
            (.ok (), w2) ∧
          taggedEnv.encoderClose tempFile
            { SampleRate := audioBuf.Format.SampleRate, BitDepth := dec.BitDepth,
              NumChans := audioBuf.Format.NumChannels, AudioFormat := dec.WavAudioFormat } w2 =
            (.ok (), w3) ∧
          taggedEnv.seekStart tempFile w3 = (.ok (), w4) ∧
          taggedEnv.readAll tempFile w4 = (.ok bytes, w5) ∧
          taggedEnv.removeTemp tempFile w5 = (r, ws (i + 1)) ∧
          out[i]? = some ("data:audio/wav;base64," ++ taggedEnv.base64Encode bytes)) ∧
      ((∀ b b', taggedEnv.pcmBuffer buf b = .ok b' → b'.Format = b.Format) →
        audioBuf.Format = { NumChannels := dec.NumChans, SampleRate := dec.SampleRate }) :=
  clips_keep_source_format taggedEnv taggedInput startState
    (extractAudioSegments taggedEnv taggedInput startState).2
    (FakeStruct.extractOut
      ⟨["data:audio/wav;base64,328abcdef", "data:audio/wav;base64,328ghijkl"]⟩)
    (by rfl)

/-! ## The output of detectVoiceActivity -/

/-- The parts of a successful run of lines 70-102. -/
theorem runDetector_ok {σ : Type} (env : Env σ) (inputStruct : detectVoiceActivityInput)
    (audioBuf : IntBuffer) (s s' : GoState σ) (result : env.Struct)
    (h : runDetector env inputStruct audioBuf s = (.ok result, s')) :
    ∃ (sd : env.Detector) (w w' : σ) (segments : List SpeechSegment),
      env.detect sd (env.asFloat32 audioBuf) w = (.ok segments, w') ∧
      env.convertDetectOutput (detectOutput segments) = .ok result := by
  unfold runDetector at h
  simp only [bind, Go.bind, Go.call, Go.check] at h
  rcases h1 : env.getwd s.world with ⟨r1, w1⟩
  rw [h1] at h
  cases r1 with
  | error e => simp at h
  | ok cwd =>
    simp only [] at h
    rcases h2 : env.newDetector (detectorConfig env inputStruct cwd) w1 with ⟨r2, w2⟩
    rw [h2] at h
    cases r2 with
    | error e => simp at h
    | ok sd =>
      simp only [] at h
      rcases h3 : env.detect sd (env.asFloat32 audioBuf) w2 with ⟨r3, w3⟩
      rw [h3] at h
      cases r3 with
      | error e => simp at h
      | ok segments =>
        simp only [] at h
        rcases h4 : env.destroy sd w3 with ⟨r4, w4⟩
        rw [h4] at h
        cases r4 with
        | error e => simp at h
        | ok u =>
          simp only [] at h
          cases h5 : env.convertDetectOutput (detectOutput segments) with
          | error e =>
            rw [h5] at h
            simp at h
          | ok out =>
            rw [h5] at h
            simp only [Prod.mk.injEq, Except.ok.injEq] at h
            exact ⟨sd, w2, w3, segments, h3, by rw [h5, h.1]⟩

/-- C12: when `detectVoiceActivity` succeeds, the record it returns is the conversion of an
output whose segment list has the length of the list the detector returned and whose `i`-th
segment has the start and the end of the detector's `i`-th interval; so if the detector's
intervals are ascending, non-overlapping and each ends no earlier than it starts, the
output segments are as well. -/
theorem detect_output_mirrors_detector {σ : Type} (env : Env σ) (fft : FFTPackage)
    (input : env.Struct) (s s' : GoState σ) (result : env.Struct)
    (h : detectVoiceActivity env fft input s = (.ok result, s')) :
    ∃ (sd : env.Detector) (pcm : List env.Float32) (w w' : σ) (segments : List SpeechSegment)
      (output : detectVoiceActivityOutput),
      env.detect sd pcm w = (.ok segments, w') ∧
      env.convertDetectOutput output = .ok result ∧
      output.Segments.length = segments.length ∧
      (∀ (i : Nat) (sg : SpeechSegment), segments[i]? = some sg →
        output.Segments[i]? = some { StartTime := sg.SpeechStartAt, EndTime := sg.SpeechEndAt }) ∧
      (WellOrdered (segments.map fun sg => (sg.SpeechStartAt, sg.SpeechEndAt)) →
        WellOrdered (output.Segments.map fun sg => (sg.StartTime, sg.EndTime))) := by
  unfold detectVoiceActivity at h
  simp only [bind, Go.bind, Go.check, Go.lift] at h
  cases hc : env.convertDetectInput input with
  | error e =>
    rw [hc] at h
    simp at h
  | ok inputStruct =>
    rw [hc] at h
    simp only [] at h
    cases hp : prepareAudio env fft inputStruct.Audio with
    | error e =>
      rw [hp] at h
      simp at h
    | ok audioBuf =>
      rw [hp] at h
      simp only [] at h
      obtain ⟨sd, w, w', segments, hdet, hout⟩ :=
        runDetector_ok env inputStruct audioBuf s s' result h
      refine ⟨sd, env.asFloat32 audioBuf, w, w', segments, detectOutput segments, hdet, hout,
        ?_, ?_, ?_⟩
      · simp [detectOutput]
      · intro i sg hi
        simp [detectOutput, hi]
      · intro hw
        have hmap : (detectOutput segments).Segments.map (fun sg => (sg.StartTime, sg.EndTime)) =
            segments.map fun sg => (sg.SpeechStartAt, sg.SpeechEndAt) := by
          simp [detectOutput]
        rw [hmap]
        exact hw

set_option maxRecDepth 8000 in
/-- Witness for C12: a run on the test double whose detector reports two speech runs. -/
theorem detect_output_mirrors_detector_witness :
    ∃ (sd : Unit) (pcm : List Int) (w w' : List UInt8) (segments : List SpeechSegment)
      (output : detectVoiceActivityOutput),
      speechEnv.detect sd pcm w = (.ok segments, w') ∧
      speechEnv.convertDetectOutput output = .ok (FakeStruct.detectOut
        ⟨[⟨⟨1, -1⟩, ⟨5, -2⟩⟩, ⟨⟨2, 0⟩, ⟨3, 0⟩⟩]⟩) ∧
      output.Segments.length = segments.length ∧
      (∀ (i : Nat) (sg : SpeechSegment), segments[i]? = some sg →
        output.Segments[i]? = some { StartTime := sg.SpeechStartAt, EndTime := sg.SpeechEndAt }) ∧
      (WellOrdered (segments.map fun sg => (sg.SpeechStartAt, sg.SpeechEndAt)) →
        WellOrdered (output.Segments.map fun sg => (sg.StartTime, sg.EndTime))) :=
  detect_output_mirrors_detector speechEnv shapeFFT
    (FakeStruct.detectIn ⟨"abcdef", 100, 30⟩) startState
    (detectVoiceActivity speechEnv shapeFFT
      (FakeStruct.detectIn ⟨"abcdef", 100, 30⟩) startState).2
    (FakeStruct.detectOut ⟨[⟨⟨1, -1⟩, ⟨5, -2⟩⟩, ⟨⟨2, 0⟩, ⟨3, 0⟩⟩]⟩)
    (by rfl)

/-! ## Frame boundaries -/

/-- C13 (failing inputs): a stereo buffer at 16 kHz with two frames, `[1,2,3,4]`.  The
interval 0 s .. 2^-14 s has the end index `int(1.953125) = 1` and gives the single sample
`[1]`: half a frame, `1 % 2 ≠ 0`.  The interval 2^-14 s .. 1 s starts at index 1 and gives
`[2,3,4]`, which begins with the right channel of the first frame. -/
theorem extractSegment_splits_frames :
    ([1, 2, 3, 4] : List Int).length % 2 = 0 ∧
    extractSegment ⟨⟨2, 16000⟩, [1, 2, 3, 4], 16⟩ ⟨⟨0, 0⟩, ⟨1, -14⟩⟩ = .ok [1] ∧
    ([1] : List Int).length % 2 = 1 ∧
    extractSegment ⟨⟨2, 16000⟩, [1, 2, 3, 4], 16⟩ ⟨⟨1, -14⟩, ⟨1, 0⟩⟩ = .ok [2, 3, 4] := by
  decide

/-! ## resample with a computed length of zero -/

/-- C14 (failing inputs): when the computed length is zero, `resample` hands the empty
slice to `IFFT` and ends the way `IFFT` ends on it; a package whose `IFFT` panics on the
empty slice (go-dsp reads `x[0]`) makes `resample` panic instead of returning the empty
sequence. -/
theorem resample_zero_length (fft : FFTPackage) (input : List F64)
    (inputRate outputRate : Nat) (hin : inputRate ≠ 0)
    (hzero : resampleLen input.length inputRate outputRate = 0)
    (e : Fault) (hifft : fft.IFFT [] = .error e) :
    resample fft input inputRate outputRate = .error e := by
  unfold resample
  have hel : GoSlice.elems { backing := (fft.FFTReal input).backing, len := 0 } = [] := by
    simp [GoSlice.elems]
  simp only [hin, hzero, if_false, lt_irrefl, GoSlice.resliceTo, le_refl, Int.toNat_zero,
    Int.ofNat_nonneg, and_self, if_true]
  simp only [bind, Except.bind, hel, hifft]
  rfl

/-- Witness for C14: the empty input, and 44 samples at 1 MHz (`floor(44*16000/1000000) = 0`),
resampled to 16 kHz with the slice shapes of go-dsp. -/
theorem resample_zero_length_witness :
    resample shapeFFT [] 44100 16000 = .error (.panic "index out of range") ∧
    resample shapeFFT (List.replicate 44 (f64OfInt 7)) 1000000 16000 =
      .error (.panic "index out of range") :=
  ⟨resample_zero_length shapeFFT [] 44100 16000 (by decide) (by decide) _ rfl,
    resample_zero_length shapeFFT (List.replicate 44 (f64OfInt 7)) 1000000 16000
      (by decide) (by decide) _ rfl⟩

/-! ## The length of the decoded buffer -/

/-- C15 (failing inputs): `decodeAudio` allocates one sample per byte of the decoded file
and ignores the number of samples `PCMBuffer` reports; when `PCMBuffer` fills the buffer in
place (it does not change its length), the returned buffer has as many samples as the file
has bytes. -/
theorem decodeAudio_length_is_byte_count {σ : Type} (env : Env σ) (audio : String)
    (audioBuf : IntBuffer) (dec : Decoder)
    (h : decodeAudio env audio = .ok (audioBuf, dec))
    (hkeep : ∀ buf b b', env.pcmBuffer buf b = .ok b' → b'.Data.length = b.Data.length) :
    ∃ buf, env.base64Decode (env.trimBase64Mime audio) = .ok buf ∧
      audioBuf.Data.length = buf.length := by
  obtain ⟨buf, hb, _, _, hp⟩ := decodeAudio_ok env audio audioBuf dec h
  refine ⟨buf, hb, ?_⟩
  rw [hkeep _ _ _ hp]
  simp

theorem pcm16Env_pcmBuffer_length (rate : Nat) (buf : List UInt8) (b b' : IntBuffer)
    (h : (pcm16Env rate).pcmBuffer buf b = .ok b') : b'.Data.length = b.Data.length := by
  simp only [pcm16Env, Except.ok.injEq] at h
  rw [← h]
  simp only [List.length_append, List.length_drop, List.length_take]
  omega

set_option maxRecDepth 8000 in
/-- Witness for C15: a file of 44 header bytes and the two 16-bit samples 3 and 5 is decoded
to a buffer of 48 samples: the two samples, the last of them once more, and 45 zeros. -/
theorem decodeAudio_length_is_byte_count_witness :
    decodeAudio (pcm16Env 16000) pcm16Example =
      .ok (⟨⟨1, 16000⟩, [3, 5, 5] ++ List.replicate 45 0, 16⟩, ⟨1, 16000, 16, 1⟩) ∧
    ∃ buf, (pcm16Env 16000).base64Decode ((pcm16Env 16000).trimBase64Mime pcm16Example) =
        .ok buf ∧
      (([3, 5, 5] : List Int) ++ List.replicate 45 0).length = buf.length :=
  ⟨by rfl, decodeAudio_length_is_byte_count (pcm16Env 16000) pcm16Example
    ⟨⟨1, 16000⟩, [3, 5, 5] ++ List.replicate 45 0, 16⟩ ⟨1, 16000, 16, 1⟩ (by rfl)
    (pcm16Env_pcmBuffer_length 16000)⟩

/-! ## Rounding is monotone and commutes with scaling by powers of two -/

theorem bitLen_mono (n1 n2 : Nat) (h : n1 ≤ n2) : bitLen n1 ≤ bitLen n2 :=
  bitLen_le n1 (bitLen n2) (lt_of_le_of_lt h (lt_two_pow_bitLen n2))

theorem bitLen_mul_pow (n j : Nat) (hn : 0 < n) : bitLen (n * 2 ^ j) = bitLen n + j := by
  apply Nat.le_antisymm
  · apply bitLen_le
    rw [Nat.pow_add]
    exact Nat.mul_lt_mul_of_pos_right (lt_two_pow_bitLen n) (Nat.pos_pow_of_pos _ (by decide))
  · exact bitLen_mul_pow_ge n j hn

/-- The two possible results of `roundSig`: the quotient or its successor. -/
theorem roundVal_cases (n : Nat) :
    roundVal n = n / 2 ^ (bitLen n - 53) * 2 ^ (bitLen n - 53) ∨
    (roundVal n = (n / 2 ^ (bitLen n - 53) + 1) * 2 ^ (bitLen n - 53) ∧
      (2 ^ (bitLen n - 53) < 2 * (n % 2 ^ (bitLen n - 53)) ∨
        (2 * (n % 2 ^ (bitLen n - 53)) = 2 ^ (bitLen n - 53) ∧
          n / 2 ^ (bitLen n - 53) % 2 = 1))) := by
  unfold roundVal roundSig
  simp only []
  split
  · rename_i hup
    right
    refine ⟨rfl, ?_⟩
    simpa using hup
  · left
    rfl

/-- When the remainder is above one half, or exactly one half with an odd quotient, the
rounding goes up. -/
theorem roundVal_up (n : Nat)
    (h : 2 ^ (bitLen n - 53) < 2 * (n % 2 ^ (bitLen n - 53)) ∨
      (2 * (n % 2 ^ (bitLen n - 53)) = 2 ^ (bitLen n - 53) ∧
        n / 2 ^ (bitLen n - 53) % 2 = 1)) :
    roundVal n = (n / 2 ^ (bitLen n - 53) + 1) * 2 ^ (bitLen n - 53) := by
  unfold roundVal roundSig
  simp only []
  rw [if_pos]
  simpa using h

theorem roundVal_ge_floor (n : Nat) :
    n / 2 ^ (bitLen n - 53) * 2 ^ (bitLen n - 53) ≤ roundVal n := by
  rcases roundVal_cases n with h | ⟨h, _⟩
  · rw [h]
  · rw [h]
    exact Nat.mul_le_mul_right _ (Nat.le_succ _)

theorem roundVal_le_ceil (n : Nat) :
    roundVal n ≤ (n / 2 ^ (bitLen n - 53) + 1) * 2 ^ (bitLen n - 53) := by
  rcases roundVal_cases n with h | ⟨h, _⟩
  · rw [h]
    exact Nat.mul_le_mul_right _ (Nat.le_succ _)
  · rw [h]

theorem roundVal_mono (n1 n2 : Nat) (h : n1 ≤ n2) : roundVal n1 ≤ roundVal n2 := by
  rcases Nat.lt_or_ge (bitLen n1) (bitLen n2) with hlt | hge
  · -- a power of two separates the two numbers
    have h1 : roundVal n1 ≤ 1 * 2 ^ bitLen n1 :=
      roundSig_le n1 false 1 (bitLen n1) (by decide)
        (by rw [Nat.one_mul]; exact le_of_lt (lt_two_pow_bitLen n1))
    have hn2 : n2 ≠ 0 := by
      intro h0
      subst h0
      have : bitLen 0 = 0 := rfl
      omega
    have hlow := bitLen_lower n2 hn2
    have hs : bitLen n2 - 53 ≤ bitLen n2 - 1 := by omega
    obtain ⟨d, hd⟩ := Nat.exists_eq_add_of_le hs
    have hq : 2 ^ d ≤ n2 / 2 ^ (bitLen n2 - 53) := by
      rw [Nat.le_div_iff_mul_le (Nat.pos_pow_of_pos _ (by decide)), ← Nat.pow_add,
        Nat.add_comm, ← hd]
      exact hlow
    have h2 : 2 ^ (bitLen n2 - 1) ≤ roundVal n2 := by
      refine le_trans ?_ (roundVal_ge_floor n2)
      rw [hd, Nat.pow_add, Nat.mul_comm]
      exact Nat.mul_le_mul_right _ hq
    have h3 : 2 ^ bitLen n1 ≤ 2 ^ (bitLen n2 - 1) :=
      Nat.pow_le_pow_right (by decide) (by omega)
    omega
  · have hb : bitLen n1 = bitLen n2 := Nat.le_antisymm (bitLen_mono n1 n2 h) hge
    have hpos : 0 < 2 ^ (bitLen n2 - 53) := Nat.pos_pow_of_pos _ (by decide)
    have hq : n1 / 2 ^ (bitLen n2 - 53) ≤ n2 / 2 ^ (bitLen n2 - 53) :=
      Nat.div_le_div_right h
    have hc1 := roundVal_le_ceil n1
    have hf2 := roundVal_ge_floor n2
    rw [hb] at hc1
    rcases Nat.lt_or_ge (n1 / 2 ^ (bitLen n2 - 53)) (n2 / 2 ^ (bitLen n2 - 53)) with hql | hqg
    · have : (n1 / 2 ^ (bitLen n2 - 53) + 1) * 2 ^ (bitLen n2 - 53) ≤
          n2 / 2 ^ (bitLen n2 - 53) * 2 ^ (bitLen n2 - 53) :=
        Nat.mul_le_mul_right _ hql
      omega
    · have hqe : n1 / 2 ^ (bitLen n2 - 53) = n2 / 2 ^ (bitLen n2 - 53) :=
        Nat.le_antisymm hq hqg
      have hd1 := Nat.div_add_mod n1 (2 ^ (bitLen n2 - 53))
      have hd2 := Nat.div_add_mod n2 (2 ^ (bitLen n2 - 53))
      have hr : n1 % 2 ^ (bitLen n2 - 53) ≤ n2 % 2 ^ (bitLen n2 - 53) := by
        rw [hqe] at hd1
        omega
      rcases roundVal_cases n1 with hv | ⟨hv, hup⟩
      · rw [hv, hb, hqe]
        exact hf2
      · rw [hb] at hup
        have hup2 : 2 ^ (bitLen n2 - 53) < 2 * (n2 % 2 ^ (bitLen n2 - 53)) ∨
            (2 * (n2 % 2 ^ (bitLen n2 - 53)) = 2 ^ (bitLen n2 - 53) ∧
              n2 / 2 ^ (bitLen n2 - 53) % 2 = 1) := by
          rcases hup with hu | ⟨hu, ho⟩
          · left
            omega
          · rcases Nat.lt_or_ge (n1 % 2 ^ (bitLen n2 - 53)) (n2 % 2 ^ (bitLen n2 - 53))
              with hrl | hrg
            · left
              omega
            · right
              have : n1 % 2 ^ (bitLen n2 - 53) = n2 % 2 ^ (bitLen n2 - 53) :=
                Nat.le_antisymm hr hrg
              rw [← this, ← hqe]
              exact ⟨hu, ho⟩
        rw [roundVal_up n2 hup2, hv, hb, hqe]

theorem roundVal_of_dvd (n : Nat) (h : 2 ^ (bitLen n - 53) ∣ n) : roundVal n = n :=
  roundSig_of_dvd n false h

theorem roundVal_scale (n j : Nat) : roundVal (n * 2 ^ j) = roundVal n * 2 ^ j := by
  rcases Nat.eq_zero_or_pos n with h0 | hpos
  · subst h0
    rw [Nat.zero_mul, roundVal_of_dvd 0 (Nat.dvd_zero _), Nat.zero_mul]
  · have hbl := bitLen_mul_pow n j hpos
    rcases Nat.lt_or_ge (bitLen n) 53 with hsmall | hbig
    · -- fewer than 53 bits: nothing is rounded on either side
      have h1 : roundVal n = n := by
        apply roundVal_of_dvd
        have : bitLen n - 53 = 0 := by omega
        rw [this]
        exact Nat.one_dvd n
      have h2 : roundVal (n * 2 ^ j) = n * 2 ^ j := by
        apply roundVal_of_dvd
        rw [hbl]
        exact Dvd.dvd.mul_left (Nat.pow_dvd_pow 2 (by omega)) n
      rw [h1, h2]
    · have hs : bitLen (n * 2 ^ j) - 53 = (bitLen n - 53) + j := by omega
      have hpj : 0 < 2 ^ j := Nat.pos_pow_of_pos _ (by decide)
      have hq : n * 2 ^ j / 2 ^ ((bitLen n - 53) + j) = n / 2 ^ (bitLen n - 53) := by
        rw [Nat.pow_add, Nat.mul_div_mul_right _ _ hpj]
      have hr : n * 2 ^ j % 2 ^ ((bitLen n - 53) + j) = n % 2 ^ (bitLen n - 53) * 2 ^ j := by
        rw [Nat.pow_add, Nat.mul_mod_mul_right]
      have hpow : 2 ^ ((bitLen n - 53) + j) = 2 ^ (bitLen n - 53) * 2 ^ j := Nat.pow_add _ _ _
      rcases roundVal_cases n with hv | ⟨hv, hup⟩
      · -- rounded down: so is the scaled number
        rcases roundVal_cases (n * 2 ^ j) with hv' | ⟨_, hup'⟩
        · rw [hv', hv, hs, hq, hpow, Nat.mul_assoc]
        · exfalso
          rw [hs, hq, hr, hpow] at hup'
          have hup0 : 2 ^ (bitLen n - 53) < 2 * (n % 2 ^ (bitLen n - 53)) ∨
              (2 * (n % 2 ^ (bitLen n - 53)) = 2 ^ (bitLen n - 53) ∧
                n / 2 ^ (bitLen n - 53) % 2 = 1) := by
            rcases hup' with hu | ⟨hu, ho⟩
            · left
              rw [← Nat.mul_assoc] at hu
              exact Nat.lt_of_mul_lt_mul_right hu
            · right
              rw [← Nat.mul_assoc] at hu
              exact ⟨Nat.eq_of_mul_eq_mul_right hpj hu, ho⟩
          have := roundVal_up n hup0
          rw [hv] at this
          have hne : n / 2 ^ (bitLen n - 53) * 2 ^ (bitLen n - 53) <
              (n / 2 ^ (bitLen n - 53) + 1) * 2 ^ (bitLen n - 53) :=
            Nat.mul_lt_mul_of_pos_right (Nat.lt_succ_self _) (Nat.pos_pow_of_pos _ (by decide))
          omega
      · have hup' : 2 ^ (bitLen (n * 2 ^ j) - 53) <
              2 * (n * 2 ^ j % 2 ^ (bitLen (n * 2 ^ j) - 53)) ∨
            (2 * (n * 2 ^ j % 2 ^ (bitLen (n * 2 ^ j) - 53)) = 2 ^ (bitLen (n * 2 ^ j) - 53) ∧
              n * 2 ^ j / 2 ^ (bitLen (n * 2 ^ j) - 53) % 2 = 1) := by
          rw [hs, hq, hr, hpow]
          rcases hup with hu | ⟨hu, ho⟩
          · left
            rw [← Nat.mul_assoc]
            exact Nat.mul_lt_mul_of_pos_right hu hpj
          · right
            rw [← Nat.mul_assoc, hu]
            exact ⟨rfl, ho⟩
        rw [roundVal_up _ hup', hv, hs, hq, hpow, Nat.mul_assoc]

/-! ## Signed rounding -/

theorem roundInt_of_nonneg (i : Int) (h : 0 ≤ i) : roundInt i = (roundVal i.natAbs : Int) := by
  unfold roundInt
  rcases lt_or_eq_of_le h with hpos | hzero
  · rw [Int.sign_eq_one_of_pos hpos, Int.one_mul]
  · subst hzero
    have : roundVal 0 = 0 := roundVal_of_dvd 0 (Nat.dvd_zero _)
    simp [this]

theorem roundInt_of_nonpos (i : Int) (h : i ≤ 0) : roundInt i = -(roundVal i.natAbs : Int) := by
  unfold roundInt
  rcases lt_or_eq_of_le h with hneg | hzero
  · rw [Int.sign_eq_neg_one_of_neg hneg]
    omega
  · subst hzero
    have : roundVal 0 = 0 := roundVal_of_dvd 0 (Nat.dvd_zero _)
    simp [this]

theorem roundInt_mono (i j : Int) (h : i ≤ j) : roundInt i ≤ roundInt j := by
  rcases le_total 0 i with hi | hi
  · have hj : 0 ≤ j := le_trans hi h
    rw [roundInt_of_nonneg i hi, roundInt_of_nonneg j hj]
    have : i.natAbs ≤ j.natAbs := by omega
    exact_mod_cast roundVal_mono _ _ this
  · rcases le_total 0 j with hj | hj
    · rw [roundInt_of_nonpos i hi, roundInt_of_nonneg j hj]
      have h1 : (0 : Int) ≤ (roundVal i.natAbs : Int) := Int.ofNat_nonneg _
      have h2 : (0 : Int) ≤ (roundVal j.natAbs : Int) := Int.ofNat_nonneg _
      omega
    · rw [roundInt_of_nonpos i hi, roundInt_of_nonpos j hj]
      have : j.natAbs ≤ i.natAbs := by omega
      have := roundVal_mono _ _ this
      omega

theorem roundInt_scale (i : Int) (j : Nat) :
    roundInt (i * (2 : Int) ^ j) = roundInt i * (2 : Int) ^ j := by
  have hp : (0 : Int) < (2 : Int) ^ j := by positivity
  have habs : (i * (2 : Int) ^ j).natAbs = i.natAbs * 2 ^ j := by
    rw [Int.natAbs_mul, Int.natAbs_pow]
    rfl
  rcases le_total 0 i with hi | hi
  · rw [roundInt_of_nonneg i hi, roundInt_of_nonneg _ (Int.mul_nonneg hi (le_of_lt hp)), habs,
      roundVal_scale]
    push_cast
    rfl
  · rw [roundInt_of_nonpos i hi,
      roundInt_of_nonpos _ (Int.mul_nonpos_of_nonpos_of_nonneg hi (le_of_lt hp)), habs,
      roundVal_scale]
    push_cast
    ring

/-! ## The sample index is monotone in the time -/

theorem f64Mul_toRat (x z : F64) :
    (f64Mul x z).toRat = (roundInt (x.mant * z.mant) : ℚ) * (2 : ℚ) ^ (x.exp + z.exp) := by
  unfold f64Mul roundInt roundVal F64.toRat
  simp only []
  rw [zpow_add₀ (by norm_num : (2 : ℚ) ≠ 0) (x.exp + z.exp), zpow_natCast]
  push_cast
  ring

/-- A float64 value written over a smaller exponent. -/
theorem F64.toRat_rescale (x : F64) (e0 : Int) (h : e0 ≤ x.exp) :
    x.toRat = ((x.mant * (2 : Int) ^ (x.exp - e0).toNat : Int) : ℚ) * (2 : ℚ) ^ e0 := by
  unfold F64.toRat
  have hx : x.exp = ((x.exp - e0).toNat : Int) + e0 := by omega
  conv_lhs => rw [hx]
  rw [zpow_add₀ (by norm_num : (2 : ℚ) ≠ 0), zpow_natCast]
  push_cast
  ring

theorem f64Mul_mono (x y z : F64) (h : x.toRat ≤ y.toRat) (hz : 0 ≤ z.mant) :
    (f64Mul x z).toRat ≤ (f64Mul y z).toRat := by
  obtain ⟨e0, hx0, hy0⟩ : ∃ e0 : Int, e0 ≤ x.exp ∧ e0 ≤ y.exp :=
    ⟨min x.exp y.exp, min_le_left _ _, min_le_right _ _⟩
  have hpos : (0 : ℚ) < (2 : ℚ) ^ e0 := by positivity
  -- the two values over the common exponent
  have hX := F64.toRat_rescale x e0 hx0
  have hY := F64.toRat_rescale y e0 hy0
  have hXY : x.mant * (2 : Int) ^ (x.exp - e0).toNat ≤ y.mant * (2 : Int) ^ (y.exp - e0).toNat := by
    rw [hX, hY] at h
    have := le_of_mul_le_mul_right h hpos
    exact_mod_cast this
  have hprod := roundInt_mono _ _ (Int.mul_le_mul_of_nonneg_right hXY hz)
  have e1 : x.mant * (2 : Int) ^ (x.exp - e0).toNat * z.mant =
      x.mant * z.mant * (2 : Int) ^ (x.exp - e0).toNat := by ring
  have e2 : y.mant * (2 : Int) ^ (y.exp - e0).toNat * z.mant =
      y.mant * z.mant * (2 : Int) ^ (y.exp - e0).toNat := by ring
  rw [e1, e2, roundInt_scale, roundInt_scale] at hprod
  have hq : ((roundInt (x.mant * z.mant) * (2 : Int) ^ (x.exp - e0).toNat : Int) : ℚ) ≤
      ((roundInt (y.mant * z.mant) * (2 : Int) ^ (y.exp - e0).toNat : Int) : ℚ) := by
    exact_mod_cast hprod
  have hpz : (0 : ℚ) < (2 : ℚ) ^ (e0 + z.exp) := by positivity
  have hfin := mul_le_mul_of_nonneg_right hq (le_of_lt hpz)
  have hxe : (2 : ℚ) ^ (x.exp + z.exp) =
      (2 : ℚ) ^ (x.exp - e0).toNat * (2 : ℚ) ^ (e0 + z.exp) := by
    rw [← zpow_natCast, ← zpow_add₀ (by norm_num : (2 : ℚ) ≠ 0)]
    congr 1
    omega
  have hye : (2 : ℚ) ^ (y.exp + z.exp) =
      (2 : ℚ) ^ (y.exp - e0).toNat * (2 : ℚ) ^ (e0 + z.exp) := by
    rw [← zpow_natCast, ← zpow_add₀ (by norm_num : (2 : ℚ) ≠ 0)]
    congr 1
    omega
  rw [f64Mul_toRat, f64Mul_toRat, hxe, hye]
  push_cast at hfin
  calc (roundInt (x.mant * z.mant) : ℚ) * ((2 : ℚ) ^ (x.exp - e0).toNat * (2 : ℚ) ^ (e0 + z.exp))
      = (roundInt (x.mant * z.mant) : ℚ) * (2 : ℚ) ^ (x.exp - e0).toNat *
          (2 : ℚ) ^ (e0 + z.exp) := by ring
    _ ≤ (roundInt (y.mant * z.mant) : ℚ) * (2 : ℚ) ^ (y.exp - e0).toNat *
          (2 : ℚ) ^ (e0 + z.exp) := hfin
    _ = (roundInt (y.mant * z.mant) : ℚ) * ((2 : ℚ) ^ (y.exp - e0).toNat *
          (2 : ℚ) ^ (e0 + z.exp)) := by ring

/-- For a non-negative sample rate and channel count the float64 product grows with the time. -/
theorem indexProduct_mono (a b : F64) (format : Format) (h : a.toRat ≤ b.toRat)
    (hr : 0 ≤ format.SampleRate) (hc : 0 ≤ format.NumChannels) :
    (indexProduct a format).toRat ≤ (indexProduct b format).toRat := by
  unfold indexProduct
  exact f64Mul_mono _ _ _ (f64Mul_mono _ _ _ h (f64OfInt_mant_nonneg _ hr))
    (f64OfInt_mant_nonneg _ hc)

theorem f64Trunc_mono (x y : F64) (h : x.toRat ≤ y.toRat) : f64Trunc x ≤ f64Trunc y := by
  rcases le_total 0 x.toRat with hx | hx
  · rw [(f64Trunc_eq x).1 hx, (f64Trunc_eq y).1 (le_trans hx h)]
    exact Int.floor_le_floor h
  · rcases le_total 0 y.toRat with hy | hy
    · rw [(f64Trunc_eq x).2 hx, (f64Trunc_eq y).1 hy]
      have h1 : ⌈x.toRat⌉ ≤ 0 := Int.ceil_le.mpr (by simpa using hx)
      have h2 : 0 ≤ ⌊y.toRat⌋ := Int.floor_nonneg.mpr hy
      omega
    · rw [(f64Trunc_eq x).2 hx, (f64Trunc_eq y).2 hy]
      exact Int.ceil_le_ceil h

theorem f64ToInt_le_trunc (x y : F64) (h : x.toRat ≤ y.toRat)
    (hy : minInt64 ≤ f64Trunc y) : f64ToInt x ≤ f64Trunc y := by
  unfold f64ToInt
  simp only []
  split
  · exact f64Trunc_mono x y h
  · exact hy

theorem f64ToInt_eq_or (x : F64) :
    (f64ToInt x = f64Trunc x ∧ minInt64 ≤ f64Trunc x ∧ f64Trunc x ≤ maxInt64) ∨
    (f64ToInt x = minInt64 ∧ ¬ (minInt64 ≤ f64Trunc x ∧ f64Trunc x ≤ maxInt64)) := by
  unfold f64ToInt
  simp only []
  split
  · rename_i h
    exact Or.inl ⟨rfl, h⟩
  · rename_i h
    exact Or.inr ⟨rfl, h⟩

theorem take_drop_append {α : Type} (l : List α) (i j k : Nat) (hij : i ≤ j) (hjk : j ≤ k)
    (hk : k ≤ l.length) :
    (l.take j).drop i ++ (l.take k).drop j = (l.take k).drop i := by
  have h1 : l.take j = (l.take k).take j := by
    rw [List.take_take, Nat.min_eq_left hjk]
  have h2 : (l.take k).take j ++ (l.take k).drop j = l.take k := List.take_append_drop _ _
  have hlen : ((l.take k).take j).length = j := by
    rw [List.length_take, List.length_take]
    omega
  rw [h1]
  conv_rhs => rw [← h2]
  rw [List.drop_append_of_le_length (by omega)]

theorem extractSegment_eq_goSlice (audioBuf : IntBuffer) (seg : segment) :
    extractSegment audioBuf seg =
      goSlice audioBuf.Data (max (sampleIndex seg.StartTime audioBuf.Format) 0)
        (min (sampleIndex seg.EndTime audioBuf.Format) (audioBuf.Data.length : Int)) := by
  have hs : (if sampleIndex seg.StartTime audioBuf.Format < 0 then 0
      else sampleIndex seg.StartTime audioBuf.Format) =
      max (sampleIndex seg.StartTime audioBuf.Format) 0 := by
    split <;> omega
  have he : (if sampleIndex seg.EndTime audioBuf.Format > (audioBuf.Data.length : Int)
      then (audioBuf.Data.length : Int) else sampleIndex seg.EndTime audioBuf.Format) =
      min (sampleIndex seg.EndTime audioBuf.Format) (audioBuf.Data.length : Int) := by
    split <;> omega
  simp only [extractSegment, hs, he]

theorem goSlice_panics {α : Type} (xs : List α) (lo hi : Int) (h : hi < lo) :
    goSlice xs lo hi = .error (.panic "slice bounds out of range") := by
  unfold goSlice
  rw [if_neg]
  omega

/-- C19: for a buffer with non-negative sample rate and channel count and times
`a ≤ b ≤ c` such that the sample index of `b` lies in `[0, len(Data)]`, cutting `(a, b)` and
then `(b, c)` and joining the two slices is the same as cutting `(a, c)`.  The three cuts
succeed whenever the index of `c` fits an `int` (product below `2 ^ 63`); for a larger
product, whose conversion Go leaves open, the cuts `(b, c)` and `(a, c)` fail alike. -/
theorem extractSegment_adjacent (audioBuf : IntBuffer) (a b c : F64)
    (hr : 0 ≤ audioBuf.Format.SampleRate) (hc : 0 ≤ audioBuf.Format.NumChannels)
    (hab : a.toRat ≤ b.toRat) (hbc : b.toRat ≤ c.toRat)
    (hb0 : 0 ≤ sampleIndex b audioBuf.Format)
    (hbl : sampleIndex b audioBuf.Format ≤ (audioBuf.Data.length : Int)) :
    ((do
        let x ← extractSegment audioBuf ⟨a, b⟩
        let y ← extractSegment audioBuf ⟨b, c⟩
        pure (x ++ y)) : Except Fault (List Int)) = extractSegment audioBuf ⟨a, c⟩ ∧
    ((indexProduct c audioBuf.Format).toRat < (2 : ℚ) ^ 63 →
      ∃ x y, extractSegment audioBuf ⟨a, b⟩ = .ok x ∧ extractSegment audioBuf ⟨b, c⟩ = .ok y ∧
        extractSegment audioBuf ⟨a, c⟩ = .ok (x ++ y)) := by
  have hpab := indexProduct_mono a b audioBuf.Format hab hr hc
  have hpbc := indexProduct_mono b c audioBuf.Format hbc hr hc
  have hmin : minInt64 < 0 := by decide
  -- the index of b is a genuine integer part
  have hbT : sampleIndex b audioBuf.Format = f64Trunc (indexProduct b audioBuf.Format) := by
    rcases f64ToInt_eq_or (indexProduct b audioBuf.Format) with ⟨h, _⟩ | ⟨h, _⟩
    · exact h
    · exfalso
      have : sampleIndex b audioBuf.Format = minInt64 := h
      omega
  have hia : sampleIndex a audioBuf.Format ≤ sampleIndex b audioBuf.Format := by
    rw [hbT]
    exact f64ToInt_le_trunc _ _ hpab (by rw [← hbT]; omega)
  have hAB : extractSegment audioBuf ⟨a, b⟩ =
      .ok ((audioBuf.Data.take (sampleIndex b audioBuf.Format).toNat).drop
        (max (sampleIndex a audioBuf.Format) 0).toNat) := by
    rw [extractSegment_eq_goSlice]
    simp only []
    rw [min_eq_left hbl]
    exact goSlice_ok _ _ _ (le_max_right _ _) (max_le hia hb0) hbl
  have hbmax : max (sampleIndex b audioBuf.Format) 0 = sampleIndex b audioBuf.Format :=
    max_eq_left hb0
  -- the three cuts when the index of c is not below the one of b
  have hgood : sampleIndex b audioBuf.Format ≤ sampleIndex c audioBuf.Format →
      extractSegment audioBuf ⟨b, c⟩ =
        .ok ((audioBuf.Data.take
          (min (sampleIndex c audioBuf.Format) (audioBuf.Data.length : Int)).toNat).drop
          (sampleIndex b audioBuf.Format).toNat) ∧
      extractSegment audioBuf ⟨a, c⟩ =
        .ok ((audioBuf.Data.take (sampleIndex b audioBuf.Format).toNat).drop
            (max (sampleIndex a audioBuf.Format) 0).toNat ++
          (audioBuf.Data.take
            (min (sampleIndex c audioBuf.Format) (audioBuf.Data.length : Int)).toNat).drop
            (sampleIndex b audioBuf.Format).toNat) := by
    intro hic
    have hle : sampleIndex b audioBuf.Format ≤
        min (sampleIndex c audioBuf.Format) (audioBuf.Data.length : Int) := le_min hic hbl
    constructor
    · rw [extractSegment_eq_goSlice]
      simp only []
      rw [hbmax]
      exact goSlice_ok _ _ _ hb0 hle (min_le_right _ _)
    · rw [extractSegment_eq_goSlice]
      simp only []
      rw [goSlice_ok _ _ _ (le_max_right _ _) (le_trans (max_le hia hb0) hle)
        (min_le_right _ _)]
      congr 1
      symm
      apply take_drop_append
      · have := max_le hia hb0
        omega
      · omega
      · have := min_le_right (sampleIndex c audioBuf.Format) (audioBuf.Data.length : Int)
        omega
  rcases f64ToInt_eq_or (indexProduct c audioBuf.Format) with ⟨hcT, hcR⟩ | ⟨hcM, hcR⟩
  · -- the index of c is a genuine integer part
    have hic : sampleIndex b audioBuf.Format ≤ sampleIndex c audioBuf.Format := by
      have h1 : sampleIndex c audioBuf.Format = f64Trunc (indexProduct c audioBuf.Format) := hcT
      rw [hbT, h1]
      exact f64Trunc_mono _ _ hpbc
    obtain ⟨hBC, hAC⟩ := hgood hic
    refine ⟨?_, fun _ => ⟨_, _, hAB, hBC, hAC⟩⟩
    rw [hAB, hBC, hAC]
    rfl
  · -- the product of c is outside the range of int
    have hic : sampleIndex c audioBuf.Format = minInt64 := hcM
    have hBC : extractSegment audioBuf ⟨b, c⟩ = .error (.panic "slice bounds out of range") := by
      rw [extractSegment_eq_goSlice]
      simp only []
      apply goSlice_panics
      have := min_le_left (sampleIndex c audioBuf.Format) (audioBuf.Data.length : Int)
      have := le_max_right (sampleIndex b audioBuf.Format) 0
      omega
    have hAC : extractSegment audioBuf ⟨a, c⟩ = .error (.panic "slice bounds out of range") := by
      rw [extractSegment_eq_goSlice]
      simp only []
      apply goSlice_panics
      have := min_le_left (sampleIndex c audioBuf.Format) (audioBuf.Data.length : Int)
      have := le_max_right (sampleIndex a audioBuf.Format) 0
      omega
    refine ⟨?_, fun hlt => ?_⟩
    · rw [hAB, hBC, hAC]
      rfl
    · exfalso
      apply hcR
      have hb0' : 0 ≤ f64Trunc (indexProduct b audioBuf.Format) := by rw [← hbT]; exact hb0
      have hmono := f64Trunc_mono _ _ hpbc
      constructor
      · omega
      · unfold maxInt64
        rcases le_total 0 (indexProduct c audioBuf.Format).toRat with h0 | h0
        · rw [(f64Trunc_eq _).1 h0]
          have : ⌊(indexProduct c audioBuf.Format).toRat⌋ < (2 : Int) ^ 63 := by
            rw [Int.floor_lt]
            push_cast
            exact hlt
          omega
        · rw [(f64Trunc_eq _).2 h0]
          have : ⌈(indexProduct c audioBuf.Format).toRat⌉ ≤ 0 :=
            Int.ceil_le.mpr (by simpa using h0)
          omega

/-- Witness for C19: four samples at 1 Hz cut at -5 s, 2 s and 6 s. -/
theorem extractSegment_adjacent_witness :
    ((do
        let x ← extractSegment ⟨⟨1, 1⟩, [10, 20, 30, 40], 16⟩ ⟨⟨-5, 0⟩, ⟨2, 0⟩⟩
        let y ← extractSegment ⟨⟨1, 1⟩, [10, 20, 30, 40], 16⟩ ⟨⟨2, 0⟩, ⟨6, 0⟩⟩
        pure (x ++ y)) : Except Fault (List Int)) =
      extractSegment ⟨⟨1, 1⟩, [10, 20, 30, 40], 16⟩ ⟨⟨-5, 0⟩, ⟨6, 0⟩⟩ ∧
    ((indexProduct ⟨6, 0⟩ ⟨1, 1⟩).toRat < (2 : ℚ) ^ 63 →
      ∃ x y, extractSegment ⟨⟨1, 1⟩, [10, 20, 30, 40], 16⟩ ⟨⟨-5, 0⟩, ⟨2, 0⟩⟩ = .ok x ∧
        extractSegment ⟨⟨1, 1⟩, [10, 20, 30, 40], 16⟩ ⟨⟨2, 0⟩, ⟨6, 0⟩⟩ = .ok y ∧
        extractSegment ⟨⟨1, 1⟩, [10, 20, 30, 40], 16⟩ ⟨⟨-5, 0⟩, ⟨6, 0⟩⟩ = .ok (x ++ y)) :=
  extractSegment_adjacent ⟨⟨1, 1⟩, [10, 20, 30, 40], 16⟩ ⟨-5, 0⟩ ⟨2, 0⟩ ⟨6, 0⟩
    (by decide) (by decide) (by norm_num [F64.toRat]) (by norm_num [F64.toRat])
    (by decide) (by decide)

/-! ## A constant signal under exact transforms -/

/-- `resample` is `resampleCore` with the float64 conversion of the real part. -/
theorem resample_eq_resampleCore (fft : FFTPackage) (input : List F64)
    (inputRate outputRate : Nat) :
    resample fft input inputRate outputRate =
      resampleCore fft.Complex fft.FFTReal fft.IFFT (fun v => f64ToInt (fft.real v))
        input inputRate outputRate := by
  rfl

/-- The `n`-th roots of unity other than 1 sum to zero along their powers. -/
theorem sum_exp_eq_zero (n k : Nat) (hk : 0 < k) (hkn : k < n) :
    ∑ j ∈ Finset.range n,
      Complex.exp (-(2 * Real.pi * Complex.I) * (j : ℂ) * (k : ℂ) / (n : ℂ)) = 0 := by
  have hn : (n : ℂ) ≠ 0 := by
    have : n ≠ 0 := by omega
    exact_mod_cast this
  have hpi : (2 * (Real.pi : ℂ) * Complex.I) ≠ 0 := by
    simp [Complex.ofReal_ne_zero, Real.pi_ne_zero, Complex.I_ne_zero]
  have hterm : ∀ j : Nat,
      Complex.exp (-(2 * Real.pi * Complex.I) * (j : ℂ) * (k : ℂ) / (n : ℂ)) =
        Complex.exp (-(2 * Real.pi * Complex.I) * (k : ℂ) / (n : ℂ)) ^ j := by
    intro j
    rw [← Complex.exp_nat_mul]
    congr 1
    ring
  simp only [hterm]
  have hne : Complex.exp (-(2 * Real.pi * Complex.I) * (k : ℂ) / (n : ℂ)) ≠ 1 := by
    intro h1
    rw [Complex.exp_eq_one_iff] at h1
    obtain ⟨N, hN⟩ := h1
    have h2 : -(k : ℂ) = (N : ℂ) * (n : ℂ) := by
      have h3 : -(2 * Real.pi * Complex.I) * (k : ℂ) = (N : ℂ) * (2 * Real.pi * Complex.I) * (n : ℂ) := by
        rw [div_eq_iff hn] at hN
        rw [hN]
      have h4 : (2 * (Real.pi : ℂ) * Complex.I) * (-(k : ℂ)) =
          (2 * (Real.pi : ℂ) * Complex.I) * ((N : ℂ) * (n : ℂ)) := by
        rw [mul_neg, ← neg_mul, h3]
        ring
      exact mul_left_cancel₀ hpi h4
    have h5 : -(k : Int) = N * (n : Int) := by exact_mod_cast h2
    -- no multiple of n lies strictly between -n and 0
    rcases le_or_lt 0 N with hN0 | hN0
    · have : 0 ≤ N * (n : Int) := Int.mul_nonneg hN0 (Int.ofNat_nonneg n)
      omega
    · have : N * (n : Int) ≤ (-1) * (n : Int) :=
        Int.mul_le_mul_of_nonneg_right (by omega) (Int.ofNat_nonneg n)
      omega
  rw [geom_sum_eq hne]
  have hpow : Complex.exp (-(2 * Real.pi * Complex.I) * (k : ℂ) / (n : ℂ)) ^ n = 1 := by
    rw [← Complex.exp_nat_mul]
    have : (n : ℂ) * (-(2 * Real.pi * Complex.I) * (k : ℂ) / (n : ℂ)) =
        ((-(k : Int) : Int) : ℂ) * (2 * Real.pi * Complex.I) := by
      field_simp
      ring
    rw [this]
    exact Complex.exp_int_mul_two_pi_mul_I _
  rw [hpow]
  simp

theorem getD_replicate_of_lt (n j : Nat) (c : ℂ) (h : j < n) :
    (List.replicate n c).getD j 0 = c := by
  rw [List.getD_eq_getElem?_getD, List.getElem?_replicate]
  simp [h]

/-- The forward transform of a constant signal: `n * c` at index 0, zero elsewhere. -/
theorem exactDFT_replicate (n k : Nat) (c : ℂ) (hkn : k < n) :
    exactDFT (List.replicate n c) k = if k = 0 then (n : ℂ) * c else 0 := by
  unfold exactDFT
  rw [List.length_replicate]
  have hterm : ∀ j ∈ Finset.range n,
      (List.replicate n c).getD j 0 *
          Complex.exp (-(2 * Real.pi * Complex.I) * (j : ℂ) * (k : ℂ) / (n : ℂ)) =
        c * Complex.exp (-(2 * Real.pi * Complex.I) * (j : ℂ) * (k : ℂ) / (n : ℂ)) := by
    intro j hj
    rw [getD_replicate_of_lt n j c (Finset.mem_range.mp hj)]
  rw [Finset.sum_congr rfl hterm, ← Finset.mul_sum]
  split
  · rename_i h0
    subst h0
    simp
    ring
  · rename_i h0
    rw [sum_exp_eq_zero n k (Nat.pos_of_ne_zero h0) hkn, mul_zero]

/-- The inverse transform of a spectrum that is zero except at index 0 is constant. -/
theorem exactIDFT_single (X : List ℂ) (a : ℂ) (j : Nat) (hpos : 0 < X.length)
    (hX : ∀ k, k < X.length → X.getD k 0 = if k = 0 then a else 0) :
    exactIDFT X j = a / (X.length : ℂ) := by
  unfold exactIDFT
  congr 1
  rw [Finset.sum_eq_single 0]
  · rw [hX 0 hpos]
    simp
  · intro k hk hk0
    rw [hX k (Finset.mem_range.mp hk), if_neg hk0, zero_mul]
  · intro h
    exact absurd (Finset.mem_range.mpr hpos) h

/-- The integer part of the real part of the quotient of two integers. -/
theorem truncRe_ratCast (q : ℚ) : truncRe ((q : ℂ)) = truncRat q := by
  have hre : ((q : ℂ)).re = ((q : ℚ) : ℝ) := by
    have : ((q : ℂ)) = (((q : ℝ) : ℝ) : ℂ) := by
      push_cast
      rfl
    rw [this, Complex.ofReal_re]
  unfold truncRe truncRat
  rw [hre]
  by_cases h : 0 ≤ q
  · have h2 : (0 : ℝ) ≤ ((q : ℚ) : ℝ) := by exact_mod_cast h
    rw [if_pos h, if_pos h2, Rat.floor_cast]
  · have h2 : ¬ ((0 : ℝ) ≤ ((q : ℚ) : ℝ)) := by
      intro hc
      apply h
      exact_mod_cast hc
    rw [if_neg h, if_neg h2, Rat.ceil_cast]

theorem truncRat_div (p : Int) (m : Nat) :
    truncRat ((p : ℚ) / (m : ℚ)) = Int.tdiv p (m : Int) := by
  unfold truncRat
  split
  · rename_i hq
    have hp : 0 ≤ p ∨ m = 0 := by
      by_contra hc
      push_neg at hc
      have h1 : (p : ℚ) < 0 := by exact_mod_cast hc.1
      have h2 : (0 : ℚ) < (m : ℚ) := by exact_mod_cast Nat.pos_of_ne_zero hc.2
      have := div_neg_of_neg_of_pos h1 h2
      linarith
    rcases hp with hp | hm
    · exact (tdiv_eq_floor_of_nonneg p m hp).symm
    · subst hm
      simp
  · rename_i h
    have hq : (p : ℚ) / (m : ℚ) < 0 := by linarith [not_le.mp h]
    have hp : p ≤ 0 := by
      by_contra hc
      have h1 : (0 : ℚ) ≤ (p : ℚ) := by exact_mod_cast (by omega : 0 ≤ p)
      have h2 : (0 : ℚ) ≤ (m : ℚ) := by exact_mod_cast Nat.zero_le m
      have := div_nonneg h1 h2
      linarith
    exact (tdiv_eq_ceil_of_nonpos p m hp).symm

theorem map_const_range {α : Type} (m : Nat) (a : α) (f : Nat → α)
    (h : ∀ j, j < m → f j = a) : (List.range m).map f = List.replicate m a := by
  apply List.ext_getElem
  · simp
  · intro i h1 h2
    simp only [List.getElem_map, List.getElem_range, List.getElem_replicate]
    exact h i (by simpa using h1)

/-- C18: over exact arithmetic (forward transform unnormalised, inverse transform divided by
its length `m`), for a constant input of `n` samples of value `x` and rates for which the
computed output length is `m` with `1 ≤ m ≤ n`, `resample` returns `m` samples that all
equal `x * n / m` truncated toward zero; for an integer value `c` this is the truncating
quotient `c * n / m`, and for `n = 2m` it is `2c`: the level of the signal is doubled. -/
theorem resample_constant_exact (x : F64) (n m inputRate outputRate : Nat)
    (hin : inputRate ≠ 0)
    (hlen : resampleLen n inputRate outputRate = (m : Int)) (h1 : 1 ≤ m) (hmn : m ≤ n) :
    resampleCore ℂ exactFFTReal exactIFFT truncRe (List.replicate n x)
        inputRate outputRate = .ok (List.replicate m (truncRat (x.toRat * n / m))) ∧
      (∀ c : Int, x.toRat = c →
        truncRat (x.toRat * n / m) = Int.tdiv (c * n) m ∧
        (n = 2 * m → truncRat (x.toRat * n / m) = 2 * c)) := by
  have hquot : ∀ c : Int, x.toRat = c →
      truncRat (x.toRat * n / m) = Int.tdiv (c * n) m := by
    intro c hx
    have : x.toRat * (n : ℚ) / (m : ℚ) = (((c * n : Int) : Int) : ℚ) / (m : ℚ) := by
      rw [hx]
      push_cast
      rfl
    rw [this, truncRat_div]
  refine ⟨?_, fun c hx => ⟨hquot c hx, ?_⟩⟩
  · -- the spectrum of the constant signal
    have hxs : (List.replicate n x).map (fun v => ((v.toRat : ℚ) : ℂ)) =
        List.replicate n ((x.toRat : ℚ) : ℂ) := by
      rw [List.map_replicate]
    have hback : (exactFFTReal (List.replicate n x)).backing =
        (List.range n).map (exactDFT (List.replicate n ((x.toRat : ℚ) : ℂ))) := by
      unfold exactFFTReal
      simp only [List.length_replicate, hxs]
    have hre : (exactFFTReal (List.replicate n x)).resliceTo (m : Int) =
        .ok { backing := (List.range n).map (exactDFT (List.replicate n ((x.toRat : ℚ) : ℂ))),
              len := m } := by
      unfold GoSlice.resliceTo GoSlice.cap
      rw [hback, if_pos]
      · simp
      · simp only [List.length_map, List.length_range]
        exact ⟨Int.ofNat_nonneg m, by exact_mod_cast hmn⟩
    have hel : GoSlice.elems
        { backing := (List.range n).map (exactDFT (List.replicate n ((x.toRat : ℚ) : ℂ))),
          len := m } =
        (List.range m).map (exactDFT (List.replicate n ((x.toRat : ℚ) : ℂ))) := by
      unfold GoSlice.elems
      simp only []
      rw [← List.map_take, List.take_range, Nat.min_eq_left hmn]
    have hXlen :
        ((List.range m).map (exactDFT (List.replicate n ((x.toRat : ℚ) : ℂ)))).length = m := by
      simp
    have hX : ∀ k,
        k < ((List.range m).map (exactDFT (List.replicate n ((x.toRat : ℚ) : ℂ)))).length →
        ((List.range m).map (exactDFT (List.replicate n ((x.toRat : ℚ) : ℂ)))).getD k 0 =
          if k = 0 then (n : ℂ) * ((x.toRat : ℚ) : ℂ) else 0 := by
      intro k hk
      rw [hXlen] at hk
      rw [List.getD_eq_getElem?_getD, List.getElem?_map, List.getElem?_range hk]
      simp only [Option.map_some', Option.getD_some]
      exact exactDFT_replicate n k _ (lt_of_lt_of_le hk hmn)
    have hifft :
        exactIFFT ((List.range m).map (exactDFT (List.replicate n ((x.toRat : ℚ) : ℂ)))) =
        .ok (List.replicate m ((n : ℂ) * ((x.toRat : ℚ) : ℂ) / (m : ℂ))) := by
      unfold exactIFFT
      have hne :
          ((List.range m).map (exactDFT (List.replicate n ((x.toRat : ℚ) : ℂ)))).isEmpty =
            false := by
        cases m with
        | zero => omega
        | succ m' => simp [List.range_succ]
      rw [hne]
      simp only [Bool.false_eq_true, if_false, hXlen]
      congr 1
      apply map_const_range
      intro j _
      rw [exactIDFT_single _ ((n : ℂ) * ((x.toRat : ℚ) : ℂ)) j (by rw [hXlen]; omega) hX,
        hXlen]
    have hneg : ¬ ((m : Int) < 0) := by omega
    unfold resampleCore
    simp only [List.length_replicate, hin, hlen, hneg, if_false]
    rw [hre]
    simp only [bind, Except.bind, hel, hifft, List.map_replicate]
    have hcast : (n : ℂ) * ((x.toRat : ℚ) : ℂ) / (m : ℂ) =
        (((x.toRat * (n : ℚ) / (m : ℚ) : ℚ)) : ℂ) := by
      push_cast
      ring
    rw [hcast, truncRe_ratCast]
    rfl
  · intro hn
    rw [hquot c hx]
    subst hn
    have hm : (m : Int) ≠ 0 := by
      have : m ≠ 0 := by omega
      exact_mod_cast this
    have : c * ((2 * m : Nat) : Int) = 2 * c * (m : Int) := by
      push_cast
      ring
    rw [this, Int.mul_tdiv_cancel _ hm]

/-- Witness for C18: eight samples of value 3 from 44100 Hz to 22050 Hz give four samples of
value `3 * 8 / 4`, which is 6. -/
theorem resample_constant_exact_witness :
    resampleCore ℂ exactFFTReal exactIFFT truncRe (List.replicate 8 (f64OfInt 3))
        44100 22050 =
        .ok (List.replicate 4 (truncRat ((f64OfInt 3).toRat * (8 : Nat) / (4 : Nat)))) ∧
      truncRat ((f64OfInt 3).toRat * (8 : Nat) / (4 : Nat)) =
        Int.tdiv (3 * (8 : Nat)) (4 : Nat) ∧
      (8 = 2 * 4 → truncRat ((f64OfInt 3).toRat * (8 : Nat) / (4 : Nat)) = 2 * 3) :=
  ⟨(resample_constant_exact (f64OfInt 3) 8 4 44100 22050 (by decide) (by decide) (by decide)
      (by decide)).1,
    (resample_constant_exact (f64OfInt 3) 8 4 44100 22050 (by decide) (by decide) (by decide)
      (by decide)).2 3 (f64OfInt_exact 3 (by decide))⟩

end Audio

namespace Handler

open Audio

/-! ## Field names that stop convertFormData -/

/-- C20 (failing inputs): a form value named `inputs[0` (no closing bracket) or `inputs[0]`
(nothing after the bracket) stops `convertFormData` with a slice-bounds panic while the
name is taken apart, whatever the other fields and the outside functions are; with the test
double, a value named `inputs[-1].x` or `inputs[0].x[-1]` is parsed and then stops the
function with an index-out-of-range panic when `inputs[-1]`, respectively `vals[-1]`, is
assigned. -/
theorem convertFormData_panics :
    (∀ (env : FormEnv) (v : List String) (rest : List (String × List String))
        (files : List (String × List env.FileHeader)),
      convertFormData env (.ok ⟨("inputs[0", v) :: rest, files⟩) =
        .error (.panic "slice bounds out of range")) ∧
    (∀ (env : FormEnv) (v : List String) (rest : List (String × List String))
        (files : List (String × List env.FileHeader)),
      convertFormData env (.ok ⟨("inputs[0]", v) :: rest, files⟩) =
        .error (.panic "slice bounds out of range")) ∧
    convertFormData fakeFormEnv (.ok ⟨[("inputs[-1].x", ["1"])], []⟩) =
      .error (.panic "index out of range") ∧
    convertFormData fakeFormEnv (.ok ⟨[("inputs[0].x[-1]", ["1"])], []⟩) =
      .error (.panic "index out of range") := by
  refine ⟨fun env v rest files => ?_, fun env v rest files => ?_, ?_, ?_⟩
  · rfl
  · rfl
  · rfl
  · rfl

end Handler

namespace Audio

end Audio
